import Mathlib

/-!
# Blackjack: a shallow embedding of `src/blackjack.cpp`

The C++ classes become Lean structures and their member functions become
functions on those structures.

* `int` is modelled by `Int`.  Hand values, counts and the amounts moved by a
  bet, a push or a loss stay far inside the range of a 32-bit `int` in every
  run.  The sums of `Player::wins` do not: a player who stakes everything and
  wins 25 times in a row takes them past 2147483647.  Signed overflow is
  undefined behaviour in C++; `toInt32` gives those two sums the two's
  complement result that the usual builds produce.
* A member function that can throw returns `Except CustomExceptionWithErrorMessage _`
  together with the object as the throw leaves it, so that "the object is
  unchanged when the call fails" can be stated.
* `std::vector<Card*>` is a `List Card`; `back()` is the last element.  Cards
  are immutable values, so pointer identity and `delete` are not modelled.
* Console input and `std::rand()` are supplied by a `World` record of
  oracles; the game state keeps one cursor per oracle and a log of the
  presenter calls made so far.
-/

namespace Blackjack

/-! ## Exceptions -/

/-- The single exception class of the program; it only carries its message. -/
structure CustomExceptionWithErrorMessage where
  errorMessage : String
  deriving DecidableEq, Repr

/-- Message returned by `what()`. -/
def CustomExceptionWithErrorMessage.what (e : CustomExceptionWithErrorMessage) : String :=
  e.errorMessage

/-! ## Cards -/

/-- The enumeration `CardRank` (`Ace = 0`, ..., `King = 12`). -/
inductive CardRank where
  | Ace | Two | Three | Four | Five | Six | Seven | Eight | Nine | Ten | Jack | Queen | King
  deriving DecidableEq, Repr

/-- The enumeration `CardSuit` (`Spades = 0`, ..., `Clubs = 3`). -/
inductive CardSuit where
  | Spades | Hearts | Diamonds | Clubs
  deriving DecidableEq, Repr

/-- The `switch` of `Card::computeCardValue` on an enumerated rank. -/
def computeCardValue : CardRank → Int
  | .Ace => 1
  | .Two => 2
  | .Three => 3
  | .Four => 4
  | .Five => 5
  | .Six => 6
  | .Seven => 7
  | .Eight => 8
  | .Nine => 9
  | .Ten => 10
  | .Jack => 10
  | .Queen => 10
  | .King => 10

/-- A constructed `Card`.  The private field `cardValue` is set once, by the
constructor, to `computeCardValue ()`, and never written again; it is
therefore read back through `Card.getCardValue` instead of being stored. -/
structure Card where
  cardRank : CardRank
  cardSuit : CardSuit
  deriving DecidableEq, Repr

namespace Card

def getCardRank (c : Card) : CardRank := c.cardRank

def getCardSuit (c : Card) : CardSuit := c.cardSuit

def getCardValue (c : Card) : Int := computeCardValue c.cardRank

def isAce (c : Card) : Bool :=
  if c.cardRank = CardRank.Ace then true else false

end Card

/-! ## Hands -/

/-- The class `Hand`: the cards held, in the order they were added. -/
structure Hand where
  cardsInHand : List Card
  deriving DecidableEq, Repr

namespace Hand

def isHandEmpty (h : Hand) : Bool := h.cardsInHand.isEmpty

def getNumberOfCardsInHand (h : Hand) : Int := h.cardsInHand.length

/-- The loop of `Hand::handContainsAce`: the flag is raised at every Ace. -/
def handContainsAce (h : Hand) : Bool :=
  if h.isHandEmpty then false
  else h.cardsInHand.foldl (fun aceExists currentCard => if currentCard.isAce then true else aceExists) false

/-- The method `Hand::getHandValue`: the running sum of the card values, then the
single `+ 10` when the hand holds an Ace and the sum is at most 11. -/
def getHandValue (h : Hand) : Int :=
  if h.isHandEmpty then 0
  else
    let handValue := h.cardsInHand.foldl (fun handValue card => handValue + card.getCardValue) 0
    if h.handContainsAce && decide (handValue ≤ 11) then handValue + 10 else handValue

def addCardToHand (h : Hand) (newCard : Card) : Hand :=
  { cardsInHand := h.cardsInHand ++ [newCard] }

def clearHand (h : Hand) : Hand :=
  if h.isHandEmpty then h else { cardsInHand := [] }

end Hand

/-! ## Dealer -/

structure Dealer where
  dealerHand : Hand
  deriving DecidableEq, Repr

namespace Dealer

def getHandValue (d : Dealer) : Int := d.dealerHand.getHandValue

def handValueIsAtLeast17 (d : Dealer) : Bool :=
  let dealerHandValue := d.getHandValue
  if dealerHandValue ≥ 17 then true else false

def isHitting (d : Dealer) (newCard : Card) : Dealer :=
  { dealerHand := d.dealerHand.addCardToHand newCard }

def isBusted (d : Dealer) : Bool :=
  if d.dealerHand.getHandValue > 21 then true else false

def clearHand (d : Dealer) : Dealer :=
  { dealerHand := d.dealerHand.clearHand }

end Dealer

/-! ## Player -/

/-- The value a 32-bit `int` holds after an addition whose exact result is `x`: `x` itself
between -2147483648 and 2147483647, and `x` brought back into that range by a multiple of
4294967296 otherwise. -/
def toInt32 (x : Int) : Int := (x + 2147483648) % 4294967296 - 2147483648

structure Player where
  playerHand : Hand
  chipsToPlay : Int
  chipsInBettingBox : Int
  deriving DecidableEq, Repr

namespace Player

/-- The constant `static const int minimumBet = 1`. -/
def minimumBet : Int := 1

def getMinimumBet (_p : Player) : Int := minimumBet

def getHandValue (p : Player) : Int := p.playerHand.getHandValue

def buyChips (p : Player) (newChips : Int) : Player :=
  { p with chipsToPlay := p.chipsToPlay + newChips }

/-- The constructor `Player()`: no chips, then 100 bought, empty betting box. -/
def new : Player :=
  let p : Player := { playerHand := { cardsInHand := [] }, chipsToPlay := 0, chipsInBettingBox := 0 }
  let p := p.buyChips 100
  { p with chipsInBettingBox := 0 }

def getCurrentNumberOfChipsToPlay (p : Player) : Int := p.chipsToPlay

def hasAvailableChipsToPlay (p : Player) : Bool :=
  if p.chipsToPlay ≥ 1 then true else false

/-- The method `Player::isBetting`: the two guards in source order, then the transfer.
The second component is the player as the call leaves it. -/
def isBetting (p : Player) (chipsToBet : Int) :
    Except CustomExceptionWithErrorMessage Unit × Player :=
  if chipsToBet > p.getCurrentNumberOfChipsToPlay then
    (.error ⟨"Error: player is trying to bet more than their available chips."⟩, p)
  else if chipsToBet < p.getMinimumBet then
    (.error ⟨"Error: player is trying to bet less than the minimum bet of 1 chip."⟩, p)
  else
    (.ok (), { p with chipsToPlay := p.chipsToPlay - chipsToBet,
                      chipsInBettingBox := p.chipsInBettingBox + chipsToBet })

def isHitting (p : Player) (newCard : Card) : Player :=
  { p with playerHand := p.playerHand.addCardToHand newCard }

def isBusted (p : Player) : Bool :=
  if p.playerHand.getHandValue > 21 then true else false

def hasBlackjack (p : Player) : Bool :=
  if p.playerHand.getHandValue = 21 then true else false

/-- The method `Player::wins`: `chipsToPlay += chipsInBettingBox + chipsWon`, two additions
of `int`, each kept in 32 bits. -/
def wins (p : Player) : Player :=
  let chipsWon := p.chipsInBettingBox
  { p with chipsToPlay := toInt32 (p.chipsToPlay + toInt32 (p.chipsInBettingBox + chipsWon)),
           chipsInBettingBox := 0 }

def pushes (p : Player) : Player :=
  { p with chipsToPlay := p.chipsToPlay + p.chipsInBettingBox, chipsInBettingBox := 0 }

def loses (p : Player) : Player :=
  { p with chipsInBettingBox := 0 }

def clearHand (p : Player) : Player :=
  { p with playerHand := p.playerHand.clearHand }

end Player

/-! ## Deck -/

structure Deck where
  cardsInDeck : List Card
  deriving DecidableEq, Repr

/-- Modelled from the spec: the library routine `std::random_shuffle` is called by the
program but is not part of it; the spec says of it "randomly permutes current contents
in place".  It is modelled by the exchange loop of the common implementations: for
`i = 1, ..., n - 1` the element at `i` is exchanged with the one at `rand () % (i + 1)`.
`iter_swap xs i j` is that exchange. -/
def iter_swap (xs : List Card) (i j : Nat) : List Card :=
  if i = j then xs
  else
    match xs[i]?, xs[j]? with
    | some a, some b => (xs.set i b).set j a
    | _, _ => xs

/-- Modelled from the spec: the loop of `std::random_shuffle` (see `iter_swap`).
`rand k` is the value returned by the `k`-th call of `std::rand ()`; the loop runs
`steps` times from position `i` and returns the list with the number of calls made. -/
def random_shuffle_loop (rand : Nat → Nat) : Nat → Nat → Nat → List Card → List Card × Nat
  | 0, _, k, xs => (xs, k)
  | steps + 1, i, k, xs =>
      random_shuffle_loop rand steps (i + 1) (k + 1) (iter_swap xs i (rand k % (i + 1)))

/-- Modelled from the spec: `std::random_shuffle (first, last)` on the whole vector. -/
def random_shuffle (rand : Nat → Nat) (k : Nat) (xs : List Card) : List Card × Nat :=
  random_shuffle_loop rand (xs.length - 1) 1 k xs

namespace Deck

/-- The constant `static const int totalNumberOfCardsInCompleteDeck = 52`. -/
def totalNumberOfCardsInCompleteDeck : Int := 52

def isDeckEmpty (d : Deck) : Bool := d.cardsInDeck.isEmpty

def getCurrentNumberOfCardsInDeck (d : Deck) : Int := d.cardsInDeck.length

def clearDeck (d : Deck) : Deck :=
  if d.isDeckEmpty then d else { cardsInDeck := [] }

/-- The ranks visited by `for (rankInIntegerFormat = Ace; rankInIntegerFormat <= King; ...)`. -/
def ranksFromAceToKing : List CardRank :=
  [.Ace, .Two, .Three, .Four, .Five, .Six, .Seven, .Eight, .Nine, .Ten, .Jack, .Queen, .King]

/-- The method `Deck::createOrderedCardsOfSuit`: one `push_back` per rank.  Memory
exhaustion (`std::bad_alloc`) is outside the model. -/
def createOrderedCardsOfSuit (d : Deck) (suit : CardSuit) : Deck :=
  ranksFromAceToKing.foldl
    (fun d rank => { cardsInDeck := d.cardsInDeck ++ [{ cardRank := rank, cardSuit := suit }] }) d

def createOrderedDeck (d : Deck) : Deck :=
  let d := d.clearDeck
  let d := d.createOrderedCardsOfSuit .Spades
  let d := d.createOrderedCardsOfSuit .Hearts
  let d := d.createOrderedCardsOfSuit .Diamonds
  d.createOrderedCardsOfSuit .Clubs

/-- The constructor `Deck ()`. -/
def new : Deck := createOrderedDeck { cardsInDeck := [] }

/-- The method `Deck::shuffleDeck`; `k` counts the calls of `std::rand ()` made so far. -/
def shuffleDeck (rand : Nat → Nat) (k : Nat) (d : Deck) : Deck × Nat :=
  if !d.isDeckEmpty then
    let r := random_shuffle rand k d.cardsInDeck
    ({ cardsInDeck := r.1 }, r.2)
  else (d, k)

/-- The method `Deck::drawCardfromDeck`: the back of the vector is the top of the deck. -/
def drawCardfromDeck (d : Deck) : Except CustomExceptionWithErrorMessage Card × Deck :=
  if d.isDeckEmpty then
    (.error ⟨"Error: cannot draw card from an empty deck."⟩, d)
  else
    match d.cardsInDeck.getLast? with
    | some removedCard => (.ok removedCard, { cardsInDeck := d.cardsInDeck.dropLast })
    | none => (.error ⟨"Error: cannot draw card from an empty deck."⟩, d)

end Deck

/-! ## The console -/

/-- What the outside world supplies during a run.  `rand k` is the result of the `k`-th
call of `std::rand ()`.  The three prompts of `BlackjackPresenter` read the keyboard until
the answer is acceptable; what they finally return is given here, indexed by how many
times that prompt has been issued before.  `askPlayerToBetChips k minimumBet maximumBet`
leaves its loop only with a value between `minimumBet` and `maximumBet`; the statements
about a round take that as a hypothesis on the value returned. -/
structure World where
  rand : Nat → Nat
  askPlayerToBetChips : Nat → Int → Int → Int
  askPlayerForAdditionalCard : Nat → Bool
  askPlayerToPlayNewRound : Nat → Bool

/-- One call of a `BlackjackPresenter` method, with its arguments and, for a prompt, the
value it returned.  A hand is recorded as its cards; the text printed for it is not
modelled. -/
inductive Event where
  | displayWelcomeMessage
  | displayGoodbyeMessage
  | announceStartOfRound
  | announceEndOfRound
  | displayPlayerAvailableChipsToBetWith (playerChipsToPlay : Int)
  | askPlayerToBetChips (minimumBet maximumBet playerBetInChips : Int)
  | displayPlayerHand (hand : List Card)
  | displayPlayerHandValue (playerHandValue : Int)
  | displayDealerHand (hand : List Card)
  | displayDealerHandValue (dealerHandValue : Int)
  | announceSecondCardOfDealerIsHidden
  | askPlayerForAdditionalCard (playerWantsToGetOneAdditionalCard : Bool)
  | announcePlayerWins
  | announcePlayerPushes
  | announcePlayerLoses
  | displayPlayerCurrentNumberOfChips (currentNumberOfChips : Int)
  | displayRegretMessageNoChips
  | askPlayerToPlayNewRound (playerWantsToPlayNewRound : Bool)
  deriving DecidableEq, Repr

/-! ## The game -/

/-- The class `BlackjackGame`: its three members, then the state of the console: the
presenter calls made so far (oldest first) and the number of times `std::rand ()` and
each prompt have been used. -/
structure BlackjackGame where
  dealer : Dealer
  player : Player
  deck : Deck
  output : List Event
  randCalls : Nat
  betPrompts : Nat
  cardPrompts : Nat
  roundPrompts : Nat
  deriving DecidableEq, Repr

/-- Result of a `void` member function that may throw: how it ended, and the game as it
left it. -/
abbrev Outcome := Except CustomExceptionWithErrorMessage Unit × BlackjackGame

/-- Whether two calls ended the same way can be decided. -/
instance decEqEnding : DecidableEq (Except CustomExceptionWithErrorMessage Unit) :=
  fun a b =>
    match a, b with
    | .ok _, .ok _ => isTrue rfl
    | .error e, .error e' =>
      if h : e = e' then isTrue (congrArg Except.error h)
      else isFalse (fun h' => h (Except.error.inj h'))
    | .ok _, .error _ => isFalse (fun h => Except.noConfusion h)
    | .error _, .ok _ => isFalse (fun h => Except.noConfusion h)

namespace BlackjackGame

/-- The game object as `BlackjackGame game;` constructs it. -/
def new : BlackjackGame :=
  { dealer := { dealerHand := { cardsInHand := [] } }
    player := Player.new
    deck := Deck.new
    output := []
    randCalls := 0
    betPrompts := 0
    cardPrompts := 0
    roundPrompts := 0 }

/-- A presenter call that only prints. -/
def present (g : BlackjackGame) (e : Event) : BlackjackGame :=
  { g with output := g.output ++ [e] }

def clearDeck (g : BlackjackGame) : BlackjackGame :=
  { g with deck := g.deck.clearDeck }

def getOrderedDeck (g : BlackjackGame) : BlackjackGame :=
  { g with deck := g.deck.createOrderedDeck }

def shuffleDeck (w : World) (g : BlackjackGame) : BlackjackGame :=
  let r := g.deck.shuffleDeck w.rand g.randCalls
  { g with deck := r.1, randCalls := r.2 }

def isDeckEmpty (g : BlackjackGame) : Bool := g.deck.isDeckEmpty

def placeShuffledDeckIntoDealingShoe (w : World) (g : BlackjackGame) : BlackjackGame :=
  let g := g.clearDeck
  let g := g.getOrderedDeck
  g.shuffleDeck w

def getPlayerCurrentNumberOfChipsToPlay (g : BlackjackGame) : Int :=
  g.player.getCurrentNumberOfChipsToPlay

def playerHasAvailableChipsToPlay (g : BlackjackGame) : Bool :=
  g.player.hasAvailableChipsToPlay

def playerPlacesBet (w : World) (g : BlackjackGame) : Outcome :=
  let playerCurrentNumberOfChipsToPlay := g.getPlayerCurrentNumberOfChipsToPlay
  let g := g.present (.displayPlayerAvailableChipsToBetWith playerCurrentNumberOfChipsToPlay)
  let minimumBet : Int := 1
  let maximumBet := playerCurrentNumberOfChipsToPlay
  let playerBetInChips := w.askPlayerToBetChips g.betPrompts minimumBet maximumBet
  let g := { g.present (.askPlayerToBetChips minimumBet maximumBet playerBetInChips) with
             betPrompts := g.betPrompts + 1 }
  let r := g.player.isBetting playerBetInChips
  (r.1, { g with player := r.2 })

def displayPlayerHandContents (g : BlackjackGame) : BlackjackGame :=
  let g := g.present (.displayPlayerHand g.player.playerHand.cardsInHand)
  g.present (.displayPlayerHandValue g.player.getHandValue)

def getPlayerHandValue (g : BlackjackGame) : Int := g.player.getHandValue

def hideTheHoleCardFromPlayer (g : BlackjackGame) : BlackjackGame :=
  g.present .announceSecondCardOfDealerIsHidden

def dealCardToPlayer (w : World) (g : BlackjackGame) : Outcome :=
  let g := if g.isDeckEmpty then g.placeShuffledDeckIntoDealingShoe w else g
  match g.deck.drawCardfromDeck with
  | (.error e, d) => (.error e, { g with deck := d })
  | (.ok playerCard, d) => (.ok (), { g with deck := d, player := g.player.isHitting playerCard })

def checkPlayerWantsOneMoreCard (w : World) (g : BlackjackGame) : Bool × BlackjackGame :=
  let playerWantsToGetOneAdditionalCard := w.askPlayerForAdditionalCard g.cardPrompts
  (playerWantsToGetOneAdditionalCard,
   { g.present (.askPlayerForAdditionalCard playerWantsToGetOneAdditionalCard) with
     cardPrompts := g.cardPrompts + 1 })

def playerIsBusted (g : BlackjackGame) : Bool := g.player.isBusted

def playerHasBlackjack (g : BlackjackGame) : Bool := g.player.hasBlackjack

def informPlayerAboutTheirCurrentNumberOfChips (g : BlackjackGame) : BlackjackGame :=
  g.present (.displayPlayerCurrentNumberOfChips g.getPlayerCurrentNumberOfChipsToPlay)

def playerWins (g : BlackjackGame) : BlackjackGame :=
  let g := { g with player := g.player.wins }
  let g := g.present .announcePlayerWins
  g.informPlayerAboutTheirCurrentNumberOfChips

def playerPushes (g : BlackjackGame) : BlackjackGame :=
  let g := { g with player := g.player.pushes }
  let g := g.present .announcePlayerPushes
  g.informPlayerAboutTheirCurrentNumberOfChips

def playerLoses (g : BlackjackGame) : BlackjackGame :=
  let g := { g with player := g.player.loses }
  let g := g.present .announcePlayerLoses
  g.informPlayerAboutTheirCurrentNumberOfChips

def displayDealerHandContents (g : BlackjackGame) : BlackjackGame :=
  let g := g.present (.displayDealerHand g.dealer.dealerHand.cardsInHand)
  g.present (.displayDealerHandValue g.dealer.getHandValue)

def getDealerHandValue (g : BlackjackGame) : Int := g.dealer.getHandValue

def dealCardToDealer (w : World) (g : BlackjackGame) : Outcome :=
  let g := if g.isDeckEmpty then g.placeShuffledDeckIntoDealingShoe w else g
  match g.deck.drawCardfromDeck with
  | (.error e, d) => (.error e, { g with deck := d })
  | (.ok dealerCard, d) => (.ok (), { g with deck := d, dealer := g.dealer.isHitting dealerCard })

def dealerHandValueIsAtLeast17 (g : BlackjackGame) : Bool := g.dealer.handValueIsAtLeast17

def dealerIsBusted (g : BlackjackGame) : Bool := g.dealer.isBusted

def playerHandValueGreaterThanDealerHandValue (g : BlackjackGame) : Bool :=
  let playerHandValue := g.getPlayerHandValue
  let dealerHandValue := g.getDealerHandValue
  if playerHandValue > dealerHandValue then true else false

def playerHandValueIsEqualToDealerHandValue (g : BlackjackGame) : Bool :=
  let playerHandValue := g.getPlayerHandValue
  let dealerHandValue := g.getDealerHandValue
  if playerHandValue = dealerHandValue then true else false

def playerHandValueLessThanDealerHandValue (g : BlackjackGame) : Bool :=
  let playerHandValue := g.getPlayerHandValue
  let dealerHandValue := g.getDealerHandValue
  if playerHandValue < dealerHandValue then true else false

/-- The sum computed by the loop of `Hand::getHandValue`, before the Ace adjustment.  It
grows with every card added, which bounds the two drawing loops below. -/
def sumOfCardValues (cards : List Card) : Int :=
  cards.foldl (fun handValue card => handValue + card.getCardValue) 0

/-- The method `BlackjackGame::dealAdditionalCardsToPlayer`: the `while` loop asks, and
deals when the answer is yes, until the player is busted or holds 21. -/
def dealAdditionalCardsToPlayer (w : World) (g : BlackjackGame) : Outcome :=
  if _hloop : (!g.playerIsBusted && !g.playerHasBlackjack) = true then
    let r := g.checkPlayerWantsOneMoreCard w
    if !r.1 then (.ok (), r.2)
    else
      match _hdeal : r.2.dealCardToPlayer w with
      | (.error e, g1) => (.error e, g1)
      | (.ok _, g1) => dealAdditionalCardsToPlayer w g1.displayPlayerHandContents
  else (.ok (), g)
termination_by (21 - sumOfCardValues g.player.playerHand.cardsInHand).toNat
decreasing_by
  -- the card dealt is appended to the hand
  have hcard : ∃ c, g1.player.playerHand.cardsInHand = r.2.player.playerHand.cardsInHand ++ [c] := by
    have hd := _hdeal
    unfold dealCardToPlayer at hd
    simp only at hd
    split at hd
    · simp at hd
    · rename_i playerCard d _
      simp only [Prod.mk.injEq, true_and] at hd
      subst hd
      refine ⟨playerCard, ?_⟩
      simp only [Player.isHitting, Hand.addCardToHand]
      split <;> rfl
  obtain ⟨c, hc⟩ := hcard
  -- the hand value is at least the plain sum
  have hv : sumOfCardValues g.player.playerHand.cardsInHand ≤ g.player.playerHand.getHandValue := by
    unfold Hand.getHandValue Hand.isHandEmpty
    cases g.player.playerHand.cardsInHand with
    | nil => simp [sumOfCardValues]
    | cons c cs =>
      simp only [List.isEmpty_cons, Bool.false_eq_true, if_false]
      split <;> (simp only [sumOfCardValues]; omega)
  -- a card is worth at least 1
  have h1 : 1 ≤ c.getCardValue := by
    unfold Card.getCardValue
    generalize c.cardRank = rank
    cases rank <;> decide
  have hs : sumOfCardValues (g.player.playerHand.cardsInHand ++ [c])
      = sumOfCardValues g.player.playerHand.cardsInHand + c.getCardValue := by
    simp [sumOfCardValues, List.foldl_append]
  simp only [playerIsBusted, playerHasBlackjack, Player.isBusted, Player.hasBlackjack,
    Bool.and_eq_true, Bool.not_eq_true', ite_eq_right_iff, Bool.true_eq_false, imp_false,
    Bool.not_eq_eq_eq_not, Bool.not_true] at _hloop
  have hr : r.2.player = g.player := rfl
  simp only [displayPlayerHandContents, present] at hc ⊢
  rw [hc, hr, hs]
  omega

/-- The method `BlackjackGame::dealAdditionalCardsToDealer`: the `while` loop deals until the
dealer holds 17 or more. -/
def dealAdditionalCardsToDealer (w : World) (g : BlackjackGame) : Outcome :=
  if _hloop : (!g.dealerHandValueIsAtLeast17) = true then
    match _hdeal : g.dealCardToDealer w with
    | (.error e, g1) => (.error e, g1)
    | (.ok _, g1) => dealAdditionalCardsToDealer w g1.displayDealerHandContents
  else (.ok (), g)
termination_by (17 - sumOfCardValues g.dealer.dealerHand.cardsInHand).toNat
decreasing_by
  -- the card dealt is appended to the hand
  have hcard : ∃ c, g1.dealer.dealerHand.cardsInHand = g.dealer.dealerHand.cardsInHand ++ [c] := by
    have hd := _hdeal
    unfold dealCardToDealer at hd
    simp only at hd
    split at hd
    · simp at hd
    · rename_i dealerCard d _
      simp only [Prod.mk.injEq, true_and] at hd
      subst hd
      refine ⟨dealerCard, ?_⟩
      simp only [Dealer.isHitting, Hand.addCardToHand]
      split <;> rfl
  obtain ⟨c, hc⟩ := hcard
  -- the hand value is at least the plain sum
  have hv : sumOfCardValues g.dealer.dealerHand.cardsInHand ≤ g.dealer.dealerHand.getHandValue := by
    unfold Hand.getHandValue Hand.isHandEmpty
    cases g.dealer.dealerHand.cardsInHand with
    | nil => simp [sumOfCardValues]
    | cons c cs =>
      simp only [List.isEmpty_cons, Bool.false_eq_true, if_false]
      split <;> (simp only [sumOfCardValues]; omega)
  -- a card is worth at least 1
  have h1 : 1 ≤ c.getCardValue := by
    unfold Card.getCardValue
    generalize c.cardRank = rank
    cases rank <;> decide
  have hs : sumOfCardValues (g.dealer.dealerHand.cardsInHand ++ [c])
      = sumOfCardValues g.dealer.dealerHand.cardsInHand + c.getCardValue := by
    simp [sumOfCardValues, List.foldl_append]
  simp only [dealerHandValueIsAtLeast17, Dealer.handValueIsAtLeast17, Dealer.getHandValue,
    Bool.not_eq_true', ite_eq_right_iff, Bool.true_eq_false, imp_false] at _hloop
  simp only [displayDealerHandContents, present] at hc ⊢
  rw [hc, hs]
  omega

/-- Sequencing of two steps: the second runs only if the first did not throw. -/
def andThen (r : Outcome) (next : BlackjackGame → Outcome) : Outcome :=
  match r with
  | (.ok _, g) => next g
  | (.error e, g) => (.error e, g)

/-- The method `BlackjackGame::roundStarts`. -/
def roundStarts (w : World) (g : BlackjackGame) : Outcome :=
  let g := g.present .announceStartOfRound
  let g := g.placeShuffledDeckIntoDealingShoe w
  andThen (g.playerPlacesBet w) fun g =>
  andThen (g.dealCardToPlayer w) fun g =>
  andThen (g.dealCardToPlayer w) fun g =>
  let g := g.displayPlayerHandContents
  andThen (g.dealCardToDealer w) fun g =>
  let g := g.displayDealerHandContents
  andThen (g.dealCardToDealer w) fun g =>
  let g := g.hideTheHoleCardFromPlayer
  andThen (g.dealAdditionalCardsToPlayer w) fun g =>
  if g.playerIsBusted then (.ok (), g.playerLoses)
  else
    let g := g.displayDealerHandContents
    andThen (g.dealAdditionalCardsToDealer w) fun g =>
    if g.dealerIsBusted then (.ok (), g.playerWins)
    else if g.playerHandValueGreaterThanDealerHandValue then (.ok (), g.playerWins)
    else if g.playerHandValueLessThanDealerHandValue then (.ok (), g.playerLoses)
    else if g.playerHandValueIsEqualToDealerHandValue then (.ok (), g.playerPushes)
    else (.ok (), g)

/-! ## Bounded evaluators

The two loops above are defined by well-founded recursion, which the kernel does not
unfold on closed terms.  The functions below run the same code for at most `fuel` passes
of each loop and return `none` when that is not enough; `roundStartsWithin_sound` shows
that whatever they return is what the round returns. -/

def dealAdditionalCardsToPlayerWithin (w : World) : Nat → BlackjackGame → Option Outcome
  | 0, _ => none
  | fuel + 1, g =>
    if (!g.playerIsBusted && !g.playerHasBlackjack) = true then
      let r := g.checkPlayerWantsOneMoreCard w
      if !r.1 then some (.ok (), r.2)
      else
        match r.2.dealCardToPlayer w with
        | (.error e, g1) => some (.error e, g1)
        | (.ok _, g1) => dealAdditionalCardsToPlayerWithin w fuel g1.displayPlayerHandContents
    else some (.ok (), g)

def dealAdditionalCardsToDealerWithin (w : World) : Nat → BlackjackGame → Option Outcome
  | 0, _ => none
  | fuel + 1, g =>
    if (!g.dealerHandValueIsAtLeast17) = true then
      match g.dealCardToDealer w with
      | (.error e, g1) => some (.error e, g1)
      | (.ok _, g1) => dealAdditionalCardsToDealerWithin w fuel g1.displayDealerHandContents
    else some (.ok (), g)

/-- Sequencing for the bounded evaluators: `none` is passed on. -/
def andThenWithin (r : Option Outcome) (next : BlackjackGame → Option Outcome) : Option Outcome :=
  match r with
  | none => none
  | some (.ok _, g) => next g
  | some (.error e, g) => some (.error e, g)

def roundStartsWithin (fuel : Nat) (w : World) (g : BlackjackGame) : Option Outcome :=
  let g := g.present .announceStartOfRound
  let g := g.placeShuffledDeckIntoDealingShoe w
  andThenWithin (some (g.playerPlacesBet w)) fun g =>
  andThenWithin (some (g.dealCardToPlayer w)) fun g =>
  andThenWithin (some (g.dealCardToPlayer w)) fun g =>
  let g := g.displayPlayerHandContents
  andThenWithin (some (g.dealCardToDealer w)) fun g =>
  let g := g.displayDealerHandContents
  andThenWithin (some (g.dealCardToDealer w)) fun g =>
  let g := g.hideTheHoleCardFromPlayer
  andThenWithin (g.dealAdditionalCardsToPlayerWithin w fuel) fun g =>
  if g.playerIsBusted then some (.ok (), g.playerLoses)
  else
    let g := g.displayDealerHandContents
    andThenWithin (g.dealAdditionalCardsToDealerWithin w fuel) fun g =>
    if g.dealerIsBusted then some (.ok (), g.playerWins)
    else if g.playerHandValueGreaterThanDealerHandValue then some (.ok (), g.playerWins)
    else if g.playerHandValueLessThanDealerHandValue then some (.ok (), g.playerLoses)
    else if g.playerHandValueIsEqualToDealerHandValue then some (.ok (), g.playerPushes)
    else some (.ok (), g)

end BlackjackGame

/-! ## Vocabulary of the statements -/

/-- The three announcements made by `playerWins`, `playerPushes` and `playerLoses`, each
right after the corresponding `Player` method has been applied. -/
def Event.isSettlementAnnouncement : Event → Bool
  | .announcePlayerWins => true
  | .announcePlayerPushes => true
  | .announcePlayerLoses => true
  | _ => false

/-- The presenter calls made inside `dealAdditionalCardsToPlayer`. -/
def Event.isPlayerTurnEvent : Event → Bool
  | .askPlayerForAdditionalCard _ => true
  | .displayPlayerHand _ => true
  | .displayPlayerHandValue _ => true
  | _ => false

/-- The presenter calls made by `displayDealerHandContents`. -/
def Event.isDealerDisplay : Event → Bool
  | .displayDealerHand _ => true
  | .displayDealerHandValue _ => true
  | _ => false

/-- The settlement announcements of a log, in order. -/
def settlementAnnouncements (output : List Event) : List Event :=
  output.filter Event.isSettlementAnnouncement

/-- How many times the dealer's hand has been shown in a log. -/
def dealerHandDisplays (output : List Event) : Nat :=
  (output.filter fun e => match e with | .displayDealerHand _ => true | _ => false).length

/-- What `dealAdditionalCardsToPlayer` does to the game: it only asks, deals to the player
and shows the player's hand. -/
structure PlayerTurn (g g' : BlackjackGame) : Prop where
  chipsToPlay : g'.player.chipsToPlay = g.player.chipsToPlay
  chipsInBettingBox : g'.player.chipsInBettingBox = g.player.chipsInBettingBox
  dealer : g'.dealer = g.dealer
  betPrompts : g'.betPrompts = g.betPrompts
  roundPrompts : g'.roundPrompts = g.roundPrompts
  hand : ∃ drawn, g'.player.playerHand.cardsInHand = g.player.playerHand.cardsInHand ++ drawn
  output : ∃ events, g'.output = g.output ++ events ∧ ∀ e ∈ events, e.isPlayerTurnEvent = true

/-- What `dealAdditionalCardsToDealer` does to the game: it only deals to the dealer and shows
the dealer's hand, and every card is drawn at a value below 17. -/
structure DealerTurn (g g' : BlackjackGame) : Prop where
  player : g'.player = g.player
  betPrompts : g'.betPrompts = g.betPrompts
  cardPrompts : g'.cardPrompts = g.cardPrompts
  roundPrompts : g'.roundPrompts = g.roundPrompts
  hand : ∃ drawn, g'.dealer.dealerHand.cardsInHand = g.dealer.dealerHand.cardsInHand ++ drawn ∧
    ∀ k, k < drawn.length →
      Hand.getHandValue ⟨g.dealer.dealerHand.cardsInHand ++ drawn.take k⟩ < 17
  output : ∃ events, g'.output = g.output ++ events ∧ ∀ e ∈ events, e.isDealerDisplay = true

namespace BlackjackGame

/-- The statements of `roundStarts` that follow `dealAdditionalCardsToPlayer ()`, copied as
they stand; `roundStarts_of_shoe` shows that the round ends with them. -/
def roundClosing (w : World) (g : BlackjackGame) : Outcome :=
  if g.playerIsBusted then (.ok (), g.playerLoses)
  else
    let g := g.displayDealerHandContents
    andThen (g.dealAdditionalCardsToDealer w) fun g =>
    if g.dealerIsBusted then (.ok (), g.playerWins)
    else if g.playerHandValueGreaterThanDealerHandValue then (.ok (), g.playerWins)
    else if g.playerHandValueLessThanDealerHandValue then (.ok (), g.playerLoses)
    else if g.playerHandValueIsEqualToDealerHandValue then (.ok (), g.playerPushes)
    else (.ok (), g)

/-- The game when `roundStarts` reaches `dealAdditionalCardsToPlayer ()`, for a shoe whose four
top cards are `c1` (the top), `c2`, `c3`, `c4` above `rest` and a bet that was accepted:
`c1` and `c2` went to the player, `c3` and `c4` to the dealer. -/
def afterDeal (w : World) (g : BlackjackGame) (rest : List Card) (c1 c2 c3 c4 : Card) :
    BlackjackGame :=
  let available := g.player.chipsToPlay
  let bet := w.askPlayerToBetChips g.betPrompts 1 available
  let playerCards := g.player.playerHand.cardsInHand ++ [c1, c2]
  let dealerCards := g.dealer.dealerHand.cardsInHand ++ [c3]
  { dealer := { dealerHand := { cardsInHand := g.dealer.dealerHand.cardsInHand ++ [c3, c4] } }
    player := { playerHand := { cardsInHand := playerCards }
                chipsToPlay := available - bet
                chipsInBettingBox := g.player.chipsInBettingBox + bet }
    deck := { cardsInDeck := rest }
    output := g.output ++
      [.announceStartOfRound,
       .displayPlayerAvailableChipsToBetWith available,
       .askPlayerToBetChips 1 available bet,
       .displayPlayerHand playerCards,
       .displayPlayerHandValue (Hand.getHandValue { cardsInHand := playerCards }),
       .displayDealerHand dealerCards,
       .displayDealerHandValue (Hand.getHandValue { cardsInHand := dealerCards }),
       .announceSecondCardOfDealerIsHidden]
    randCalls := (g.placeShuffledDeckIntoDealingShoe w).randCalls
    betPrompts := g.betPrompts + 1
    cardPrompts := g.cardPrompts
    roundPrompts := g.roundPrompts }

end BlackjackGame

/-- The three ways a round is settled. -/
inductive Settlement where
  | wins | pushes | loses
  deriving DecidableEq, Repr

namespace Settlement

/-- The `Player` method of a settlement. -/
def onPlayer : Settlement → Player → Player
  | .wins, p => p.wins
  | .pushes, p => p.pushes
  | .loses, p => p.loses

/-- The `BlackjackGame` method of a settlement. -/
def onGame : Settlement → BlackjackGame → BlackjackGame
  | .wins, g => g.playerWins
  | .pushes, g => g.playerPushes
  | .loses, g => g.playerLoses

/-- The announcement of a settlement. -/
def announcement : Settlement → Event
  | .wins => .announcePlayerWins
  | .pushes => .announcePlayerPushes
  | .loses => .announcePlayerLoses

end Settlement

/-- The settlement that two final hand values call for: a loss above 21; otherwise a win
against a dealer above 21; otherwise a win, a loss or a push as the player's value is
greater than, less than or equal to the dealer's. -/
def settlementFor (playerValue dealerValue : Int) : Settlement :=
  if 21 < playerValue then .loses
  else if 21 < dealerValue then .wins
  else if dealerValue < playerValue then .wins
  else if playerValue < dealerValue then .loses
  else .pushes

/-- A round that ran to its settlement: `gs` is the game when the settlement `s` is reached,
with the bet moved to the betting box and nothing settled yet, and the round returns
`s.onGame gs`.  The settlement is the one the hand values of `gs` call for. -/
structure SettledRound (w : World) (g gs : BlackjackGame) (s : Settlement) : Prop where
  result : BlackjackGame.roundStarts w g = (.ok (), s.onGame gs)
  chipsToPlay : gs.player.chipsToPlay =
    g.player.chipsToPlay - w.askPlayerToBetChips g.betPrompts 1 g.player.chipsToPlay
  chipsInBettingBox : gs.player.chipsInBettingBox =
    g.player.chipsInBettingBox + w.askPlayerToBetChips g.betPrompts 1 g.player.chipsToPlay
  announcements : settlementAnnouncements gs.output = settlementAnnouncements g.output
  playerHand : ∃ c1 c2 drawn,
    gs.player.playerHand.cardsInHand = g.player.playerHand.cardsInHand ++ c1 :: c2 :: drawn
  dealerHand : ∃ c3 c4 drawn,
    gs.dealer.dealerHand.cardsInHand = g.dealer.dealerHand.cardsInHand ++ c3 :: c4 :: drawn ∧
    (21 < gs.player.getHandValue → drawn = [])
  dealerDisplays : 21 < gs.player.getHandValue →
    dealerHandDisplays gs.output = dealerHandDisplays g.output + 1
  rule : s = settlementFor gs.player.getHandValue gs.dealer.getHandValue

/-! ## Concrete runs

`rand k = k + 1` makes `random_shuffle` exchange every element with itself, so the shoe is
the ordered deck with the King of Clubs on top, then the Queen, the Jack, the Ten and the
Nine of Clubs.  Each run below changes that order at one or two steps. -/

/-- The player is dealt King + Queen (20) and stands; the dealer holds Jack + Seven (17). -/
def worldPlayer20Dealer17 : World :=
  { rand := fun k => if k = 47 then 45 else k + 1
    askPlayerToBetChips := fun _ _ _ => 10
    askPlayerForAdditionalCard := fun _ => false
    askPlayerToPlayNewRound := fun _ => false }

/-- The player bets 5, is dealt King + Queen, asks for a card and receives a Three (23). -/
def worldPlayerBusts23 : World :=
  { rand := fun k => if k = 46 then 41 else k + 1
    askPlayerToBetChips := fun _ _ _ => 5
    askPlayerForAdditionalCard := fun _ => true
    askPlayerToPlayNewRound := fun _ => false }

/-- The player is dealt King + Nine (19) and stands; the dealer holds Jack + Nine (19). -/
def worldPush19 : World :=
  { rand := fun k => if k = 47 then 34 else if k = 49 then 47 else k + 1
    askPlayerToBetChips := fun _ _ _ => 10
    askPlayerForAdditionalCard := fun _ => false
    askPlayerToPlayNewRound := fun _ => false }

/-- The player is dealt King + Queen (20) and stands; the dealer holds Five + Ten (15) and
draws the Nine of Clubs (24). -/
def worldDealerDraws : World :=
  { rand := fun k => if k = 48 then 43 else k + 1
    askPlayerToBetChips := fun _ _ _ => 10
    askPlayerForAdditionalCard := fun _ => false
    askPlayerToPlayNewRound := fun _ => false }

/-- The player is dealt King + Ace (21) and, though ready to say yes, is not asked; the dealer
holds Jack + Ace (21). -/
def worldTwentyOnePush : World :=
  { rand := fun k => if k = 47 then 26 else if k = 49 then 39 else k + 1
    askPlayerToBetChips := fun _ _ _ => 10
    askPlayerForAdditionalCard := fun _ => true
    askPlayerToPlayNewRound := fun _ => false }

/-- The player stakes everything in every round and goes on; every shuffle gives King + Ace
(21) to the player and Jack + Ten (20) to the dealer. -/
def worldAllInTwentyOne : World :=
  { rand := fun k => if k % 51 = 49 then 39 else k % 51 + 1
    askPlayerToBetChips := fun _ _ maximumBet => maximumBet
    askPlayerForAdditionalCard := fun _ => true
    askPlayerToPlayNewRound := fun _ => true }

/-! ## Enumeration codes and the `Card` constructor

`CardRank` and `CardSuit` are plain C++ enumerations, so a cast can hand the constructor a
code that names no enumerator.  `CardObject` is the object with its two enumeration fields
read as integers; the `switch` statements are written on those codes, `default` included.
Every `Card` of the model is the object built from the codes of its rank and suit. -/

/-- The value of each enumerator of `CardRank`. -/
def CardRank.code : CardRank → Int
  | .Ace => 0
  | .Two => 1
  | .Three => 2
  | .Four => 3
  | .Five => 4
  | .Six => 5
  | .Seven => 6
  | .Eight => 7
  | .Nine => 8
  | .Ten => 9
  | .Jack => 10
  | .Queen => 11
  | .King => 12

/-- The value of each enumerator of `CardSuit`. -/
def CardSuit.code : CardSuit → Int
  | .Spades => 0
  | .Hearts => 1
  | .Diamonds => 2
  | .Clubs => 3

/-- The three private fields of a `Card`, the enumerations as the integers they hold. -/
structure CardObject where
  cardRank : Int
  cardSuit : Int
  cardValue : Int
  deriving DecidableEq, Repr

namespace CardObject

/-- The method `Card::computeCardValue` on the code held by `cardRank`: thirteen `case` labels
and the throwing `default`. -/
def computeCardValue (cardRank : Int) : Except CustomExceptionWithErrorMessage Int :=
  if cardRank = 0 then .ok 1
  else if cardRank = 1 then .ok 2
  else if cardRank = 2 then .ok 3
  else if cardRank = 3 then .ok 4
  else if cardRank = 4 then .ok 5
  else if cardRank = 5 then .ok 6
  else if cardRank = 6 then .ok 7
  else if cardRank = 7 then .ok 8
  else if cardRank = 8 then .ok 9
  else if cardRank = 9 then .ok 10
  else if cardRank = 10 then .ok 10
  else if cardRank = 11 then .ok 10
  else if cardRank = 12 then .ok 10
  else .error ⟨"Error: card rank is not identified."⟩

/-- The constructor `Card (rank, suit)`: both fields are stored, then the value is computed
from the rank.  The suit is not looked at. -/
def new (rank suit : Int) : Except CustomExceptionWithErrorMessage CardObject :=
  match computeCardValue rank with
  | .ok cardValue => .ok { cardRank := rank, cardSuit := suit, cardValue := cardValue }
  | .error e => .error e

/-- The method `Card::getCardSuitInTextFormat`: four `case` labels and the throwing `default`. -/
def getCardSuitInTextFormat (c : CardObject) : Except CustomExceptionWithErrorMessage String :=
  if c.cardSuit = 0 then .ok "Spades"
  else if c.cardSuit = 1 then .ok "Hearts"
  else if c.cardSuit = 2 then .ok "Diamonds"
  else if c.cardSuit = 3 then .ok "Clubs"
  else .error ⟨"Error: card suit is not identified."⟩

end CardObject

/-- The object behind a card of the model. -/
def Card.toObject (c : Card) : CardObject :=
  { cardRank := c.cardRank.code, cardSuit := c.cardSuit.code, cardValue := c.getCardValue }

/-! ## The session -/

namespace BlackjackGame

def gameStarts (g : BlackjackGame) : BlackjackGame :=
  g.present .displayWelcomeMessage

def gameEnds (g : BlackjackGame) : BlackjackGame :=
  g.present .displayGoodbyeMessage

def discardAllCardsFromTable (g : BlackjackGame) : BlackjackGame :=
  { g with player := g.player.clearHand, dealer := g.dealer.clearHand, deck := g.deck.clearDeck }

def roundEnds (g : BlackjackGame) : BlackjackGame :=
  let g := g.present .announceEndOfRound
  g.discardAllCardsFromTable

def informPlayerAboutLackOfChips (g : BlackjackGame) : BlackjackGame :=
  g.present .displayRegretMessageNoChips

def askPlayerToPlayNewRound (w : World) (g : BlackjackGame) : Bool × BlackjackGame :=
  let playerWantsToPlayNewRound := w.askPlayerToPlayNewRound g.roundPrompts
  (playerWantsToPlayNewRound,
   { g.present (.askPlayerToPlayNewRound playerWantsToPlayNewRound) with
     roundPrompts := g.roundPrompts + 1 })

/-- How one pass of the `do ... while` loop of `beginPlaying` ends: the `while` condition
holds and the body runs `again`, or control has `left` the method, by `return` or by an
exception. -/
inductive LoopPass where
  | again (g : BlackjackGame)
  | left (r : Outcome)
  deriving DecidableEq

/-- One pass of the `do ... while` loop of `beginPlaying`: the body, then the condition. -/
def beginPlayingPass (w : World) (g : BlackjackGame) : LoopPass :=
  match g.roundStarts w with
  | (.error e, g) => .left (.error e, g)
  | (.ok _, g) =>
    let g := g.roundEnds
    if !g.playerHasAvailableChipsToPlay then
      let g := g.informPlayerAboutLackOfChips
      .left (.ok (), g.gameEnds)
    else
      let r := g.askPlayerToPlayNewRound w
      if r.1 == true then .again r.2
      else .left (.ok (), r.2.gameEnds)

/-- The `do ... while` loop of `beginPlaying`, for at most `rounds` passes; `none` when the
session is still going after that many rounds (a player who never runs out of chips and
always answers yes plays for ever). -/
def beginPlayingLoop (w : World) : Nat → BlackjackGame → Option Outcome
  | 0, _ => none
  | rounds + 1, g =>
    match beginPlayingPass w g with
    | .again g => beginPlayingLoop w rounds g
    | .left r => some r

/-- The method `BlackjackGame::beginPlaying`, for at most `rounds` rounds. -/
def beginPlaying (rounds : Nat) (w : World) (g : BlackjackGame) : Option Outcome :=
  let g := g.gameStarts
  if !g.playerHasAvailableChipsToPlay then
    let g := g.informPlayerAboutLackOfChips
    some (.ok (), g.gameEnds)
  else beginPlayingLoop w rounds g

/-- The game at the head of pass `n` (counted from 0) of the loop entered with `g`, if the
session gets that far. -/
def gameAtPass (w : World) (g : BlackjackGame) : Nat → Option BlackjackGame
  | 0 => some g
  | n + 1 =>
    match gameAtPass w g n with
    | some g' =>
      match beginPlayingPass w g' with
      | .again g'' => some g''
      | .left _ => none
    | none => none

end BlackjackGame

/-- The contract of the bet prompt: asked for a bet between `minimumBet` and `maximumBet`, it
returns one (its loop in `BlackjackPresenter::askPlayerToBetChips` is left in no other way). -/
def World.betsWithinBounds (w : World) : Prop :=
  ∀ (k : Nat) (minimumBet maximumBet : Int), minimumBet ≤ maximumBet →
    minimumBet ≤ w.askPlayerToBetChips k minimumBet maximumBet ∧
    w.askPlayerToBetChips k minimumBet maximumBet ≤ maximumBet

/-- The player stakes everything, is dealt King + Queen, asks for a card and receives a Three
(23); asked, the player would play another round. -/
def worldAllInBust : World :=
  { rand := fun k => if k = 46 then 41 else k + 1
    askPlayerToBetChips := fun _ _ maximumBet => maximumBet
    askPlayerForAdditionalCard := fun _ => true
    askPlayerToPlayNewRound := fun _ => true }

/-- The game returned by the one round of the run `worldAllInBust` entered from a fresh game. -/
def gameAfterAllInBust : BlackjackGame :=
  ((BlackjackGame.roundStartsWithin 3 worldAllInBust BlackjackGame.new.gameStarts).getD
    (.ok (), BlackjackGame.new)).2

/-! ## The standard valuation of a hand

Written from the rules of the game, not from the code: every Ace counts 1 or 11,
independently of the others, and the best total is kept. -/

/-- Every total of a hand: each Ace counted as 1 or as 11, the other cards at their value. -/
def standardTotals : List Card → List Int
  | [] => [0]
  | c :: cs =>
    if c.cardRank = CardRank.Ace then
      (standardTotals cs).map (fun t => t + 1) ++ (standardTotals cs).map (fun t => t + 11)
    else (standardTotals cs).map (fun t => t + c.getCardValue)

/-- The largest of `t` and the members of `ts`. -/
def largestOf (t : Int) (ts : List Int) : Int := ts.foldl max t

/-- The smallest of `t` and the members of `ts`. -/
def smallestOf (t : Int) (ts : List Int) : Int := ts.foldl min t

/-- The standard value of a hand: the largest total that is at most 21 if there is one, the
smallest total otherwise. -/
def standardValue (cards : List Card) : Int :=
  match (standardTotals cards).filter (fun t => decide (t ≤ 21)) with
  | t :: ts => largestOf t ts
  | [] =>
    match standardTotals cards with
    | t :: ts => smallestOf t ts
    | [] => 0

/-! ## Hand value -/

namespace BlackjackGame

theorem sumOfCardValues_append_singleton (cards : List Card) (c : Card) :
    sumOfCardValues (cards ++ [c]) = sumOfCardValues cards + c.getCardValue := by
  simp [sumOfCardValues, List.foldl_append]

theorem one_le_getCardValue (c : Card) : 1 ≤ c.getCardValue := by
  rcases c with ⟨r, s⟩
  cases r <;> simp [Card.getCardValue, computeCardValue]

theorem sumOfCardValues_le_getHandValue (h : Hand) :
    sumOfCardValues h.cardsInHand ≤ h.getHandValue := by
  unfold Hand.getHandValue Hand.isHandEmpty
  cases hc : h.cardsInHand with
  | nil => simp [sumOfCardValues]
  | cons c cs =>
    simp only [List.isEmpty_cons, Bool.false_eq_true, if_false]
    split
    · simp only [sumOfCardValues]; omega
    · simp only [sumOfCardValues]; omega

end BlackjackGame

theorem foldl_add_getCardValue (cards : List Card) (start : Int) :
    cards.foldl (fun handValue card => handValue + card.getCardValue) start
      = start + (cards.map Card.getCardValue).sum := by
  induction cards generalizing start with
  | nil => simp
  | cons c cs ih => simp [ih, add_assoc]

theorem sumOfCardValues_eq_sum (cards : List Card) :
    BlackjackGame.sumOfCardValues cards = (cards.map Card.getCardValue).sum := by
  simp [BlackjackGame.sumOfCardValues, foldl_add_getCardValue]

theorem foldl_aceExists (cards : List Card) (start : Bool) :
    cards.foldl (fun aceExists currentCard => if currentCard.isAce then true else aceExists) start
      = (start || cards.any Card.isAce) := by
  induction cards generalizing start with
  | nil => simp
  | cons c cs ih =>
    simp only [List.foldl_cons, ih, List.any_cons]
    cases start <;> cases c.isAce <;> simp

theorem isAce_eq_true_iff (c : Card) : c.isAce = true ↔ c.cardRank = CardRank.Ace := by
  simp [Card.isAce]

theorem handContainsAce_eq_true_iff (h : Hand) :
    h.handContainsAce = true ↔ ∃ c ∈ h.cardsInHand, c.cardRank = CardRank.Ace := by
  unfold Hand.handContainsAce Hand.isHandEmpty
  cases hc : h.cardsInHand with
  | nil => simp
  | cons c cs =>
    simp only [List.isEmpty_cons, Bool.false_eq_true, if_false]
    rw [foldl_aceExists]
    simp only [Bool.false_or, List.any_eq_true, isAce_eq_true_iff]

theorem getHandValue_eq (h : Hand) :
    h.getHandValue =
      (h.cardsInHand.map Card.getCardValue).sum +
        (if (∃ c ∈ h.cardsInHand, c.cardRank = CardRank.Ace) ∧
            (h.cardsInHand.map Card.getCardValue).sum ≤ 11 then 10 else 0) := by
  have hace := handContainsAce_eq_true_iff h
  unfold Hand.getHandValue Hand.isHandEmpty
  cases hc : h.cardsInHand with
  | nil => simp
  | cons c cs =>
    rw [hc] at hace
    simp only [List.isEmpty_cons, Bool.false_eq_true, if_false, foldl_add_getCardValue,
      zero_add, Bool.and_eq_true, decide_eq_true_eq, hace]
    split <;> simp

/-- C1: `Hand.getHandValue` is the sum of the card values, an Ace counting 1, plus 10 exactly
when the hand holds an Ace and that sum is at most 11; so a hand without an Ace is worth the
plain sum, Ace + 9 + Ace is worth 21, Ace + King + 5 is worth 16 and the empty hand 0. -/
theorem getHandValue_is_sum_with_one_ace_adjustment :
    (∀ s : CardSuit, Card.getCardValue ⟨.Ace, s⟩ = 1) ∧
    (∀ h : Hand, h.getHandValue =
        (h.cardsInHand.map Card.getCardValue).sum +
          (if (∃ c ∈ h.cardsInHand, c.cardRank = CardRank.Ace) ∧
              (h.cardsInHand.map Card.getCardValue).sum ≤ 11 then 10 else 0)) ∧
    (∀ h : Hand, (∀ c ∈ h.cardsInHand, c.cardRank ≠ CardRank.Ace) →
        h.getHandValue = (h.cardsInHand.map Card.getCardValue).sum) ∧
    (∀ h : Hand, (∃ c ∈ h.cardsInHand, c.cardRank = CardRank.Ace) →
        11 < (h.cardsInHand.map Card.getCardValue).sum →
        h.getHandValue = (h.cardsInHand.map Card.getCardValue).sum) ∧
    (∀ s1 s2 s3 : CardSuit,
        Hand.getHandValue ⟨[⟨.Ace, s1⟩, ⟨.Nine, s2⟩, ⟨.Ace, s3⟩]⟩ = 21) ∧
    (∀ s1 s2 s3 : CardSuit,
        Hand.getHandValue ⟨[⟨.Ace, s1⟩, ⟨.King, s2⟩, ⟨.Five, s3⟩]⟩ = 16) ∧
    Hand.getHandValue ⟨[]⟩ = 0 := by
  refine ⟨fun _ => rfl, getHandValue_eq, ?_, ?_, ?_, ?_, ?_⟩
  · intro h hno
    rw [getHandValue_eq, if_neg, add_zero]
    rintro ⟨⟨c, hc, hr⟩, -⟩
    exact hno c hc hr
  · intro h _ hgt
    rw [getHandValue_eq, if_neg, add_zero]
    rintro ⟨-, hle⟩
    omega
  · intro s1 s2 s3; rfl
  · intro s1 s2 s3; rfl
  · rfl

/-- C1, at concrete hands: 7 + King without an Ace is worth 17, and Ace + 5 + 6 (sum 12, above
11) is worth 12. -/
theorem getHandValue_is_sum_with_one_ace_adjustment_witness :
    Hand.getHandValue ⟨[⟨.Seven, .Hearts⟩, ⟨.King, .Spades⟩]⟩ = 7 + 10 ∧
    Hand.getHandValue ⟨[⟨.Ace, .Hearts⟩, ⟨.Five, .Clubs⟩, ⟨.Six, .Clubs⟩]⟩ = 1 + 5 + 6 :=
  ⟨getHandValue_is_sum_with_one_ace_adjustment.2.2.1
      ⟨[⟨.Seven, .Hearts⟩, ⟨.King, .Spades⟩]⟩ (by decide),
   getHandValue_is_sum_with_one_ace_adjustment.2.2.2.1
      ⟨[⟨.Ace, .Hearts⟩, ⟨.Five, .Clubs⟩, ⟨.Six, .Clubs⟩]⟩ (by decide) (by decide)⟩

/-! ## The chip ledger -/

theorem toInt32_of_fits (x : Int) (hlow : -2147483648 ≤ x) (hhigh : x ≤ 2147483647) :
    toInt32 x = x := by
  unfold toInt32
  omega

/-- Within the range of `int`, `Player.wins` pays 1:1: the available chips grow by twice the
wager, the betting box is emptied and the hand is untouched. -/
theorem wins_of_fits (p : Player) (ha : 0 ≤ p.chipsToPlay) (hw : 0 ≤ p.chipsInBettingBox)
    (hfits : p.chipsToPlay + 2 * p.chipsInBettingBox ≤ 2147483647) :
    p.wins = { playerHand := p.playerHand,
               chipsToPlay := p.chipsToPlay + 2 * p.chipsInBettingBox,
               chipsInBettingBox := 0 } := by
  simp only [Player.wins]
  rw [toInt32_of_fits (p.chipsInBettingBox + p.chipsInBettingBox) (by omega) (by omega),
    toInt32_of_fits _ (by omega) (by omega)]
  congr 1
  omega

/-- When the exact sum is past 2147483647, `Player.wins` leaves less than that sum. -/
theorem wins_of_overflow (p : Player)
    (hover : 2147483647 < p.chipsToPlay + 2 * p.chipsInBettingBox) :
    p.wins.chipsToPlay < p.chipsToPlay + 2 * p.chipsInBettingBox := by
  simp only [Player.wins, toInt32]
  omega

/-- C2: `Player.wins` does not pay 1:1 on every ledger.  With 0 available and 10 wagered it
leaves 20 and 0, as the spec says; with 0 available and 1677721600 wagered, the ledger of a
player who has staked everything and won 24 times and stakes everything again, the two
additions of `int` leave -939524096 available, not 3355443200. -/
theorem wins_overflows_on_the_25th_all_in :
    (∀ h : Hand, Player.wins ⟨h, 0, 10⟩ = ⟨h, 20, 0⟩) ∧
    (∀ h : Hand, Player.wins ⟨h, 0, 1677721600⟩ = ⟨h, -939524096, 0⟩) ∧
    (100 : Int) * 2 ^ 24 = 1677721600 ∧
    (0 : Int) + 2 * 1677721600 = 3355443200 ∧
    (∀ h : Hand, (Player.wins ⟨h, 0, 1677721600⟩).chipsToPlay ≠ 0 + 2 * 1677721600) := by
  refine ⟨fun h => ?_, fun h => ?_, by norm_num, by norm_num, fun h => ?_⟩
  · simp only [Player.wins, toInt32]
    norm_num
  · simp only [Player.wins, toInt32]
    norm_num
  · simp only [Player.wins, toInt32]
    norm_num

theorem isBetting_accepted (p : Player) (amount : Int)
    (hmin : 1 ≤ amount) (hmax : amount ≤ p.chipsToPlay) :
    p.isBetting amount =
      (.ok (), { playerHand := p.playerHand, chipsToPlay := p.chipsToPlay - amount,
                 chipsInBettingBox := p.chipsInBettingBox + amount }) := by
  unfold Player.isBetting Player.getCurrentNumberOfChipsToPlay Player.getMinimumBet
    Player.minimumBet
  rw [if_neg (by omega), if_neg (by omega)]

/-- C3: a bet between 1 and the available chips succeeds and moves exactly that amount from
the available chips to the betting box, so their total is unchanged. -/
theorem isBetting_moves_amount (p : Player) (amount : Int)
    (hmin : 1 ≤ amount) (hmax : amount ≤ p.chipsToPlay) :
    p.isBetting amount =
        (.ok (), { playerHand := p.playerHand, chipsToPlay := p.chipsToPlay - amount,
                   chipsInBettingBox := p.chipsInBettingBox + amount }) ∧
    (p.isBetting amount).2.chipsToPlay + (p.isBetting amount).2.chipsInBettingBox
      = p.chipsToPlay + p.chipsInBettingBox := by
  have h := isBetting_accepted p amount hmin hmax
  refine ⟨h, ?_⟩
  rw [h]
  simp only
  omega

/-- C3, at 100 available chips and a bet of 10: 90 available, 10 wagered. -/
theorem isBetting_moves_amount_witness :
    Player.isBetting ⟨⟨[]⟩, 100, 0⟩ 10 = (.ok (), ⟨⟨[]⟩, 100 - 10, 0 + 10⟩) ∧
    (Player.isBetting ⟨⟨[]⟩, 100, 0⟩ 10).2.chipsToPlay
        + (Player.isBetting ⟨⟨[]⟩, 100, 0⟩ 10).2.chipsInBettingBox = 100 + 0 :=
  isBetting_moves_amount ⟨⟨[]⟩, 100, 0⟩ 10 (by decide) (by decide)

/-- C4: a bet above the available chips fails with the message "player is trying to bet more
than their available chips" and leaves the player as it was. -/
theorem isBetting_above_available (p : Player) (amount : Int) (h : amount > p.chipsToPlay) :
    p.isBetting amount =
      (.error ⟨"Error: player is trying to bet more than their available chips."⟩, p) := by
  unfold Player.isBetting Player.getCurrentNumberOfChipsToPlay
  rw [if_pos h]

/-- C4, at 100 available chips and a bet of 101. -/
theorem isBetting_above_available_witness :
    Player.isBetting ⟨⟨[]⟩, 100, 0⟩ 101 =
      (.error ⟨"Error: player is trying to bet more than their available chips."⟩,
       ⟨⟨[]⟩, 100, 0⟩) :=
  isBetting_above_available ⟨⟨[]⟩, 100, 0⟩ 101 (by decide)

/-- C5: with non-negative available chips, a bet below 1 fails with the message "less than the
minimum bet of 1 chip", not with the one for a bet above the available chips, and leaves the
player as it was. -/
theorem isBetting_below_minimum (p : Player) (amount : Int)
    (havail : 0 ≤ p.chipsToPlay) (h : amount < 1) :
    p.isBetting amount =
        (.error ⟨"Error: player is trying to bet less than the minimum bet of 1 chip."⟩, p) ∧
    (p.isBetting amount).1 ≠
        .error ⟨"Error: player is trying to bet more than their available chips."⟩ := by
  have hb : p.isBetting amount =
      (.error ⟨"Error: player is trying to bet less than the minimum bet of 1 chip."⟩, p) := by
    unfold Player.isBetting Player.getCurrentNumberOfChipsToPlay Player.getMinimumBet
      Player.minimumBet
    rw [if_neg (by omega), if_pos h]
  refine ⟨hb, ?_⟩
  rw [hb]
  intro hsame
  have hmsg := congrArg CustomExceptionWithErrorMessage.errorMessage (Except.error.inj hsame)
  revert hmsg
  decide

/-- C5, at 100 available chips and a bet of 0. -/
theorem isBetting_below_minimum_witness :
    Player.isBetting ⟨⟨[]⟩, 100, 0⟩ 0 =
        (.error ⟨"Error: player is trying to bet less than the minimum bet of 1 chip."⟩,
         ⟨⟨[]⟩, 100, 0⟩) ∧
    (Player.isBetting ⟨⟨[]⟩, 100, 0⟩ 0).1 ≠
        .error ⟨"Error: player is trying to bet more than their available chips."⟩ :=
  isBetting_below_minimum ⟨⟨[]⟩, 100, 0⟩ 0 (by decide) (by decide)

/-! ## The deck never fails a guarded draw -/

theorem clearDeck_eq (d : Deck) : d.clearDeck = { cardsInDeck := [] } := by
  rcases d with ⟨cards⟩
  cases cards <;> rfl

theorem createOrderedDeck_length (d : Deck) : d.createOrderedDeck.cardsInDeck.length = 52 := by
  unfold Deck.createOrderedDeck
  simp only [clearDeck_eq]
  rfl

theorem iter_swap_length (xs : List Card) (i j : Nat) : (iter_swap xs i j).length = xs.length := by
  unfold iter_swap
  split
  · rfl
  · split <;> simp

theorem random_shuffle_loop_length (rand : Nat → Nat) (steps i k : Nat) (xs : List Card) :
    (random_shuffle_loop rand steps i k xs).1.length = xs.length := by
  induction steps generalizing i k xs with
  | zero => rfl
  | succ n ih => simp only [random_shuffle_loop, ih, iter_swap_length]

theorem shuffleDeck_length (rand : Nat → Nat) (k : Nat) (d : Deck) :
    (d.shuffleDeck rand k).1.cardsInDeck.length = d.cardsInDeck.length := by
  unfold Deck.shuffleDeck
  split
  · simp only [random_shuffle, random_shuffle_loop_length]
  · rfl

theorem drawCardfromDeck_append (cards : List Card) (c : Card) :
    Deck.drawCardfromDeck { cardsInDeck := cards ++ [c] } = (.ok c, { cardsInDeck := cards }) := by
  simp [Deck.drawCardfromDeck, Deck.isDeckEmpty]

theorem drawCardfromDeck_of_length_pos (d : Deck) (h : 0 < d.cardsInDeck.length) :
    ∃ c cards, d.cardsInDeck = cards ++ [c] ∧ d.drawCardfromDeck = (.ok c, { cardsInDeck := cards }) := by
  rcases d with ⟨cards⟩
  have hne : cards ≠ [] := by
    intro h0; simp [h0] at h
  refine ⟨cards.getLast hne, cards.dropLast, (List.dropLast_append_getLast hne).symm, ?_⟩
  have := drawCardfromDeck_append cards.dropLast (cards.getLast hne)
  rwa [List.dropLast_append_getLast hne] at this

namespace BlackjackGame

theorem placeShuffledDeckIntoDealingShoe_eq (w : World) (g : BlackjackGame) :
    ∃ d k, 0 < d.cardsInDeck.length ∧
      g.placeShuffledDeckIntoDealingShoe w = { g with deck := d, randCalls := k } := by
  have hlen : 0 < (g.deck.clearDeck.createOrderedDeck.shuffleDeck w.rand
      g.randCalls).1.cardsInDeck.length := by
    rw [shuffleDeck_length, createOrderedDeck_length]
    decide
  refine ⟨_, (g.deck.clearDeck.createOrderedDeck.shuffleDeck w.rand g.randCalls).2, hlen, ?_⟩
  simp only [placeShuffledDeckIntoDealingShoe, shuffleDeck, getOrderedDeck, clearDeck]

/-- A guarded draw always succeeds: the emptiness test refills the shoe first. -/
theorem guardedDraw (w : World) (g : BlackjackGame) :
    ∃ c d k,
      (if g.isDeckEmpty then g.placeShuffledDeckIntoDealingShoe w else g)
          = { g with deck := d, randCalls := k } ∧
      d.drawCardfromDeck.1 = .ok c := by
  by_cases hempty : g.isDeckEmpty = true
  · obtain ⟨d, k, hpos, hd⟩ := placeShuffledDeckIntoDealingShoe_eq w g
    obtain ⟨c, cards, -, hdraw⟩ := drawCardfromDeck_of_length_pos d hpos
    exact ⟨c, d, k, by rw [if_pos hempty, hd], by rw [hdraw]⟩
  · have hpos : 0 < g.deck.cardsInDeck.length := by
      simp only [isDeckEmpty, Deck.isDeckEmpty, List.isEmpty_iff] at hempty
      exact List.length_pos.mpr hempty
    obtain ⟨c, cards, -, hdraw⟩ := drawCardfromDeck_of_length_pos g.deck hpos
    exact ⟨c, g.deck, g.randCalls, by rw [if_neg hempty], by rw [hdraw]⟩

theorem dealCardToPlayer_ok (w : World) (g : BlackjackGame) :
    ∃ c d k, g.dealCardToPlayer w =
      (.ok (), { g with deck := d, randCalls := k, player := g.player.isHitting c }) := by
  obtain ⟨c, d, k, hg, hdraw⟩ := guardedDraw w g
  unfold dealCardToPlayer
  simp only [hg]
  rcases hd : d.drawCardfromDeck with ⟨r, d1⟩
  rw [hd] at hdraw
  simp only at hdraw
  subst hdraw
  exact ⟨c, d1, k, rfl⟩

theorem dealCardToDealer_ok (w : World) (g : BlackjackGame) :
    ∃ c d k, g.dealCardToDealer w =
      (.ok (), { g with deck := d, randCalls := k, dealer := g.dealer.isHitting c }) := by
  obtain ⟨c, d, k, hg, hdraw⟩ := guardedDraw w g
  unfold dealCardToDealer
  simp only [hg]
  rcases hd : d.drawCardfromDeck with ⟨r, d1⟩
  rw [hd] at hdraw
  simp only at hdraw
  subst hdraw
  exact ⟨c, d1, k, rfl⟩

/-! ## The two loops, one pass at a time -/

theorem dealAdditionalCardsToPlayer_exit (w : World) (g : BlackjackGame)
    (h : ¬ (!g.playerIsBusted && !g.playerHasBlackjack) = true) :
    g.dealAdditionalCardsToPlayer w = (.ok (), g) := by
  rw [dealAdditionalCardsToPlayer, dif_neg h]

theorem dealAdditionalCardsToPlayer_decline (w : World) (g : BlackjackGame)
    (h : (!g.playerIsBusted && !g.playerHasBlackjack) = true)
    (hans : w.askPlayerForAdditionalCard g.cardPrompts = false) :
    g.dealAdditionalCardsToPlayer w = (.ok (), (g.checkPlayerWantsOneMoreCard w).2) := by
  rw [dealAdditionalCardsToPlayer, dif_pos h]
  simp [checkPlayerWantsOneMoreCard, hans]

theorem dealAdditionalCardsToPlayer_hit (w : World) (g g1 : BlackjackGame)
    (h : (!g.playerIsBusted && !g.playerHasBlackjack) = true)
    (hans : w.askPlayerForAdditionalCard g.cardPrompts = true)
    (hdeal : (g.checkPlayerWantsOneMoreCard w).2.dealCardToPlayer w = (.ok (), g1)) :
    g.dealAdditionalCardsToPlayer w = g1.displayPlayerHandContents.dealAdditionalCardsToPlayer w := by
  rw [dealAdditionalCardsToPlayer, dif_pos h]
  have hr : (!(g.checkPlayerWantsOneMoreCard w).1) = false := by
    simp [checkPlayerWantsOneMoreCard, hans]
  simp only [hr, Bool.false_eq_true, if_false]
  split
  · rename_i heq
    rw [hdeal] at heq
    simp at heq
  · rename_i heq
    rw [hdeal] at heq
    simp only [Prod.mk.injEq, true_and] at heq
    rw [← heq]

theorem dealAdditionalCardsToDealer_exit (w : World) (g : BlackjackGame)
    (h : ¬ (!g.dealerHandValueIsAtLeast17) = true) :
    g.dealAdditionalCardsToDealer w = (.ok (), g) := by
  rw [dealAdditionalCardsToDealer, dif_neg h]

theorem dealAdditionalCardsToDealer_hit (w : World) (g g1 : BlackjackGame)
    (h : (!g.dealerHandValueIsAtLeast17) = true)
    (hdeal : g.dealCardToDealer w = (.ok (), g1)) :
    g.dealAdditionalCardsToDealer w = g1.displayDealerHandContents.dealAdditionalCardsToDealer w := by
  rw [dealAdditionalCardsToDealer, dif_pos h]
  split
  · rename_i heq
    rw [hdeal] at heq
    simp at heq
  · rename_i heq
    rw [hdeal] at heq
    simp only [Prod.mk.injEq, true_and] at heq
    rw [← heq]

/-! ## Soundness of the bounded evaluators -/

theorem dealAdditionalCardsToPlayerWithin_sound (w : World) (fuel : Nat) (g : BlackjackGame)
    (r : Outcome) (h : g.dealAdditionalCardsToPlayerWithin w fuel = some r) :
    g.dealAdditionalCardsToPlayer w = r := by
  induction fuel generalizing g with
  | zero => simp [dealAdditionalCardsToPlayerWithin] at h
  | succ n ih =>
    unfold dealAdditionalCardsToPlayerWithin at h
    by_cases hloop : (!g.playerIsBusted && !g.playerHasBlackjack) = true
    · rw [if_pos hloop] at h
      cases hans : w.askPlayerForAdditionalCard g.cardPrompts with
      | false =>
        rw [dealAdditionalCardsToPlayer_decline w g hloop hans]
        have hr : (!(g.checkPlayerWantsOneMoreCard w).1) = true := by
          simp [checkPlayerWantsOneMoreCard, hans]
        simp only [hr, if_true] at h
        exact Option.some.inj h
      | true =>
        obtain ⟨c, d, k, hd⟩ := dealCardToPlayer_ok w (g.checkPlayerWantsOneMoreCard w).2
        rw [dealAdditionalCardsToPlayer_hit w g _ hloop hans hd]
        have hr : (!(g.checkPlayerWantsOneMoreCard w).1) = false := by
          simp [checkPlayerWantsOneMoreCard, hans]
        simp only [hr, Bool.false_eq_true, if_false, hd] at h
        exact ih _ h
    · rw [if_neg hloop] at h
      rw [dealAdditionalCardsToPlayer_exit w g hloop]
      exact Option.some.inj h

theorem dealAdditionalCardsToDealerWithin_sound (w : World) (fuel : Nat) (g : BlackjackGame)
    (r : Outcome) (h : g.dealAdditionalCardsToDealerWithin w fuel = some r) :
    g.dealAdditionalCardsToDealer w = r := by
  induction fuel generalizing g with
  | zero => simp [dealAdditionalCardsToDealerWithin] at h
  | succ n ih =>
    unfold dealAdditionalCardsToDealerWithin at h
    by_cases hloop : (!g.dealerHandValueIsAtLeast17) = true
    · rw [if_pos hloop] at h
      obtain ⟨c, d, k, hd⟩ := dealCardToDealer_ok w g
      rw [dealAdditionalCardsToDealer_hit w g _ hloop hd]
      simp only [hd] at h
      exact ih _ h
    · rw [if_neg hloop] at h
      rw [dealAdditionalCardsToDealer_exit w g hloop]
      exact Option.some.inj h

theorem andThenWithin_sound (o : Option Outcome) (x : Outcome)
    (next : BlackjackGame → Option Outcome) (next' : BlackjackGame → Outcome) (r : Outcome)
    (ho : ∀ y, o = some y → x = y)
    (hnext : ∀ g r', next g = some r' → next' g = r')
    (h : andThenWithin o next = some r) : andThen x next' = r := by
  cases o with
  | none => simp [andThenWithin] at h
  | some y =>
    have hx := ho y rfl
    subst hx
    rcases x with ⟨res, g⟩
    cases res with
    | error e =>
      simp only [andThenWithin, Option.some.injEq] at h
      simpa [andThen] using h
    | ok u =>
      simp only [andThenWithin] at h
      simpa [andThen] using hnext g r h

theorem roundStartsWithin_sound (fuel : Nat) (w : World) (g : BlackjackGame) (r : Outcome)
    (h : roundStartsWithin fuel w g = some r) : roundStarts w g = r := by
  unfold roundStartsWithin at h
  unfold roundStarts
  refine andThenWithin_sound _ _ _ _ _ (fun y hy => Option.some.inj hy) ?_ h
  intro g1 r1 h1
  refine andThenWithin_sound _ _ _ _ _ (fun y hy => Option.some.inj hy) ?_ h1
  intro g2 r2 h2
  refine andThenWithin_sound _ _ _ _ _ (fun y hy => Option.some.inj hy) ?_ h2
  intro g3 r3 h3
  refine andThenWithin_sound _ _ _ _ _ (fun y hy => Option.some.inj hy) ?_ h3
  intro g4 r4 h4
  refine andThenWithin_sound _ _ _ _ _ (fun y hy => Option.some.inj hy) ?_ h4
  intro g5 r5 h5
  refine andThenWithin_sound _ _ _ _ _
    (fun y hy => dealAdditionalCardsToPlayerWithin_sound w fuel _ y hy) ?_ h5
  intro g6 r6 h6
  by_cases hb : g6.playerIsBusted = true
  · simp only [hb, if_true] at h6 ⊢
    exact Option.some.inj h6
  · simp only [hb, Bool.false_eq_true, if_false] at h6 ⊢
    refine andThenWithin_sound _ _ _ _ _
      (fun y hy => dealAdditionalCardsToDealerWithin_sound w fuel _ y hy) ?_ h6
    intro g7 r7 h7
    simp only at h7 ⊢
    split at h7 <;> rename_i hc1
    · rw [if_pos hc1]; exact Option.some.inj h7
    · rw [if_neg hc1]
      split at h7 <;> rename_i hc2
      · rw [if_pos hc2]; exact Option.some.inj h7
      · rw [if_neg hc2]
        split at h7 <;> rename_i hc3
        · rw [if_pos hc3]; exact Option.some.inj h7
        · rw [if_neg hc3]
          split at h7 <;> rename_i hc4
          · rw [if_pos hc4]; exact Option.some.inj h7
          · rw [if_neg hc4]; exact Option.some.inj h7

/-! ## What the two turns do -/

theorem playerTurn_refl (g : BlackjackGame) : PlayerTurn g g :=
  { chipsToPlay := rfl, chipsInBettingBox := rfl, dealer := rfl, betPrompts := rfl,
    roundPrompts := rfl, hand := ⟨[], by simp⟩, output := ⟨[], by simp⟩ }

theorem playerTurn_trans {g g1 g2 : BlackjackGame} (h1 : PlayerTurn g g1) (h2 : PlayerTurn g1 g2) :
    PlayerTurn g g2 := by
  obtain ⟨d1, hd1⟩ := h1.hand
  obtain ⟨d2, hd2⟩ := h2.hand
  obtain ⟨e1, he1, hp1⟩ := h1.output
  obtain ⟨e2, he2, hp2⟩ := h2.output
  exact
    { chipsToPlay := h2.chipsToPlay.trans h1.chipsToPlay
      chipsInBettingBox := h2.chipsInBettingBox.trans h1.chipsInBettingBox
      dealer := h2.dealer.trans h1.dealer
      betPrompts := h2.betPrompts.trans h1.betPrompts
      roundPrompts := h2.roundPrompts.trans h1.roundPrompts
      hand := ⟨d1 ++ d2, by rw [hd2, hd1, List.append_assoc]⟩
      output := ⟨e1 ++ e2, by rw [he2, he1, List.append_assoc], by
        intro e he
        rcases List.mem_append.mp he with h | h
        · exact hp1 e h
        · exact hp2 e h⟩ }

theorem playerTurn_decline (w : World) (g : BlackjackGame) :
    PlayerTurn g (g.checkPlayerWantsOneMoreCard w).2 :=
  { chipsToPlay := rfl, chipsInBettingBox := rfl, dealer := rfl, betPrompts := rfl,
    roundPrompts := rfl, hand := ⟨[], by simp [checkPlayerWantsOneMoreCard, present]⟩,
    output := ⟨[.askPlayerForAdditionalCard (w.askPlayerForAdditionalCard g.cardPrompts)], rfl,
      by simp [Event.isPlayerTurnEvent]⟩ }

theorem playerTurn_hit (w : World) (g g1 : BlackjackGame)
    (hdeal : (g.checkPlayerWantsOneMoreCard w).2.dealCardToPlayer w = (.ok (), g1)) :
    PlayerTurn g g1.displayPlayerHandContents := by
  obtain ⟨c, d, k, hd⟩ := dealCardToPlayer_ok w (g.checkPlayerWantsOneMoreCard w).2
  rw [hd] at hdeal
  simp only [Prod.mk.injEq, true_and] at hdeal
  subst hdeal
  exact
    { chipsToPlay := rfl, chipsInBettingBox := rfl, dealer := rfl, betPrompts := rfl,
      roundPrompts := rfl, hand := ⟨[c], rfl⟩,
      output := ⟨[.askPlayerForAdditionalCard (w.askPlayerForAdditionalCard g.cardPrompts),
          .displayPlayerHand (g.player.playerHand.cardsInHand ++ [c]),
          .displayPlayerHandValue (Hand.getHandValue ⟨g.player.playerHand.cardsInHand ++ [c]⟩)],
        by simp [displayPlayerHandContents, present, checkPlayerWantsOneMoreCard,
             Player.isHitting, Hand.addCardToHand, Player.getHandValue],
        by simp [Event.isPlayerTurnEvent]⟩ }

/-- The player's turn always returns, and touches nothing but the player's hand, the shoe and
the console. -/
theorem dealAdditionalCardsToPlayer_spec (w : World) (g : BlackjackGame) :
    ∃ g', g.dealAdditionalCardsToPlayer w = (.ok (), g') ∧ PlayerTurn g g' := by
  refine dealAdditionalCardsToPlayer.induct w
    (motive := fun g => ∃ g', g.dealAdditionalCardsToPlayer w = (.ok (), g') ∧ PlayerTurn g g')
    ?_ ?_ ?_ ?_ g
  · intro x hloop r hr
    have hans : w.askPlayerForAdditionalCard x.cardPrompts = false := by
      simpa [r, checkPlayerWantsOneMoreCard] using hr
    exact ⟨_, dealAdditionalCardsToPlayer_decline w x hloop hans, playerTurn_decline w x⟩
  · intro x _ r _ e g1 hdeal
    obtain ⟨c, d, k, hd⟩ := dealCardToPlayer_ok w r.2
    rw [hd] at hdeal
    simp at hdeal
  · intro x hloop r hr a g1 hdeal ih
    obtain ⟨g', hg', hturn⟩ := ih
    have hans : w.askPlayerForAdditionalCard x.cardPrompts = true := by
      simpa [r, checkPlayerWantsOneMoreCard] using hr
    refine ⟨g', ?_, playerTurn_trans (playerTurn_hit w x g1 hdeal) hturn⟩
    rw [dealAdditionalCardsToPlayer_hit w x g1 hloop hans hdeal, hg']
  · intro x hloop
    exact ⟨x, dealAdditionalCardsToPlayer_exit w x hloop, playerTurn_refl x⟩

theorem dealerTurn_refl (g : BlackjackGame) : DealerTurn g g :=
  { player := rfl, betPrompts := rfl, cardPrompts := rfl, roundPrompts := rfl,
    hand := ⟨[], by simp⟩, output := ⟨[], by simp⟩ }

theorem handValueIsAtLeast17_iff (d : Dealer) :
    d.handValueIsAtLeast17 = true ↔ 17 ≤ d.getHandValue := by
  simp [Dealer.handValueIsAtLeast17]

/-- The dealer's turn always returns, ends at 17 or more, and every card it deals is dealt to
a hand worth less than 17. -/
theorem dealAdditionalCardsToDealer_spec (w : World) (g : BlackjackGame) :
    ∃ g', g.dealAdditionalCardsToDealer w = (.ok (), g') ∧ DealerTurn g g' ∧
      17 ≤ g'.dealer.getHandValue := by
  refine dealAdditionalCardsToDealer.induct w
    (motive := fun g => ∃ g', g.dealAdditionalCardsToDealer w = (.ok (), g') ∧ DealerTurn g g' ∧
      17 ≤ g'.dealer.getHandValue)
    ?_ ?_ ?_ g
  · intro x _ e g1 hdeal
    obtain ⟨c, d, k, hd⟩ := dealCardToDealer_ok w x
    rw [hd] at hdeal
    simp at hdeal
  · intro x hloop a g1 hdeal ih
    obtain ⟨g', hg', hturn, hend⟩ := ih
    refine ⟨g', ?_, ?_, hend⟩
    · rw [dealAdditionalCardsToDealer_hit w x g1 hloop hdeal, hg']
    · obtain ⟨c, d, k, hd⟩ := dealCardToDealer_ok w x
      rw [hd] at hdeal
      simp only [Prod.mk.injEq, true_and] at hdeal
      subst hdeal
      obtain ⟨drawn, hdrawn, hbelow⟩ := hturn.hand
      obtain ⟨events, hevents, hkind⟩ := hturn.output
      have hlow : x.dealer.getHandValue < 17 := by
        have := (handValueIsAtLeast17_iff x.dealer).not
        simp only [dealerHandValueIsAtLeast17, Bool.not_eq_true'] at hloop
        simp only [hloop, Bool.false_eq_true, not_false_eq_true, true_iff, not_le] at this
        exact this
      exact
        { player := hturn.player
          betPrompts := hturn.betPrompts
          cardPrompts := hturn.cardPrompts
          roundPrompts := hturn.roundPrompts
          hand := ⟨c :: drawn, by
            rw [hdrawn]
            simp [displayDealerHandContents, present, Dealer.isHitting, Hand.addCardToHand], by
            intro k hk
            cases k with
            | zero => simpa [Dealer.getHandValue] using hlow
            | succ k =>
              have := hbelow k (by simpa using hk)
              simpa [displayDealerHandContents, present, Dealer.isHitting,
                Hand.addCardToHand] using this⟩
          output := ⟨[.displayDealerHand (x.dealer.dealerHand.cardsInHand ++ [c]),
              .displayDealerHandValue (Hand.getHandValue ⟨x.dealer.dealerHand.cardsInHand ++ [c]⟩)]
              ++ events, by
            rw [hevents]
            simp [displayDealerHandContents, present, Dealer.isHitting, Hand.addCardToHand,
              Dealer.getHandValue], by
            intro e he
            rcases List.mem_append.mp he with h | h
            · revert h; simp only [List.mem_cons, List.mem_singleton, List.not_mem_nil, or_false]
              rintro (rfl | rfl) <;> rfl
            · exact hkind e h⟩ }
  · intro x hloop
    refine ⟨x, dealAdditionalCardsToDealer_exit w x hloop, dealerTurn_refl x, ?_⟩
    have := handValueIsAtLeast17_iff x.dealer
    simp only [dealerHandValueIsAtLeast17, Bool.not_eq_true', Bool.not_eq_false] at hloop
    exact this.mp hloop

/-! ## The round up to the player's turn -/

theorem exists_four_on_top (cards : List Card) (h : 4 ≤ cards.length) :
    ∃ rest c4 c3 c2 c1, cards = rest ++ [c4, c3, c2, c1] := by
  have hrev : cards = cards.reverse.reverse := by simp
  rcases hr : cards.reverse with _ | ⟨c1, _ | ⟨c2, _ | ⟨c3, _ | ⟨c4, rest⟩⟩⟩⟩
  all_goals
    have hlen : cards.reverse.length = cards.length := List.length_reverse cards
    rw [hr] at hlen hrev
  · simp at hlen; omega
  · simp at hlen; omega
  · simp at hlen; omega
  · simp at hlen; omega
  · exact ⟨rest.reverse, c4, c3, c2, c1, by rw [hrev]; simp⟩

theorem placeShuffledDeckIntoDealingShoe_length (w : World) (g : BlackjackGame) :
    (g.placeShuffledDeckIntoDealingShoe w).deck.cardsInDeck.length = 52 := by
  simp only [placeShuffledDeckIntoDealingShoe, shuffleDeck, getOrderedDeck, clearDeck]
  rw [shuffleDeck_length, createOrderedDeck_length]

theorem dealCardToPlayer_top (w : World) (g : BlackjackGame) (cards : List Card) (c : Card)
    (h : g.deck.cardsInDeck = cards ++ [c]) :
    g.dealCardToPlayer w =
      (.ok (), { g with deck := { cardsInDeck := cards }, player := g.player.isHitting c }) := by
  have hne : g.isDeckEmpty = false := by
    simp [isDeckEmpty, Deck.isDeckEmpty, h]
  have hdraw : g.deck.drawCardfromDeck = (.ok c, { cardsInDeck := cards }) := by
    have := drawCardfromDeck_append cards c
    rw [← h] at this
    exact this
  unfold dealCardToPlayer
  simp only [hne, Bool.false_eq_true, if_false, hdraw]

theorem dealCardToDealer_top (w : World) (g : BlackjackGame) (cards : List Card) (c : Card)
    (h : g.deck.cardsInDeck = cards ++ [c]) :
    g.dealCardToDealer w =
      (.ok (), { g with deck := { cardsInDeck := cards }, dealer := g.dealer.isHitting c }) := by
  have hne : g.isDeckEmpty = false := by
    simp [isDeckEmpty, Deck.isDeckEmpty, h]
  have hdraw : g.deck.drawCardfromDeck = (.ok c, { cardsInDeck := cards }) := by
    have := drawCardfromDeck_append cards c
    rw [← h] at this
    exact this
  unfold dealCardToDealer
  simp only [hne, Bool.false_eq_true, if_false, hdraw]

theorem andThen_ok (u : Unit) (g : BlackjackGame) (next : BlackjackGame → Outcome) :
    andThen (.ok u, g) next = next g := rfl

theorem placeShuffledDeckIntoDealingShoe_present (w : World) (g : BlackjackGame) (e : Event) :
    (g.present e).placeShuffledDeckIntoDealingShoe w
      = (g.placeShuffledDeckIntoDealingShoe w).present e := by
  simp only [placeShuffledDeckIntoDealingShoe, shuffleDeck, getOrderedDeck, clearDeck, present]

theorem placeShuffledDeckIntoDealingShoe_frame (w : World) (g : BlackjackGame) :
    g.placeShuffledDeckIntoDealingShoe w =
      { g with deck := (g.placeShuffledDeckIntoDealingShoe w).deck,
               randCalls := (g.placeShuffledDeckIntoDealingShoe w).randCalls } := by
  simp only [placeShuffledDeckIntoDealingShoe, shuffleDeck, getOrderedDeck, clearDeck]

theorem dealCardToPlayer_mk (w : World) (dl : Dealer) (p : Player) (cards : List Card) (c : Card)
    (out : List Event) (k b a r : Nat) :
    dealCardToPlayer w ⟨dl, p, ⟨cards ++ [c]⟩, out, k, b, a, r⟩ =
      (.ok (), ⟨dl, p.isHitting c, ⟨cards⟩, out, k, b, a, r⟩) :=
  dealCardToPlayer_top w _ cards c rfl

theorem dealCardToDealer_mk (w : World) (dl : Dealer) (p : Player) (cards : List Card) (c : Card)
    (out : List Event) (k b a r : Nat) :
    dealCardToDealer w ⟨dl, p, ⟨cards ++ [c]⟩, out, k, b, a, r⟩ =
      (.ok (), ⟨dl.isHitting c, p, ⟨cards⟩, out, k, b, a, r⟩) :=
  dealCardToDealer_top w _ cards c rfl

theorem roundStarts_of_shoe (w : World) (g : BlackjackGame) (rest : List Card)
    (c1 c2 c3 c4 : Card)
    (hshoe : (g.placeShuffledDeckIntoDealingShoe w).deck.cardsInDeck = rest ++ [c4, c3, c2, c1])
    (hmin : 1 ≤ w.askPlayerToBetChips g.betPrompts 1 g.player.chipsToPlay)
    (hmax : w.askPlayerToBetChips g.betPrompts 1 g.player.chipsToPlay ≤ g.player.chipsToPlay) :
    roundStarts w g =
      andThen ((afterDeal w g rest c1 c2 c3 c4).dealAdditionalCardsToPlayer w) (roundClosing w) := by
  have hdeck : (g.placeShuffledDeckIntoDealingShoe w).deck
      = { cardsInDeck := (((rest ++ [c4]) ++ [c3]) ++ [c2]) ++ [c1] } := by
    rcases hd : (g.placeShuffledDeckIntoDealingShoe w).deck with ⟨cards⟩
    rw [hd] at hshoe
    simp only at hshoe
    simp [hshoe]
  have hS := placeShuffledDeckIntoDealingShoe_frame w g
  rw [hdeck] at hS
  have hbet := isBetting_accepted g.player _ hmin hmax
  unfold roundStarts
  simp only [placeShuffledDeckIntoDealingShoe_present]
  rw [hS]
  simp only [playerPlacesBet, present, getPlayerCurrentNumberOfChipsToPlay,
    Player.getCurrentNumberOfChipsToPlay, hbet, andThen_ok, dealCardToPlayer_mk,
    dealCardToDealer_mk, displayPlayerHandContents, hideTheHoleCardFromPlayer,
    displayDealerHandContents]
  simp only [afterDeal, Player.isHitting, Dealer.isHitting,
    Hand.addCardToHand, Player.getHandValue, Dealer.getHandValue, List.append_assoc,
    List.singleton_append, List.cons_append, List.nil_append]
  refine congrArg _ (funext fun g' => ?_)
  simp only [roundClosing, displayDealerHandContents, present, Dealer.getHandValue,
    List.append_assoc, List.singleton_append]

theorem roundStarts_eq_of_within (fuel : Nat) (w : World) (g : BlackjackGame)
    (h : (roundStartsWithin fuel w g).isSome = true) :
    roundStarts w g = (roundStartsWithin fuel w g).get h :=
  roundStartsWithin_sound fuel w g _ (Option.some_get h).symm

end BlackjackGame

/-! ## What the log keeps -/

theorem settlementAnnouncements_append (out events : List Event) :
    settlementAnnouncements (out ++ events)
      = settlementAnnouncements out ++ settlementAnnouncements events := by
  simp [settlementAnnouncements]

theorem settlementAnnouncements_eq_nil (events : List Event)
    (h : ∀ e ∈ events, e.isSettlementAnnouncement = false) :
    settlementAnnouncements events = [] := by
  simp only [settlementAnnouncements, List.filter_eq_nil_iff]
  intro e he
  simp [h e he]

theorem not_settlement_of_playerTurnEvent (e : Event) (h : e.isPlayerTurnEvent = true) :
    e.isSettlementAnnouncement = false := by
  cases e <;> simp_all [Event.isPlayerTurnEvent, Event.isSettlementAnnouncement]

theorem not_settlement_of_dealerDisplay (e : Event) (h : e.isDealerDisplay = true) :
    e.isSettlementAnnouncement = false := by
  cases e <;> simp_all [Event.isDealerDisplay, Event.isSettlementAnnouncement]

theorem dealerHandDisplays_append (out events : List Event) :
    dealerHandDisplays (out ++ events) = dealerHandDisplays out + dealerHandDisplays events := by
  simp [dealerHandDisplays]

theorem dealerHandDisplays_eq_zero (events : List Event)
    (h : ∀ e ∈ events, e.isPlayerTurnEvent = true) : dealerHandDisplays events = 0 := by
  simp only [dealerHandDisplays, List.length_eq_zero, List.filter_eq_nil_iff]
  intro e he
  have := h e he
  cases e <;> simp_all [Event.isPlayerTurnEvent]

namespace Settlement

theorem onGame_player (s : Settlement) (g : BlackjackGame) :
    (s.onGame g).player = s.onPlayer g.player := by
  cases s <;> rfl

theorem onGame_dealer (s : Settlement) (g : BlackjackGame) : (s.onGame g).dealer = g.dealer := by
  cases s <;> rfl

theorem onPlayer_hand (s : Settlement) (p : Player) : (s.onPlayer p).playerHand = p.playerHand := by
  cases s <;> rfl

theorem onGame_announcements (s : Settlement) (g : BlackjackGame) :
    settlementAnnouncements (s.onGame g).output
      = settlementAnnouncements g.output ++ [s.announcement] := by
  cases s <;>
    simp [onGame, announcement, BlackjackGame.playerWins, BlackjackGame.playerPushes,
      BlackjackGame.playerLoses, BlackjackGame.informPlayerAboutTheirCurrentNumberOfChips,
      BlackjackGame.present, settlementAnnouncements, List.filter_cons,
      Event.isSettlementAnnouncement]

theorem onGame_dealerHandDisplays (s : Settlement) (g : BlackjackGame) :
    dealerHandDisplays (s.onGame g).output = dealerHandDisplays g.output := by
  cases s <;>
    simp [onGame, BlackjackGame.playerWins, BlackjackGame.playerPushes,
      BlackjackGame.playerLoses, BlackjackGame.informPlayerAboutTheirCurrentNumberOfChips,
      BlackjackGame.present, dealerHandDisplays, List.filter_cons]

end Settlement

/-! ## The round from the player's turn to the settlement -/

namespace BlackjackGame

theorem roundClosing_busted (w : World) (gp : BlackjackGame) (h : 21 < gp.player.getHandValue) :
    roundClosing w gp = (.ok (), Settlement.loses.onGame gp) := by
  have hb : gp.playerIsBusted = true := by
    simpa [playerIsBusted, Player.isBusted, Player.getHandValue] using h
  simp only [roundClosing, hb, if_true, Settlement.onGame]

theorem roundClosing_not_busted (w : World) (gp gs : BlackjackGame)
    (h : ¬ 21 < gp.player.getHandValue)
    (hgs : gp.displayDealerHandContents.dealAdditionalCardsToDealer w = (.ok (), gs))
    (hplayer : gs.player = gp.player) :
    roundClosing w gp =
      (.ok (), (settlementFor gs.player.getHandValue gs.dealer.getHandValue).onGame gs) := by
  have hb : gp.playerIsBusted = false := by
    simpa [playerIsBusted, Player.isBusted, Player.getHandValue] using h
  have h' : ¬ 21 < gs.player.playerHand.getHandValue := by rw [hplayer]; exact h
  simp only [roundClosing, hb, Bool.false_eq_true, if_false, hgs, andThen_ok,
    settlementFor, h', dealerIsBusted, Dealer.isBusted,
    playerHandValueGreaterThanDealerHandValue, playerHandValueLessThanDealerHandValue,
    playerHandValueIsEqualToDealerHandValue, getPlayerHandValue, getDealerHandValue,
    Player.getHandValue, Dealer.getHandValue, gt_iff_lt]
  by_cases hd : 21 < gs.dealer.dealerHand.getHandValue
  · simp [hd, Settlement.onGame]
  · by_cases hgt : gs.dealer.dealerHand.getHandValue < gs.player.playerHand.getHandValue
    · simp [hd, hgt, Settlement.onGame]
    · by_cases hlt : gs.player.playerHand.getHandValue < gs.dealer.dealerHand.getHandValue
      · simp [hd, hgt, hlt, Settlement.onGame]
      · have heq : gs.player.playerHand.getHandValue = gs.dealer.dealerHand.getHandValue := by
          omega
        simp [hd, hgt, hlt, heq, Settlement.onGame]

/-- Every round with an accepted bet runs to a settlement. -/
theorem roundStarts_settled (w : World) (g : BlackjackGame)
    (hmin : 1 ≤ w.askPlayerToBetChips g.betPrompts 1 g.player.chipsToPlay)
    (hmax : w.askPlayerToBetChips g.betPrompts 1 g.player.chipsToPlay ≤ g.player.chipsToPlay) :
    ∃ gs s, SettledRound w g gs s := by
  obtain ⟨rest, c4, c3, c2, c1, hshoe⟩ :=
    exists_four_on_top (g.placeShuffledDeckIntoDealingShoe w).deck.cardsInDeck
      (by rw [placeShuffledDeckIntoDealingShoe_length]; decide)
  have hround := roundStarts_of_shoe w g rest c1 c2 c3 c4 hshoe hmin hmax
  obtain ⟨gp, hgp, hturn⟩ := dealAdditionalCardsToPlayer_spec w (afterDeal w g rest c1 c2 c3 c4)
  rw [hgp, andThen_ok] at hround
  obtain ⟨drawn, hdrawn⟩ := hturn.hand
  obtain ⟨events, hevents, hkind⟩ := hturn.output
  have hann : settlementAnnouncements gp.output = settlementAnnouncements g.output := by
    rw [hevents, settlementAnnouncements_append,
      settlementAnnouncements_eq_nil events
        (fun e he => not_settlement_of_playerTurnEvent e (hkind e he))]
    simp [afterDeal, settlementAnnouncements, List.filter_cons, Event.isSettlementAnnouncement]
  have hhand : gp.player.playerHand.cardsInHand
      = g.player.playerHand.cardsInHand ++ c1 :: c2 :: drawn := by
    rw [hdrawn]; simp [afterDeal]
  have hdealer : gp.dealer.dealerHand.cardsInHand
      = g.dealer.dealerHand.cardsInHand ++ [c3, c4] := by
    rw [hturn.dealer]; rfl
  by_cases hbust : 21 < gp.player.getHandValue
  · refine ⟨gp, .loses,
      { result := by rw [hround, roundClosing_busted w gp hbust]
        chipsToPlay := hturn.chipsToPlay
        chipsInBettingBox := hturn.chipsInBettingBox
        announcements := hann
        playerHand := ⟨c1, c2, drawn, hhand⟩
        dealerHand := ⟨c3, c4, [], hdealer, fun _ => rfl⟩
        dealerDisplays := ?_
        rule := by simp [settlementFor, hbust] }⟩
    intro _
    rw [hevents, dealerHandDisplays_append, dealerHandDisplays_eq_zero events hkind]
    simp [afterDeal, dealerHandDisplays, List.filter_cons]
  · obtain ⟨gs, hgs, hdturn, -⟩ := dealAdditionalCardsToDealer_spec w gp.displayDealerHandContents
    have hplayer : gs.player = gp.player := hdturn.player
    obtain ⟨drawn', hdrawn', -⟩ := hdturn.hand
    obtain ⟨events', hevents', hkind'⟩ := hdturn.output
    have hbust' : ¬ 21 < gs.player.getHandValue := by rw [hplayer]; exact hbust
    refine ⟨gs, settlementFor gs.player.getHandValue gs.dealer.getHandValue,
      { result := by rw [hround, roundClosing_not_busted w gp gs hbust hgs hplayer]
        chipsToPlay := by rw [hplayer]; exact hturn.chipsToPlay
        chipsInBettingBox := by rw [hplayer]; exact hturn.chipsInBettingBox
        announcements := ?_
        playerHand := ⟨c1, c2, drawn, by rw [hplayer]; exact hhand⟩
        dealerHand := ⟨c3, c4, drawn', ?_, fun h => absurd h hbust'⟩
        dealerDisplays := fun h => absurd h hbust'
        rule := rfl }⟩
    · rw [hevents', settlementAnnouncements_append,
        settlementAnnouncements_eq_nil events'
          (fun e he => not_settlement_of_dealerDisplay e (hkind' e he))]
      simp only [displayDealerHandContents, present, List.append_assoc,
        settlementAnnouncements_append, hann]
      simp [settlementAnnouncements, List.filter_cons, Event.isSettlementAnnouncement]
    · rw [hdrawn']
      simp only [displayDealerHandContents, present, hdealer]
      simp

/-- The game a settled round returns, read off the game at the settlement. -/
theorem settledRound_final {w : World} {g gs : BlackjackGame} {s : Settlement}
    (h : SettledRound w g gs s) :
    (roundStarts w g).1 = .ok () ∧
    (roundStarts w g).2.player = s.onPlayer gs.player ∧
    (roundStarts w g).2.dealer = gs.dealer ∧
    (roundStarts w g).2.player.getHandValue = gs.player.getHandValue ∧
    settlementAnnouncements (roundStarts w g).2.output
      = settlementAnnouncements g.output ++ [s.announcement] ∧
    dealerHandDisplays (roundStarts w g).2.output = dealerHandDisplays gs.output := by
  rw [h.result]
  refine ⟨rfl, s.onGame_player gs, s.onGame_dealer gs, ?_, ?_, s.onGame_dealerHandDisplays gs⟩
  · simp only [Player.getHandValue, s.onGame_player gs, s.onPlayer_hand]
  · simp only [s.onGame_announcements gs, h.announcements]

theorem settlementFor_cases (pv dv : Int) :
    (21 < pv → settlementFor pv dv = .loses) ∧
    (pv ≤ 21 → 21 < dv → settlementFor pv dv = .wins) ∧
    (pv ≤ 21 → dv ≤ 21 → dv < pv → settlementFor pv dv = .wins) ∧
    (pv ≤ 21 → dv ≤ 21 → pv < dv → settlementFor pv dv = .loses) ∧
    (pv ≤ 21 → dv ≤ 21 → pv = dv → settlementFor pv dv = .pushes) := by
  unfold settlementFor
  refine ⟨?_, ?_, ?_, ?_, ?_⟩
  · intro h; rw [if_pos h]
  · intro h1 h2; rw [if_neg (by omega), if_pos h2]
  · intro h1 h2 h3; rw [if_neg (by omega), if_neg (by omega), if_pos h3]
  · intro h1 h2 h3; rw [if_neg (by omega), if_neg (by omega), if_neg (by omega), if_pos h3]
  · intro h1 h2 h3
    rw [if_neg (by omega), if_neg (by omega), if_neg (by omega), if_neg (by omega)]

/-- A player who stands on the deal against a dealer who needs no card: the round is settled
on the four cards dealt. -/
theorem roundStarts_stand_on_deal (w : World) (g : BlackjackGame) (rest : List Card)
    (c1 c2 c3 c4 : Card)
    (hshoe : (g.placeShuffledDeckIntoDealingShoe w).deck.cardsInDeck = rest ++ [c4, c3, c2, c1])
    (hmin : 1 ≤ w.askPlayerToBetChips g.betPrompts 1 g.player.chipsToPlay)
    (hmax : w.askPlayerToBetChips g.betPrompts 1 g.player.chipsToPlay ≤ g.player.chipsToPlay)
    (hp : Hand.getHandValue ⟨g.player.playerHand.cardsInHand ++ [c1, c2]⟩ < 21)
    (hno : w.askPlayerForAdditionalCard g.cardPrompts = false)
    (hd : 17 ≤ Hand.getHandValue ⟨g.dealer.dealerHand.cardsInHand ++ [c3, c4]⟩) :
    roundStarts w g =
      (.ok (), (settlementFor (Hand.getHandValue ⟨g.player.playerHand.cardsInHand ++ [c1, c2]⟩)
          (Hand.getHandValue ⟨g.dealer.dealerHand.cardsInHand ++ [c3, c4]⟩)).onGame
        ((afterDeal w g rest c1 c2 c3 c4).checkPlayerWantsOneMoreCard w).2.displayDealerHandContents) := by
  have hloop : (!(afterDeal w g rest c1 c2 c3 c4).playerIsBusted
      && !(afterDeal w g rest c1 c2 c3 c4).playerHasBlackjack) = true := by
    simp only [afterDeal, playerIsBusted, playerHasBlackjack, Player.isBusted,
      Player.hasBlackjack, Bool.and_eq_true, Bool.not_eq_true', ite_eq_right_iff,
      Bool.true_eq_false, imp_false]
    constructor <;> omega
  have hexit : ¬ (!((afterDeal w g rest c1 c2 c3 c4).checkPlayerWantsOneMoreCard
      w).2.displayDealerHandContents.dealerHandValueIsAtLeast17) = true := by
    have := (handValueIsAtLeast17_iff ⟨⟨g.dealer.dealerHand.cardsInHand ++ [c3, c4]⟩⟩).mpr hd
    simpa [dealerHandValueIsAtLeast17, displayDealerHandContents, present,
      checkPlayerWantsOneMoreCard, afterDeal] using this
  rw [roundStarts_of_shoe w g rest c1 c2 c3 c4 hshoe hmin hmax,
    dealAdditionalCardsToPlayer_decline w _ hloop hno, andThen_ok,
    roundClosing_not_busted w _ _ (by
      show ¬ 21 < Hand.getHandValue ⟨g.player.playerHand.cardsInHand ++ [c1, c2]⟩
      omega)
      (dealAdditionalCardsToDealer_exit w _ hexit) rfl]
  rfl

/-! ## The round: claims -/

/-- C6: in every round whose bet is accepted, exactly one of `Player.wins`, `Player.pushes`,
`Player.loses` is applied, once, to the player as the bet left the ledger, and the log gains
exactly that one settlement announcement; which one is fixed by the final hand values: a loss
if the player's value is above 21; otherwise a win if the dealer's is above 21; otherwise a
win, a loss or a push as the player's value is greater than, less than or equal to the
dealer's. -/
theorem roundStarts_applies_exactly_one_settlement (w : World) (g : BlackjackGame)
    (hmin : 1 ≤ w.askPlayerToBetChips g.betPrompts 1 g.player.chipsToPlay)
    (hmax : w.askPlayerToBetChips g.betPrompts 1 g.player.chipsToPlay ≤ g.player.chipsToPlay) :
    ∃ (gs : BlackjackGame) (s : Settlement),
      roundStarts w g = (.ok (), s.onGame gs) ∧
      gs.player.chipsToPlay =
        g.player.chipsToPlay - w.askPlayerToBetChips g.betPrompts 1 g.player.chipsToPlay ∧
      gs.player.chipsInBettingBox =
        g.player.chipsInBettingBox + w.askPlayerToBetChips g.betPrompts 1 g.player.chipsToPlay ∧
      settlementAnnouncements gs.output = settlementAnnouncements g.output ∧
      (roundStarts w g).2.player = s.onPlayer gs.player ∧
      settlementAnnouncements (roundStarts w g).2.output
        = settlementAnnouncements g.output ++ [s.announcement] ∧
      (21 < (roundStarts w g).2.player.getHandValue → s = .loses) ∧
      ((roundStarts w g).2.player.getHandValue ≤ 21 →
        21 < (roundStarts w g).2.dealer.getHandValue → s = .wins) ∧
      ((roundStarts w g).2.player.getHandValue ≤ 21 →
        (roundStarts w g).2.dealer.getHandValue ≤ 21 →
        (roundStarts w g).2.dealer.getHandValue < (roundStarts w g).2.player.getHandValue →
        s = .wins) ∧
      ((roundStarts w g).2.player.getHandValue ≤ 21 →
        (roundStarts w g).2.dealer.getHandValue ≤ 21 →
        (roundStarts w g).2.player.getHandValue < (roundStarts w g).2.dealer.getHandValue →
        s = .loses) ∧
      ((roundStarts w g).2.player.getHandValue ≤ 21 →
        (roundStarts w g).2.dealer.getHandValue ≤ 21 →
        (roundStarts w g).2.player.getHandValue = (roundStarts w g).2.dealer.getHandValue →
        s = .pushes) := by
  obtain ⟨gs, s, h⟩ := roundStarts_settled w g hmin hmax
  obtain ⟨-, hplayer, hdealer, hpv, hann, -⟩ := settledRound_final h
  have hrule := settlementFor_cases gs.player.getHandValue gs.dealer.getHandValue
  rw [← h.rule] at hrule
  refine ⟨gs, s, h.result, h.chipsToPlay, h.chipsInBettingBox, h.announcements, hplayer, hann, ?_⟩
  rw [hpv, Dealer.getHandValue, hdealer]
  exact hrule

set_option maxRecDepth 100000 in
/-- C6, on the run where the dealer draws to 24: the round returns and its one settlement
announcement is the win. -/
theorem roundStarts_applies_exactly_one_settlement_witness :
    (roundStarts worldDealerDraws .new).1 = .ok () ∧
    settlementAnnouncements (roundStarts worldDealerDraws .new).2.output
      = [.announcePlayerWins] := by
  obtain ⟨gs, s, hres, -, -, -, -, hann, -, hwin, -⟩ :=
    roundStarts_applies_exactly_one_settlement worldDealerDraws .new (by decide) (by decide)
  have hval : (roundStarts worldDealerDraws .new).2.player.getHandValue ≤ 21 ∧
      21 < (roundStarts worldDealerDraws .new).2.dealer.getHandValue := by
    rw [roundStarts_eq_of_within 3 worldDealerDraws .new (by decide)]
    decide
  rw [hwin hval.1 hval.2] at hann
  exact ⟨by rw [hres], hann⟩

set_option maxRecDepth 100000 in
/-- C7 as stated fails: on the run `worldPlayer20Dealer17` a fresh player (100 chips) bets 10, is
dealt King + Queen (20) and declines, the dealer holds Jack + Seven (17) and draws nothing, the
player wins, and the available chips are then 110, not 100. -/
theorem win_scenario_leaves_110_not_100 :
    BlackjackGame.new.player.chipsToPlay = 100 ∧
    worldPlayer20Dealer17.askPlayerToBetChips 0 1 100 = 10 ∧
    worldPlayer20Dealer17.askPlayerForAdditionalCard 0 = false ∧
    (roundStarts worldPlayer20Dealer17 .new).1 = .ok () ∧
    (roundStarts worldPlayer20Dealer17 .new).2.player.playerHand.cardsInHand
      = [⟨.King, .Clubs⟩, ⟨.Queen, .Clubs⟩] ∧
    (roundStarts worldPlayer20Dealer17 .new).2.player.getHandValue = 20 ∧
    (roundStarts worldPlayer20Dealer17 .new).2.dealer.dealerHand.cardsInHand
      = [⟨.Jack, .Clubs⟩, ⟨.Seven, .Clubs⟩] ∧
    (roundStarts worldPlayer20Dealer17 .new).2.dealer.getHandValue = 17 ∧
    settlementAnnouncements (roundStarts worldPlayer20Dealer17 .new).2.output
      = [.announcePlayerWins] ∧
    (roundStarts worldPlayer20Dealer17 .new).2.player.chipsToPlay = 110 ∧
    (roundStarts worldPlayer20Dealer17 .new).2.player.chipsToPlay ≠ 100 := by
  rw [roundStarts_eq_of_within 2 worldPlayer20Dealer17 .new (by decide)]
  decide

/-- C7, amended: a player with 100 available chips and an empty betting box bets 10, is dealt
two cards worth 20 and declines; the dealer's two cards are worth 17.  The round returns with
exactly those hands, the player wins, and the available chips are 110. -/
theorem win_scenario_pays_110 (w : World) (g : BlackjackGame) (rest : List Card)
    (c1 c2 c3 c4 : Card)
    (hchips : g.player.chipsToPlay = 100)
    (hbox : g.player.chipsInBettingBox = 0)
    (hplayer : g.player.playerHand.cardsInHand = [])
    (hdealer : g.dealer.dealerHand.cardsInHand = [])
    (hbet : w.askPlayerToBetChips g.betPrompts 1 100 = 10)
    (hshoe : (g.placeShuffledDeckIntoDealingShoe w).deck.cardsInDeck = rest ++ [c4, c3, c2, c1])
    (hp : Hand.getHandValue ⟨[c1, c2]⟩ = 20)
    (hno : w.askPlayerForAdditionalCard g.cardPrompts = false)
    (hd : Hand.getHandValue ⟨[c3, c4]⟩ = 17) :
    (roundStarts w g).1 = .ok () ∧
    (roundStarts w g).2.player.playerHand.cardsInHand = [c1, c2] ∧
    (roundStarts w g).2.dealer.dealerHand.cardsInHand = [c3, c4] ∧
    settlementAnnouncements (roundStarts w g).2.output
      = settlementAnnouncements g.output ++ [.announcePlayerWins] ∧
    (roundStarts w g).2.player.chipsToPlay = 110 ∧
    (roundStarts w g).2.player.chipsInBettingBox = 0 := by
  have hround := roundStarts_stand_on_deal w g rest c1 c2 c3 c4 hshoe
    (by rw [hchips, hbet]; decide) (by rw [hchips, hbet]; decide)
    (by rw [hplayer, List.nil_append, hp]; decide) hno
    (by rw [hdealer, List.nil_append, hd])
  rw [hplayer, hdealer, List.nil_append, List.nil_append, hp, hd] at hround
  have hs : settlementFor 20 17 = .wins := by decide
  rw [hs] at hround
  rw [hround]
  refine ⟨rfl, ?_, ?_, ?_, ?_, rfl⟩
  · simp [Settlement.onGame, playerWins, informPlayerAboutTheirCurrentNumberOfChips, present,
      displayDealerHandContents, checkPlayerWantsOneMoreCard, afterDeal, Player.wins, hplayer]
  · simp [Settlement.onGame, playerWins, informPlayerAboutTheirCurrentNumberOfChips, present,
      displayDealerHandContents, checkPlayerWantsOneMoreCard, afterDeal, hdealer]
  · simp [Settlement.onGame, playerWins, informPlayerAboutTheirCurrentNumberOfChips, present,
      displayDealerHandContents, checkPlayerWantsOneMoreCard, afterDeal, settlementAnnouncements,
      List.filter_cons, Event.isSettlementAnnouncement]
  · simp only [Settlement.onGame, playerWins, informPlayerAboutTheirCurrentNumberOfChips, present,
      displayDealerHandContents, checkPlayerWantsOneMoreCard, afterDeal, Player.wins, hchips,
      hbox, hbet]
    decide

set_option maxRecDepth 100000 in
/-- C7, amended, on the run `worldPlayer20Dealer17`: King + Queen against Jack + Seven. -/
theorem win_scenario_pays_110_witness :
    (roundStarts worldPlayer20Dealer17 .new).1 = .ok () ∧
    (roundStarts worldPlayer20Dealer17 .new).2.player.playerHand.cardsInHand
      = [⟨.King, .Clubs⟩, ⟨.Queen, .Clubs⟩] ∧
    (roundStarts worldPlayer20Dealer17 .new).2.dealer.dealerHand.cardsInHand
      = [⟨.Jack, .Clubs⟩, ⟨.Seven, .Clubs⟩] ∧
    settlementAnnouncements (roundStarts worldPlayer20Dealer17 .new).2.output
      = settlementAnnouncements BlackjackGame.new.output ++ [.announcePlayerWins] ∧
    (roundStarts worldPlayer20Dealer17 .new).2.player.chipsToPlay = 110 ∧
    (roundStarts worldPlayer20Dealer17 .new).2.player.chipsInBettingBox = 0 :=
  win_scenario_pays_110 worldPlayer20Dealer17 .new
    ((BlackjackGame.new.placeShuffledDeckIntoDealingShoe worldPlayer20Dealer17).deck.cardsInDeck.take 48)
    ⟨.King, .Clubs⟩ ⟨.Queen, .Clubs⟩ ⟨.Jack, .Clubs⟩ ⟨.Seven, .Clubs⟩
    (by decide) (by decide) (by decide) (by decide) (by decide) (by decide) (by decide)
    (by decide) (by decide)

/-- C8: when the player's hand is worth more than 21 once the round has run, the round has
returned with a loss as its one settlement, the dealer holds the two cards of the deal and no
more, the dealer's hand was shown once only (the hole card is never revealed), the betting box
is empty and the available chips are those held before the bet minus the bet. -/
theorem busted_player_loses_without_dealer_turn (w : World) (g : BlackjackGame)
    (hmin : 1 ≤ w.askPlayerToBetChips g.betPrompts 1 g.player.chipsToPlay)
    (hmax : w.askPlayerToBetChips g.betPrompts 1 g.player.chipsToPlay ≤ g.player.chipsToPlay)
    (hbust : 21 < (roundStarts w g).2.player.getHandValue) :
    (roundStarts w g).1 = .ok () ∧
    settlementAnnouncements (roundStarts w g).2.output
      = settlementAnnouncements g.output ++ [.announcePlayerLoses] ∧
    (∃ c3 c4, (roundStarts w g).2.dealer.dealerHand.cardsInHand
      = g.dealer.dealerHand.cardsInHand ++ [c3, c4]) ∧
    dealerHandDisplays (roundStarts w g).2.output = dealerHandDisplays g.output + 1 ∧
    (roundStarts w g).2.player.chipsToPlay =
      g.player.chipsToPlay - w.askPlayerToBetChips g.betPrompts 1 g.player.chipsToPlay ∧
    (roundStarts w g).2.player.chipsInBettingBox = 0 := by
  obtain ⟨gs, s, h⟩ := roundStarts_settled w g hmin hmax
  obtain ⟨hok, hplayer, hdealer, hpv, hann, hshown⟩ := settledRound_final h
  rw [hpv] at hbust
  have hs : s = .loses := by
    rw [h.rule]; exact (settlementFor_cases _ _).1 hbust
  subst hs
  obtain ⟨c3, c4, drawn, hhand, hnone⟩ := h.dealerHand
  refine ⟨hok, hann, ⟨c3, c4, ?_⟩, ?_, ?_, ?_⟩
  · rw [hdealer, hhand, hnone hbust]
  · rw [hshown, h.dealerDisplays hbust]
  · rw [hplayer]; exact h.chipsToPlay
  · rw [hplayer]; rfl

set_option maxRecDepth 100000 in
/-- C8, on the run `worldPlayerBusts23`: 100 chips, a bet of 5, King + Queen + Three (23); the
dealer keeps Jack + Ten and 95 chips are left. -/
theorem busted_player_loses_without_dealer_turn_witness :
    (roundStarts worldPlayerBusts23 .new).2.player.getHandValue = 23 ∧
    (roundStarts worldPlayerBusts23 .new).2.dealer.dealerHand.cardsInHand.length = 2 ∧
    settlementAnnouncements (roundStarts worldPlayerBusts23 .new).2.output
      = [.announcePlayerLoses] ∧
    (roundStarts worldPlayerBusts23 .new).2.player.chipsToPlay = 95 := by
  have hval : (roundStarts worldPlayerBusts23 .new).2.player.getHandValue = 23 := by
    rw [roundStarts_eq_of_within 3 worldPlayerBusts23 .new (by decide)]
    decide
  obtain ⟨-, hann, ⟨c3, c4, hdealer⟩, -, hchips, -⟩ :=
    busted_player_loses_without_dealer_turn worldPlayerBusts23 .new (by decide) (by decide)
      (by rw [hval]; decide)
  refine ⟨hval, ?_, hann, ?_⟩
  · rw [hdealer]; rfl
  · rw [hchips]; decide

/-- C9: when the round has run with neither hand above 21 and the two values equal, it has
returned with a push as its one settlement, the betting box is empty and the available chips
are those held before the bet was placed (the betting box being empty when the round starts),
whatever the accepted bet. -/
theorem equal_values_push_returns_the_bet (w : World) (g : BlackjackGame)
    (hmin : 1 ≤ w.askPlayerToBetChips g.betPrompts 1 g.player.chipsToPlay)
    (hmax : w.askPlayerToBetChips g.betPrompts 1 g.player.chipsToPlay ≤ g.player.chipsToPlay)
    (hbox : g.player.chipsInBettingBox = 0)
    (hp : (roundStarts w g).2.player.getHandValue ≤ 21)
    (hd : (roundStarts w g).2.dealer.getHandValue ≤ 21)
    (heq : (roundStarts w g).2.player.getHandValue = (roundStarts w g).2.dealer.getHandValue) :
    (roundStarts w g).1 = .ok () ∧
    settlementAnnouncements (roundStarts w g).2.output
      = settlementAnnouncements g.output ++ [.announcePlayerPushes] ∧
    (roundStarts w g).2.player.chipsToPlay = g.player.chipsToPlay ∧
    (roundStarts w g).2.player.chipsInBettingBox = 0 := by
  obtain ⟨gs, s, h⟩ := roundStarts_settled w g hmin hmax
  obtain ⟨hok, hplayer, hdealer, hpv, hann, -⟩ := settledRound_final h
  rw [hpv] at hp heq
  rw [Dealer.getHandValue, hdealer] at hd heq
  have hs : s = .pushes := by
    rw [h.rule]; exact (settlementFor_cases _ _).2.2.2.2 hp hd heq
  subst hs
  refine ⟨hok, hann, ?_, ?_⟩
  · rw [hplayer]
    simp only [Settlement.onPlayer, Player.pushes, h.chipsToPlay, h.chipsInBettingBox, hbox]
    omega
  · rw [hplayer]; rfl

set_option maxRecDepth 100000 in
/-- C9, on the run `worldPush19`: King + Nine against Jack + Nine, 19 each; the 100 chips held
before the bet of 10 are back. -/
theorem equal_values_push_returns_the_bet_witness :
    (roundStarts worldPush19 .new).2.player.getHandValue = 19 ∧
    (roundStarts worldPush19 .new).2.dealer.getHandValue = 19 ∧
    settlementAnnouncements (roundStarts worldPush19 .new).2.output
      = [.announcePlayerPushes] ∧
    (roundStarts worldPush19 .new).2.player.chipsToPlay = 100 ∧
    (roundStarts worldPush19 .new).2.player.chipsInBettingBox = 0 := by
  have hval : (roundStarts worldPush19 .new).2.player.getHandValue = 19 ∧
      (roundStarts worldPush19 .new).2.dealer.getHandValue = 19 := by
    rw [roundStarts_eq_of_within 2 worldPush19 .new (by decide)]
    decide
  obtain ⟨-, hann, hchips, hbox⟩ :=
    equal_values_push_returns_the_bet worldPush19 .new (by decide) (by decide) (by decide)
      (by rw [hval.1]; decide) (by rw [hval.2]; decide) (by rw [hval.1, hval.2])
  exact ⟨hval.1, hval.2, hann, hchips, hbox⟩

/-- C10: `Dealer.handValueIsAtLeast17` holds exactly when the hand value is at least 17; for
every game and every random source the dealer's turn returns, every card it adds is added to
a hand worth less than 17, the hand it ends with is worth at least 17 and the player is left
alone; a dealer already at 17 or more, a soft 17 such as Ace + Six included, draws nothing. -/
theorem dealer_draws_below_17_and_stops_at_17 (w : World) (g : BlackjackGame) :
    (g.dealer.handValueIsAtLeast17 = true ↔ 17 ≤ g.dealer.getHandValue) ∧
    (∃ g' drawn,
      g.dealAdditionalCardsToDealer w = (.ok (), g') ∧
      g'.dealer.dealerHand.cardsInHand = g.dealer.dealerHand.cardsInHand ++ drawn ∧
      (∀ k, k < drawn.length →
        Hand.getHandValue ⟨g.dealer.dealerHand.cardsInHand ++ drawn.take k⟩ < 17) ∧
      17 ≤ g'.dealer.getHandValue ∧
      g'.player = g.player) ∧
    (17 ≤ g.dealer.getHandValue → g.dealAdditionalCardsToDealer w = (.ok (), g)) ∧
    (∀ s1 s2 : CardSuit,
      Dealer.getHandValue ⟨⟨[⟨.Ace, s1⟩, ⟨.Six, s2⟩]⟩⟩ = 17 ∧
      Dealer.handValueIsAtLeast17 ⟨⟨[⟨.Ace, s1⟩, ⟨.Six, s2⟩]⟩⟩ = true) := by
  refine ⟨handValueIsAtLeast17_iff g.dealer, ?_, ?_, fun s1 s2 => ⟨rfl, rfl⟩⟩
  · obtain ⟨g', hg', hturn, hend⟩ := dealAdditionalCardsToDealer_spec w g
    obtain ⟨drawn, hdrawn, hbelow⟩ := hturn.hand
    exact ⟨g', drawn, hg', hdrawn, hbelow, hend, hturn.player⟩
  · intro h17
    apply dealAdditionalCardsToDealer_exit
    have := (handValueIsAtLeast17_iff g.dealer).mpr h17
    simp [dealerHandValueIsAtLeast17, this]

/-- C10, on a game whose dealer holds Ace + Six: the turn returns the game as it was. -/
theorem dealer_draws_below_17_and_stops_at_17_witness :
    dealAdditionalCardsToDealer worldDealerDraws
        { BlackjackGame.new with
          dealer := ⟨⟨[⟨.Ace, .Hearts⟩, ⟨.Six, .Spades⟩]⟩⟩ }
      = (.ok (), { BlackjackGame.new with
          dealer := ⟨⟨[⟨.Ace, .Hearts⟩, ⟨.Six, .Spades⟩]⟩⟩ }) :=
  (dealer_draws_below_17_and_stops_at_17 worldDealerDraws
      { BlackjackGame.new with
        dealer := ⟨⟨[⟨.Ace, .Hearts⟩, ⟨.Six, .Spades⟩]⟩⟩ }).2.2.1 (by decide)

end BlackjackGame

/-! ## Settling a push and a loss -/

/-- C16: `Player.pushes` returns the wager unchanged: the available chips grow by the wager,
the betting box is emptied and the hand is untouched; 0 available with 10 wagered becomes 10
and 0. -/
theorem pushes_returns_the_wager :
    (∀ p : Player, p.pushes.chipsToPlay = p.chipsToPlay + p.chipsInBettingBox ∧
        p.pushes.chipsInBettingBox = 0 ∧ p.pushes.playerHand = p.playerHand) ∧
    (∀ h : Hand, Player.pushes ⟨h, 0, 10⟩ = ⟨h, 10, 0⟩) :=
  ⟨fun _ => ⟨rfl, rfl, rfl⟩, fun _ => rfl⟩

/-- C17: `Player.loses` forfeits the wager: the betting box is emptied, the available chips
and the hand are untouched; 0 available with 10 wagered becomes 0 and 0. -/
theorem loses_forfeits_the_wager :
    (∀ p : Player, p.loses.chipsInBettingBox = 0 ∧ p.loses.chipsToPlay = p.chipsToPlay ∧
        p.loses.playerHand = p.playerHand) ∧
    (∀ h : Hand, Player.loses ⟨h, 0, 10⟩ = ⟨h, 0, 0⟩) :=
  ⟨fun _ => ⟨rfl, rfl, rfl⟩, fun _ => rfl⟩

/-! ## Card values -/

theorem getCardValue_bounds (c : Card) : 1 ≤ c.getCardValue ∧ c.getCardValue ≤ 10 := by
  rcases c with ⟨r, s⟩
  cases r <;> simp [Card.getCardValue, computeCardValue]

theorem getCardValue_eq_one_iff (c : Card) : c.getCardValue = 1 ↔ c.cardRank = CardRank.Ace := by
  rcases c with ⟨r, s⟩
  cases r <;> simp [Card.getCardValue, computeCardValue]

/-- C18: the value of a card depends on its rank only: 1 for the Ace, the face number for Two
to Ten, 10 for Jack, Queen and King; hence it lies between 1 and 10, `Card.isAce` holds exactly
for the Ace, and the Ace is the only rank worth 1. -/
theorem getCardValue_by_rank :
    (∀ (r : CardRank) (s s' : CardSuit),
        Card.getCardValue ⟨r, s⟩ = Card.getCardValue ⟨r, s'⟩) ∧
    (∀ s : CardSuit,
        Card.getCardValue ⟨.Ace, s⟩ = 1 ∧ Card.getCardValue ⟨.Two, s⟩ = 2 ∧
        Card.getCardValue ⟨.Three, s⟩ = 3 ∧ Card.getCardValue ⟨.Four, s⟩ = 4 ∧
        Card.getCardValue ⟨.Five, s⟩ = 5 ∧ Card.getCardValue ⟨.Six, s⟩ = 6 ∧
        Card.getCardValue ⟨.Seven, s⟩ = 7 ∧ Card.getCardValue ⟨.Eight, s⟩ = 8 ∧
        Card.getCardValue ⟨.Nine, s⟩ = 9 ∧ Card.getCardValue ⟨.Ten, s⟩ = 10 ∧
        Card.getCardValue ⟨.Jack, s⟩ = 10 ∧ Card.getCardValue ⟨.Queen, s⟩ = 10 ∧
        Card.getCardValue ⟨.King, s⟩ = 10) ∧
    (∀ c : Card, c.getCardValue = c.cardRank.code + 1 ∨
        (c.getCardValue = 10 ∧ 10 ≤ c.cardRank.code)) ∧
    (∀ c : Card, 1 ≤ c.getCardValue ∧ c.getCardValue ≤ 10) ∧
    (∀ c : Card, c.isAce = true ↔ c.cardRank = CardRank.Ace) ∧
    (∀ c : Card, c.getCardValue = 1 ↔ c.cardRank = CardRank.Ace) := by
  refine ⟨fun _ _ _ => rfl, fun _ => ⟨rfl, rfl, rfl, rfl, rfl, rfl, rfl, rfl, rfl, rfl, rfl, rfl, rfl⟩,
    ?_, getCardValue_bounds, isAce_eq_true_iff, getCardValue_eq_one_iff⟩
  intro c
  rcases c with ⟨r, s⟩
  cases r <;> simp [Card.getCardValue, computeCardValue, CardRank.code]

/-! ## The ordered deck -/

theorem createOrderedDeck_eq_new (d : Deck) : d.createOrderedDeck = Deck.new := by
  unfold Deck.createOrderedDeck Deck.new Deck.createOrderedDeck
  simp only [clearDeck_eq]

set_option maxRecDepth 100000 in
theorem new_deck_nodup : Deck.new.cardsInDeck.Nodup := by
  decide

set_option maxRecDepth 100000 in
theorem new_deck_count (c : Card) : Deck.new.cardsInDeck.count c = 1 := by
  rcases c with ⟨r, s⟩
  cases r <;> cases s <;> decide

set_option maxRecDepth 100000 in
theorem new_deck_order :
    ∀ i, i < 52 →
      (Deck.new.cardsInDeck[i]?).map (fun c => (c.cardSuit.code, c.cardRank.code))
        = some (((i / 13 : Nat) : Int), ((i % 13 : Nat) : Int)) := by
  decide

/-- C12: whatever the deck held, `Deck.createOrderedDeck` leaves the deck a fresh one: 52 cards,
no card twice, each rank and suit pair once, and the card at index `i` has suit number
`i / 13` (Spades, Hearts, Diamonds, Clubs) and rank number `i % 13` (Ace to King). -/
theorem createOrderedDeck_is_the_ordered_deck (d : Deck) :
    d.createOrderedDeck = Deck.createOrderedDeck { cardsInDeck := [] } ∧
    d.createOrderedDeck.cardsInDeck.length = 52 ∧
    d.createOrderedDeck.cardsInDeck.Nodup ∧
    (∀ c : Card, d.createOrderedDeck.cardsInDeck.count c = 1) ∧
    (∀ i, i < 52 → ∃ c, d.createOrderedDeck.cardsInDeck[i]? = some c ∧
        c.cardSuit.code = ((i / 13 : Nat) : Int) ∧ c.cardRank.code = ((i % 13 : Nat) : Int)) := by
  rw [createOrderedDeck_eq_new d]
  refine ⟨rfl, createOrderedDeck_length { cardsInDeck := [] }, new_deck_nodup, new_deck_count, ?_⟩
  intro i hi
  have h := new_deck_order i hi
  rcases hc : Deck.new.cardsInDeck[i]? with _ | c
  · rw [hc] at h; simp at h
  · rw [hc] at h
    simp only [Option.map_some', Option.some.injEq, Prod.mk.injEq] at h
    exact ⟨c, rfl, h.1, h.2⟩

/-! ## Drawing -/

theorem drawCardfromDeck_of_ne_nil (d : Deck) (h : d.cardsInDeck ≠ []) :
    d.drawCardfromDeck =
      (.ok (d.cardsInDeck.getLast h), { cardsInDeck := d.cardsInDeck.dropLast }) := by
  have := drawCardfromDeck_append d.cardsInDeck.dropLast (d.cardsInDeck.getLast h)
  rwa [List.dropLast_append_getLast h] at this

theorem drawCardfromDeck_of_nil (d : Deck) (h : d.cardsInDeck = []) :
    d.drawCardfromDeck = (.error ⟨"Error: cannot draw card from an empty deck."⟩, d) := by
  simp [Deck.drawCardfromDeck, Deck.isDeckEmpty, h]

/-- C13: from a deck of `N ≥ 1` cards without duplicates `Deck.drawCardfromDeck` returns the last
card, leaves the first `N - 1` cards in their order, so `N - 1` cards, and the card returned
is not among them. -/
theorem drawCardfromDeck_takes_the_top (d : Deck)
    (hN : 1 ≤ d.cardsInDeck.length) (hnodup : d.cardsInDeck.Nodup) :
    ∃ c, d.cardsInDeck.getLast? = some c ∧
      d.drawCardfromDeck =
        (.ok c, { cardsInDeck := d.cardsInDeck.take (d.cardsInDeck.length - 1) }) ∧
      d.cardsInDeck = d.cardsInDeck.take (d.cardsInDeck.length - 1) ++ [c] ∧
      (d.drawCardfromDeck).2.cardsInDeck.length = d.cardsInDeck.length - 1 ∧
      c ∉ (d.drawCardfromDeck).2.cardsInDeck := by
  have hne : d.cardsInDeck ≠ [] := by
    intro h0; rw [h0] at hN; simp at hN
  have hdraw := drawCardfromDeck_of_ne_nil d hne
  have hsplit := List.dropLast_append_getLast hne
  rw [List.dropLast_eq_take] at hdraw hsplit
  refine ⟨d.cardsInDeck.getLast hne, List.getLast?_eq_getLast _ hne, hdraw, hsplit.symm, ?_, ?_⟩
  · rw [hdraw]; simp
  · rw [hdraw]
    rw [← hsplit] at hnodup
    intro hmem
    have := List.nodup_append.mp hnodup
    exact this.2.2 hmem (List.mem_singleton_self _)

/-- C13, on the ordered deck: the King of Clubs is returned and 51 cards are left. -/
theorem drawCardfromDeck_takes_the_top_witness :
    ∃ c, Deck.new.cardsInDeck.getLast? = some c ∧
      Deck.new.drawCardfromDeck =
        (.ok c, { cardsInDeck := Deck.new.cardsInDeck.take (Deck.new.cardsInDeck.length - 1) }) ∧
      Deck.new.cardsInDeck = Deck.new.cardsInDeck.take (Deck.new.cardsInDeck.length - 1) ++ [c] ∧
      (Deck.new.drawCardfromDeck).2.cardsInDeck.length = Deck.new.cardsInDeck.length - 1 ∧
      c ∉ (Deck.new.drawCardfromDeck).2.cardsInDeck :=
  drawCardfromDeck_takes_the_top Deck.new (by decide) new_deck_nodup

/-- C14: `Deck.drawCardfromDeck` throws exactly when the deck is empty; what it throws is
"cannot draw card from an empty deck", and the deck is left as it was. -/
theorem drawCardfromDeck_fails_iff_empty (d : Deck) :
    ((d.drawCardfromDeck).1 = .error ⟨"Error: cannot draw card from an empty deck."⟩
      ↔ d.cardsInDeck = []) ∧
    (∀ e, (d.drawCardfromDeck).1 = .error e →
      d.cardsInDeck = [] ∧ e = ⟨"Error: cannot draw card from an empty deck."⟩ ∧
      (d.drawCardfromDeck).2 = d) ∧
    (d.cardsInDeck = [] →
      d.drawCardfromDeck = (.error ⟨"Error: cannot draw card from an empty deck."⟩, d)) := by
  have hfail : ∀ e, (d.drawCardfromDeck).1 = .error e →
      d.cardsInDeck = [] ∧ e = ⟨"Error: cannot draw card from an empty deck."⟩ ∧
      (d.drawCardfromDeck).2 = d := by
    intro e he
    by_cases h : d.cardsInDeck = []
    · rw [drawCardfromDeck_of_nil d h] at he ⊢
      exact ⟨h, (Except.error.inj he).symm, rfl⟩
    · rw [drawCardfromDeck_of_ne_nil d h] at he
      simp at he
  refine ⟨⟨fun h => (hfail _ h).1, fun h => by rw [drawCardfromDeck_of_nil d h]⟩, hfail,
    drawCardfromDeck_of_nil d⟩

/-- C14, on the empty deck. -/
theorem drawCardfromDeck_fails_iff_empty_witness :
    Deck.drawCardfromDeck { cardsInDeck := [] } =
      (.error ⟨"Error: cannot draw card from an empty deck."⟩, { cardsInDeck := [] }) :=
  (drawCardfromDeck_fails_iff_empty { cardsInDeck := [] }).2.2 rfl

/-- C12, at index 51: the last card of the ordered deck is the King (rank 12) of Clubs (suit 3). -/
theorem createOrderedDeck_is_the_ordered_deck_witness :
    ∃ c, (Deck.createOrderedDeck { cardsInDeck := [⟨.Ace, .Hearts⟩] }).cardsInDeck[51]? = some c ∧
      c.cardSuit.code = ((51 / 13 : Nat) : Int) ∧ c.cardRank.code = ((51 % 13 : Nat) : Int) :=
  (createOrderedDeck_is_the_ordered_deck { cardsInDeck := [⟨.Ace, .Hearts⟩] }).2.2.2.2 51
    (by decide)

/-! ## Shuffling -/

theorem iter_swap_count (xs : List Card) (i j : Nat) (c : Card) :
    (iter_swap xs i j).count c = xs.count c := by
  unfold iter_swap
  split
  · rfl
  · rename_i hij
    split
    · rename_i a b ha hb
      obtain ⟨hi, hai⟩ := List.getElem?_eq_some.mp ha
      obtain ⟨hj, hbj⟩ := List.getElem?_eq_some.mp hb
      have hj' : j < (xs.set i b).length := by simpa using hj
      have hget : (xs.set i b)[j] = b := by
        rw [List.getElem_set_ne hij]
        exact hbj
      rw [List.count_set _ _ _ _ hj', hget, List.count_set _ _ _ _ hi, hai]
      have hmem : a ∈ xs := hai ▸ List.getElem_mem hi
      have hpos : (a == c) = true → 0 < xs.count c := by
        intro h
        have : a = c := by simpa using h
        exact List.count_pos_iff.mpr (this ▸ hmem)
      by_cases h1 : (a == c) = true <;> by_cases h2 : (b == c) = true
      · have := hpos h1; simp only [h1, h2, if_true]; omega
      · have := hpos h1; simp only [h1, h2, if_true, if_false, Bool.false_eq_true]; omega
      · simp only [h1, h2, if_true, if_false, Bool.false_eq_true]; omega
      · simp only [h1, h2, if_false, Bool.false_eq_true]; omega
    · rfl

theorem iter_swap_perm (xs : List Card) (i j : Nat) : (iter_swap xs i j).Perm xs :=
  List.perm_iff_count.mpr (iter_swap_count xs i j)

theorem random_shuffle_loop_perm (rand : Nat → Nat) (steps i k : Nat) (xs : List Card) :
    (random_shuffle_loop rand steps i k xs).1.Perm xs := by
  induction steps generalizing i k xs with
  | zero => exact List.Perm.refl xs
  | succ n ih =>
    simp only [random_shuffle_loop]
    exact (ih _ _ _).trans (iter_swap_perm xs i _)

theorem shuffleDeck_perm (rand : Nat → Nat) (k : Nat) (d : Deck) :
    (d.shuffleDeck rand k).1.cardsInDeck.Perm d.cardsInDeck := by
  unfold Deck.shuffleDeck
  split
  · exact random_shuffle_loop_perm rand _ 1 k d.cardsInDeck
  · exact List.Perm.refl _

theorem shuffleDeck_of_nil (rand : Nat → Nat) (k : Nat) (d : Deck) (h : d.cardsInDeck = []) :
    d.shuffleDeck rand k = (d, k) := by
  simp [Deck.shuffleDeck, Deck.isDeckEmpty, h]

theorem placeShuffledDeckIntoDealingShoe_perm (w : World) (g : BlackjackGame) :
    (g.placeShuffledDeckIntoDealingShoe w).deck.cardsInDeck.Perm Deck.new.cardsInDeck := by
  simp only [BlackjackGame.placeShuffledDeckIntoDealingShoe, BlackjackGame.shuffleDeck,
    BlackjackGame.getOrderedDeck, BlackjackGame.clearDeck]
  rw [createOrderedDeck_eq_new]
  exact shuffleDeck_perm _ _ _

/-- C15: for every random source `Deck.shuffleDeck` leaves a permutation of the deck: the same
number of cards and every card as often as before; the empty deck is left alone and no random
number is asked for.  So a deck reset and shuffled, as `placeShuffledDeckIntoDealingShoe` does,
holds 52 cards, none twice and each rank and suit pair once. -/
theorem shuffleDeck_permutes (rand : Nat → Nat) (k : Nat) (d : Deck) :
    (d.shuffleDeck rand k).1.cardsInDeck.Perm d.cardsInDeck ∧
    (d.shuffleDeck rand k).1.cardsInDeck.length = d.cardsInDeck.length ∧
    (∀ c : Card, (d.shuffleDeck rand k).1.cardsInDeck.count c = d.cardsInDeck.count c) ∧
    (d.cardsInDeck = [] → d.shuffleDeck rand k = (d, k)) ∧
    (∀ c : Card, (d.createOrderedDeck.shuffleDeck rand k).1.cardsInDeck.count c = 1) ∧
    (d.createOrderedDeck.shuffleDeck rand k).1.cardsInDeck.Nodup ∧
    (∀ (w : World) (g : BlackjackGame),
      (g.placeShuffledDeckIntoDealingShoe w).deck.cardsInDeck.length = 52 ∧
      (g.placeShuffledDeckIntoDealingShoe w).deck.cardsInDeck.Nodup ∧
      ∀ c : Card, (g.placeShuffledDeckIntoDealingShoe w).deck.cardsInDeck.count c = 1) := by
  have hp := shuffleDeck_perm rand k d
  have hreset := shuffleDeck_perm rand k d.createOrderedDeck
  rw [createOrderedDeck_eq_new] at hreset ⊢
  refine ⟨hp, hp.length_eq, fun c => hp.count_eq c, shuffleDeck_of_nil rand k d,
    fun c => (hreset.count_eq c).trans (new_deck_count c),
    hreset.nodup_iff.mpr new_deck_nodup, fun w g => ?_⟩
  have hg := placeShuffledDeckIntoDealingShoe_perm w g
  exact ⟨BlackjackGame.placeShuffledDeckIntoDealingShoe_length w g,
    hg.nodup_iff.mpr new_deck_nodup, fun c => (hg.count_eq c).trans (new_deck_count c)⟩

/-- C15, on the empty deck: nothing changes and the count of random numbers used stays 7. -/
theorem shuffleDeck_permutes_witness :
    Deck.shuffleDeck (fun n => n + 1) 7 { cardsInDeck := [] } = ({ cardsInDeck := [] }, 7) :=
  (shuffleDeck_permutes (fun n => n + 1) 7 { cardsInDeck := [] }).2.2.2.1 rfl

/-! ## The `Card` constructor -/

theorem computeCardValue_of_code (r : CardRank) :
    CardObject.computeCardValue r.code = .ok (computeCardValue r) := by
  cases r <;> rfl

theorem computeCardValue_outside (rank : Int) (h : rank < 0 ∨ 12 < rank) :
    CardObject.computeCardValue rank = .error ⟨"Error: card rank is not identified."⟩ := by
  unfold CardObject.computeCardValue
  repeat rw [if_neg (by omega)]

theorem computeCardValue_inside (rank : Int) (h : 0 ≤ rank ∧ rank ≤ 12) :
    ∃ v, CardObject.computeCardValue rank = .ok v ∧ 1 ≤ v ∧ v ≤ 10 := by
  obtain ⟨h0, h12⟩ := h
  interval_cases rank <;> exact ⟨_, rfl, by decide, by decide⟩

theorem getCardSuitInTextFormat_outside (c : CardObject) (h : c.cardSuit < 0 ∨ 3 < c.cardSuit) :
    c.getCardSuitInTextFormat = .error ⟨"Error: card suit is not identified."⟩ := by
  unfold CardObject.getCardSuitInTextFormat
  repeat rw [if_neg (by omega)]

/-- C19 as stated fails: with the rank code 0 (Ace) and the suit code 4, which names no suit,
the constructor succeeds and stores the 4; the suit is refused only later, when its text is
asked for. -/
theorem card_with_unknown_suit_is_constructed :
    ¬ (0 ≤ (4 : Int) ∧ (4 : Int) ≤ 3) ∧
    CardObject.new 0 4 = .ok { cardRank := 0, cardSuit := 4, cardValue := 1 } ∧
    CardObject.new 0 4 ≠ .error ⟨"Error: card suit is not identified."⟩ ∧
    CardObject.getCardSuitInTextFormat { cardRank := 0, cardSuit := 4, cardValue := 1 }
      = .error ⟨"Error: card suit is not identified."⟩ := by
  refine ⟨by decide, rfl, ?_, rfl⟩
  intro h
  have h' : CardObject.new 0 4 = .ok { cardRank := 0, cardSuit := 4, cardValue := 1 } := rfl
  rw [h'] at h
  exact Except.noConfusion h

/-- C19, amended: the constructor throws "card rank is not identified" whenever the rank code
is outside 0..12, whatever the suit code, and succeeds whenever the rank code is in 0..12,
whatever the suit code, storing both codes and a value between 1 and 10.  A suit code outside
0..3 makes `getCardSuitInTextFormat` throw "card suit is not identified".  On the codes of a rank
and a suit the constructor builds the card of the model. -/
theorem card_constructor_checks_the_rank_only (rank suit : Int) :
    ((rank < 0 ∨ 12 < rank) →
      CardObject.new rank suit = .error ⟨"Error: card rank is not identified."⟩) ∧
    ((0 ≤ rank ∧ rank ≤ 12) →
      ∃ v, CardObject.new rank suit = .ok { cardRank := rank, cardSuit := suit, cardValue := v } ∧
        1 ≤ v ∧ v ≤ 10) ∧
    ((suit < 0 ∨ 3 < suit) →
      ∀ c : CardObject, c.cardSuit = suit →
        c.getCardSuitInTextFormat = .error ⟨"Error: card suit is not identified."⟩) ∧
    (∀ c : Card, CardObject.new c.cardRank.code c.cardSuit.code = .ok c.toObject) := by
  refine ⟨?_, ?_, ?_, ?_⟩
  · intro h
    simp only [CardObject.new, computeCardValue_outside rank h]
  · intro h
    obtain ⟨v, hv, h1, h10⟩ := computeCardValue_inside rank h
    exact ⟨v, by simp only [CardObject.new, hv], h1, h10⟩
  · intro h c hc
    exact getCardSuitInTextFormat_outside c (by rw [hc]; exact h)
  · intro c
    simp only [CardObject.new, computeCardValue_of_code, Card.toObject, Card.getCardValue]

/-- C19, amended, at the codes 13 and 0 (no such rank), 12 and 7 (a King of no suit) and on a
card holding the suit code 7. -/
theorem card_constructor_checks_the_rank_only_witness :
    CardObject.new 13 0 = .error ⟨"Error: card rank is not identified."⟩ ∧
    (∃ v, CardObject.new 12 7 = .ok { cardRank := 12, cardSuit := 7, cardValue := v } ∧
      1 ≤ v ∧ v ≤ 10) ∧
    CardObject.getCardSuitInTextFormat { cardRank := 12, cardSuit := 7, cardValue := 10 }
      = .error ⟨"Error: card suit is not identified."⟩ :=
  ⟨(card_constructor_checks_the_rank_only 13 0).1 (by decide),
   (card_constructor_checks_the_rank_only 12 7).2.1 (by decide),
   (card_constructor_checks_the_rank_only 12 7).2.2.1 (by decide)
     { cardRank := 12, cardSuit := 7, cardValue := 10 } rfl⟩

/-! ## The session loop -/

namespace BlackjackGame

theorem hasAvailableChipsToPlay_iff (p : Player) :
    p.hasAvailableChipsToPlay = true ↔ 1 ≤ p.chipsToPlay := by
  simp [Player.hasAvailableChipsToPlay]

theorem beginPlayingPass_no_chips (w : World) (g g1 : BlackjackGame)
    (hround : roundStarts w g = (.ok (), g1)) (hchips : g1.player.chipsToPlay < 1) :
    beginPlayingPass w g = .left (.ok (),
      { g1.roundEnds with
        output := g1.output ++
          [.announceEndOfRound, .displayRegretMessageNoChips, .displayGoodbyeMessage] }) := by
  have hno : g1.roundEnds.playerHasAvailableChipsToPlay = false := by
    have := (hasAvailableChipsToPlay_iff g1.player).not
    simp only [not_le, Bool.not_eq_true] at this
    have h := this.mpr hchips
    simpa [playerHasAvailableChipsToPlay, roundEnds, discardAllCardsFromTable, present,
      Player.clearHand, Player.hasAvailableChipsToPlay] using h
  simp only [beginPlayingPass, hround, hno, Bool.not_false, if_true]
  simp [informPlayerAboutLackOfChips, gameEnds, roundEnds, discardAllCardsFromTable, present]

theorem beginPlayingPass_asks (w : World) (g g1 : BlackjackGame)
    (hround : roundStarts w g = (.ok (), g1)) (hchips : 1 ≤ g1.player.chipsToPlay) :
    beginPlayingPass w g =
      if w.askPlayerToPlayNewRound g1.roundPrompts = true then
        .again { g1.roundEnds with
          output := g1.output ++ [.announceEndOfRound, .askPlayerToPlayNewRound true]
          roundPrompts := g1.roundPrompts + 1 }
      else
        .left (.ok (), { g1.roundEnds with
          output := g1.output ++
            [.announceEndOfRound, .askPlayerToPlayNewRound false, .displayGoodbyeMessage]
          roundPrompts := g1.roundPrompts + 1 }) := by
  have hyes : g1.roundEnds.playerHasAvailableChipsToPlay = true := by
    have h := (hasAvailableChipsToPlay_iff g1.player).mpr hchips
    simpa [playerHasAvailableChipsToPlay, roundEnds, discardAllCardsFromTable, present,
      Player.clearHand, Player.hasAvailableChipsToPlay] using h
  simp only [beginPlayingPass, hround, hyes, Bool.not_true, Bool.false_eq_true, if_false]
  cases hans : w.askPlayerToPlayNewRound g1.roundPrompts <;>
    simp [askPlayerToPlayNewRound, gameEnds, roundEnds, discardAllCardsFromTable, present, hans]

theorem gameAtPass_succ (w : World) (g0 g : BlackjackGame) (n : Nat)
    (h : gameAtPass w g0 n = some g) :
    gameAtPass w g0 (n + 1) =
      match beginPlayingPass w g with
      | .again g' => some g'
      | .left _ => none := by
  simp only [gameAtPass, h]

theorem beginPlayingLoop_of_gameAtPass (w : World) (g0 g : BlackjackGame) (n m : Nat)
    (h : gameAtPass w g0 n = some g) :
    beginPlayingLoop w (n + m) g0 = beginPlayingLoop w m g := by
  induction n generalizing g m with
  | zero =>
    simp only [gameAtPass, Option.some.injEq] at h
    rw [h, Nat.zero_add]
  | succ n ih =>
    rcases hprev : gameAtPass w g0 n with _ | g'
    · simp [gameAtPass, hprev] at h
    · rw [gameAtPass_succ w g0 g' n hprev] at h
      rcases hpass : beginPlayingPass w g' with g'' | r
      · rw [hpass] at h
        simp only [Option.some.injEq] at h
        subst h
        rw [show n + 1 + m = n + (m + 1) by omega, ih g' (m + 1) hprev]
        simp only [beginPlayingLoop, hpass]
      · rw [hpass] at h
        simp at h

theorem beginPlaying_of_chips (rounds : Nat) (w : World) (g0 : BlackjackGame)
    (h : 1 ≤ g0.player.chipsToPlay) :
    beginPlaying rounds w g0 = beginPlayingLoop w rounds g0.gameStarts := by
  have hyes : g0.gameStarts.playerHasAvailableChipsToPlay = true :=
    (hasAvailableChipsToPlay_iff g0.player).mpr h
  simp only [beginPlaying, hyes, Bool.not_true, Bool.false_eq_true, if_false]

theorem beginPlaying_no_chips (rounds : Nat) (w : World) (g0 : BlackjackGame)
    (h : g0.player.chipsToPlay < 1) :
    beginPlaying rounds w g0 = some (.ok (),
      { g0 with
        output := g0.output ++
          [.displayWelcomeMessage, .displayRegretMessageNoChips, .displayGoodbyeMessage] }) := by
  have hno : g0.gameStarts.playerHasAvailableChipsToPlay = false := by
    have := (hasAvailableChipsToPlay_iff g0.player).not
    simp only [not_le, Bool.not_eq_true] at this
    exact this.mpr h
  simp only [beginPlaying, hno, Bool.not_false, if_true]
  simp [informPlayerAboutLackOfChips, gameEnds, gameStarts, present]

/-- The session returns what the pass reached after `n` passes returns, as soon as more than
`n` rounds are allowed. -/
theorem beginPlaying_of_left (w : World) (g0 g : BlackjackGame) (n rounds : Nat) (r : Outcome)
    (hstart : 1 ≤ g0.player.chipsToPlay)
    (hreach : gameAtPass w g0.gameStarts n = some g)
    (hpass : beginPlayingPass w g = .left r) (hrounds : n < rounds) :
    beginPlaying rounds w g0 = some r := by
  obtain ⟨m, rfl⟩ : ∃ m, rounds = n + (m + 1) := ⟨rounds - n - 1, by omega⟩
  rw [beginPlaying_of_chips _ w g0 hstart, beginPlayingLoop_of_gameAtPass w _ g n (m + 1) hreach]
  simp only [beginPlayingLoop, hpass]

/-- C11: a session entered with less than 1 available chip ends at once: welcome, regret,
goodbye, nothing asked.  A session entered with chips starts its first round unasked; after
every round that returns, with less than 1 available chip the session is over (regret,
goodbye), no further round starts and the question is not asked, whatever the answers would
have been; with chips the question is asked once, a yes starts the next round and a no ends
the session (goodbye). -/
theorem session_ends_at_once_without_chips (w : World) (g0 : BlackjackGame) :
    (g0.player.chipsToPlay < 1 →
      ∀ rounds, beginPlaying rounds w g0 = some (.ok (),
        { g0 with
          output := g0.output ++
            [.displayWelcomeMessage, .displayRegretMessageNoChips, .displayGoodbyeMessage] })) ∧
    (1 ≤ g0.player.chipsToPlay →
      gameAtPass w g0.gameStarts 0 = some g0.gameStarts ∧
      ∀ n g g1, gameAtPass w g0.gameStarts n = some g → roundStarts w g = (.ok (), g1) →
        (g1.player.chipsToPlay < 1 →
          gameAtPass w g0.gameStarts (n + 1) = none ∧
          ∀ rounds, n < rounds → beginPlaying rounds w g0 = some (.ok (),
            { g1.roundEnds with
              output := g1.output ++
                [.announceEndOfRound, .displayRegretMessageNoChips, .displayGoodbyeMessage] })) ∧
        (1 ≤ g1.player.chipsToPlay → w.askPlayerToPlayNewRound g1.roundPrompts = false →
          gameAtPass w g0.gameStarts (n + 1) = none ∧
          ∀ rounds, n < rounds → beginPlaying rounds w g0 = some (.ok (),
            { g1.roundEnds with
              output := g1.output ++
                [.announceEndOfRound, .askPlayerToPlayNewRound false, .displayGoodbyeMessage]
              roundPrompts := g1.roundPrompts + 1 })) ∧
        (1 ≤ g1.player.chipsToPlay → w.askPlayerToPlayNewRound g1.roundPrompts = true →
          gameAtPass w g0.gameStarts (n + 1) = some
            { g1.roundEnds with
              output := g1.output ++ [.announceEndOfRound, .askPlayerToPlayNewRound true]
              roundPrompts := g1.roundPrompts + 1 })) := by
  refine ⟨fun h rounds => beginPlaying_no_chips rounds w g0 h, fun hstart => ⟨rfl, ?_⟩⟩
  intro n g g1 hreach hround
  refine ⟨fun hchips => ?_, fun hchips hno => ?_, fun hchips hyes => ?_⟩
  · have hpass := beginPlayingPass_no_chips w g g1 hround hchips
    refine ⟨by rw [gameAtPass_succ w _ g n hreach, hpass], fun rounds hrounds => ?_⟩
    exact beginPlaying_of_left w g0 g n rounds _ hstart hreach hpass hrounds
  · have hpass := beginPlayingPass_asks w g g1 hround hchips
    rw [hno] at hpass
    simp only [Bool.false_eq_true, if_false] at hpass
    refine ⟨by rw [gameAtPass_succ w _ g n hreach, hpass], fun rounds hrounds => ?_⟩
    exact beginPlaying_of_left w g0 g n rounds _ hstart hreach hpass hrounds
  · have hpass := beginPlayingPass_asks w g g1 hround hchips
    rw [hyes] at hpass
    simp only [if_true] at hpass
    rw [gameAtPass_succ w _ g n hreach, hpass]

set_option maxRecDepth 100000 in
theorem roundStarts_worldAllInBust :
    roundStarts worldAllInBust BlackjackGame.new.gameStarts = (.ok (), gameAfterAllInBust) := by
  apply roundStartsWithin_sound 3
  decide

set_option maxRecDepth 100000 in
/-- C11, on the run `worldAllInBust`: the player stakes all 100 chips and busts; the session is
over after one round with no chip left, one bet asked for and the question never asked, though
the answer would have been yes. -/
theorem session_ends_at_once_without_chips_witness :
    worldAllInBust.askPlayerToPlayNewRound 0 = true ∧
    (beginPlaying 1 worldAllInBust .new).map
        (fun r => (r.1, r.2.player.chipsToPlay, r.2.betPrompts, r.2.roundPrompts))
      = some (.ok (), 0, 1, 0) := by
  have h := ((((session_ends_at_once_without_chips worldAllInBust .new).2 (by decide)).2
    0 _ _ rfl roundStarts_worldAllInBust).1 (by decide)).2 1 (by decide)
  rw [h]
  exact ⟨rfl, by decide⟩

/-! ## No exception in a session -/

theorem roundStarts_ok (w : World) (hw : w.betsWithinBounds) (g : BlackjackGame)
    (hchips : 1 ≤ g.player.chipsToPlay) :
    ∃ g1, roundStarts w g = (.ok (), g1) := by
  obtain ⟨hmin, hmax⟩ := hw g.betPrompts 1 g.player.chipsToPlay hchips
  obtain ⟨gs, s, h⟩ := roundStarts_settled w g hmin hmax
  exact ⟨_, h.result⟩

theorem beginPlayingPass_ok (w : World) (hw : w.betsWithinBounds) (g : BlackjackGame)
    (hchips : 1 ≤ g.player.chipsToPlay) :
    (∃ g', beginPlayingPass w g = .again g' ∧ 1 ≤ g'.player.chipsToPlay) ∨
    (∃ e, beginPlayingPass w g = .left (.ok (), e)) := by
  obtain ⟨g1, hround⟩ := roundStarts_ok w hw g hchips
  by_cases h1 : 1 ≤ g1.player.chipsToPlay
  · have hpass := beginPlayingPass_asks w g g1 hround h1
    cases hans : w.askPlayerToPlayNewRound g1.roundPrompts
    · rw [hans] at hpass
      exact Or.inr ⟨_, hpass⟩
    · rw [hans] at hpass
      refine Or.inl ⟨_, hpass, ?_⟩
      simpa [roundEnds, discardAllCardsFromTable, present, Player.clearHand] using h1
  · exact Or.inr ⟨_, beginPlayingPass_no_chips w g g1 hround (by omega)⟩

theorem beginPlayingLoop_ok (w : World) (hw : w.betsWithinBounds) (rounds : Nat)
    (g : BlackjackGame) (hchips : 1 ≤ g.player.chipsToPlay) (r : Outcome)
    (h : beginPlayingLoop w rounds g = some r) : r.1 = .ok () := by
  induction rounds generalizing g with
  | zero => simp [beginPlayingLoop] at h
  | succ n ih =>
    rcases beginPlayingPass_ok w hw g hchips with ⟨g', hpass, hchips'⟩ | ⟨e, hpass⟩
    · simp only [beginPlayingLoop, hpass] at h
      exact ih g' hchips' h
    · simp only [beginPlayingLoop, hpass, Option.some.injEq] at h
      rw [← h]

theorem gameAtPass_chips (w : World) (hw : w.betsWithinBounds) (g0 : BlackjackGame)
    (hstart : 1 ≤ g0.player.chipsToPlay) (n : Nat) (g : BlackjackGame)
    (h : gameAtPass w g0 n = some g) : 1 ≤ g.player.chipsToPlay := by
  induction n generalizing g with
  | zero =>
    simp only [gameAtPass, Option.some.injEq] at h
    rw [← h]; exact hstart
  | succ n ih =>
    rcases hprev : gameAtPass w g0 n with _ | g'
    · simp [gameAtPass, hprev] at h
    · rw [gameAtPass_succ w g0 g' n hprev] at h
      rcases beginPlayingPass_ok w hw g' (ih g' hprev) with ⟨g'', hpass, hchips⟩ | ⟨e, hpass⟩
      · rw [hpass] at h
        simp only [Option.some.injEq] at h
        rw [← h]; exact hchips
      · rw [hpass] at h
        simp at h

theorem guardedDraw_nonempty (w : World) (g : BlackjackGame) :
    (if g.isDeckEmpty then g.placeShuffledDeckIntoDealingShoe w else g).deck.cardsInDeck ≠ [] := by
  by_cases hempty : g.isDeckEmpty = true
  · rw [if_pos hempty]
    intro h
    have := placeShuffledDeckIntoDealingShoe_length w g
    rw [h] at this
    simp at this
  · rw [if_neg hempty]
    simpa [isDeckEmpty, Deck.isDeckEmpty] using hempty

/-- C20: when the bet prompt keeps its contract, a session started from a fresh game throws
nothing, however the deck is shuffled and whatever is answered: for every bound on the rounds
the session either is still going or has returned normally; every round it reaches is entered
with at least 1 available chip, its bet lies between 1 and the available chips and is accepted
by `isBetting`, and the round returns normally.  In every game a draw is made from a deck that
is not empty (an empty one is first replaced by 52 cards), so both deals return normally. -/
theorem fresh_session_never_throws (w : World) (hw : w.betsWithinBounds) :
    (∀ rounds r, beginPlaying rounds w .new = some r → r.1 = .ok ()) ∧
    (∀ n g, gameAtPass w BlackjackGame.new.gameStarts n = some g →
      1 ≤ g.player.chipsToPlay ∧
      1 ≤ w.askPlayerToBetChips g.betPrompts 1 g.player.chipsToPlay ∧
      w.askPlayerToBetChips g.betPrompts 1 g.player.chipsToPlay ≤ g.player.chipsToPlay ∧
      (g.player.isBetting (w.askPlayerToBetChips g.betPrompts 1 g.player.chipsToPlay)).1
        = .ok () ∧
      (roundStarts w g).1 = .ok ()) ∧
    (∀ g : BlackjackGame,
      (if g.isDeckEmpty then g.placeShuffledDeckIntoDealingShoe w else g).deck.cardsInDeck ≠ [] ∧
      (g.isDeckEmpty = true →
        (g.placeShuffledDeckIntoDealingShoe w).deck.cardsInDeck.length = 52) ∧
      (g.dealCardToPlayer w).1 = .ok () ∧
      (g.dealCardToDealer w).1 = .ok ()) := by
  have hnew : 1 ≤ BlackjackGame.new.gameStarts.player.chipsToPlay := by decide
  refine ⟨?_, ?_, ?_⟩
  · intro rounds r h
    rw [beginPlaying_of_chips rounds w .new (by decide)] at h
    exact beginPlayingLoop_ok w hw rounds _ hnew r h
  · intro n g h
    have hchips := gameAtPass_chips w hw _ hnew n g h
    obtain ⟨hmin, hmax⟩ := hw g.betPrompts 1 g.player.chipsToPlay hchips
    obtain ⟨g1, hround⟩ := roundStarts_ok w hw g hchips
    exact ⟨hchips, hmin, hmax, by rw [isBetting_accepted g.player _ hmin hmax], by rw [hround]⟩
  · intro g
    obtain ⟨c, d, k, hp⟩ := dealCardToPlayer_ok w g
    obtain ⟨c', d', k', hd⟩ := dealCardToDealer_ok w g
    exact ⟨guardedDraw_nonempty w g, fun _ => placeShuffledDeckIntoDealingShoe_length w g,
      by rw [hp], by rw [hd]⟩

set_option maxRecDepth 100000 in
/-- C20, on the run `worldAllInBust`, whose bet prompt returns the largest bet allowed: the
session has returned normally after its one round. -/
theorem fresh_session_never_throws_witness :
    ∃ r, beginPlaying 1 worldAllInBust .new = some r ∧ r.1 = .ok () := by
  have hret := beginPlaying_of_left worldAllInBust .new _ 0 1 _ (by decide) rfl
    (beginPlayingPass_no_chips worldAllInBust _ _ roundStarts_worldAllInBust (by decide))
    (by decide)
  exact ⟨_, hret, (fresh_session_never_throws worldAllInBust
    (fun _ _ _ hle => ⟨hle, Int.le_refl _⟩)).1 1 _ hret⟩

end BlackjackGame

/-! ## The standard valuation -/

theorem mem_standardTotals (cards : List Card) (t : Int) :
    t ∈ standardTotals cards ↔
      ∃ k : Nat, k ≤ cards.countP (fun c => decide (c.cardRank = CardRank.Ace)) ∧
        t = (cards.map Card.getCardValue).sum + 10 * (k : Int) := by
  induction cards generalizing t with
  | nil => simp [standardTotals]
  | cons c cs ih =>
    by_cases hace : c.cardRank = CardRank.Ace
    · have hval : c.getCardValue = 1 := (getCardValue_eq_one_iff c).mpr hace
      simp only [standardTotals, hace, if_true, List.mem_append, List.mem_map, ih,
        List.countP_cons, decide_True, List.map_cons, List.sum_cons, hval]
      constructor
      · rintro (⟨a, ⟨k, hk, rfl⟩, rfl⟩ | ⟨a, ⟨k, hk, rfl⟩, rfl⟩)
        · exact ⟨k, by omega, by omega⟩
        · exact ⟨k + 1, by omega, by push_cast; omega⟩
      · rintro ⟨k, hk, rfl⟩
        by_cases hlast : k ≤ cs.countP (fun c => decide (c.cardRank = CardRank.Ace))
        · exact Or.inl ⟨_, ⟨k, hlast, rfl⟩, by omega⟩
        · refine Or.inr ⟨_, ⟨k - 1, by omega, rfl⟩, ?_⟩
          have : ((k - 1 : Nat) : Int) = (k : Int) - 1 := by omega
          rw [this]; omega
    · simp only [standardTotals, hace, if_false, List.mem_map, ih, List.countP_cons,
        decide_False, List.map_cons, List.sum_cons, Bool.false_eq_true]
      constructor
      · rintro ⟨a, ⟨k, hk, rfl⟩, rfl⟩
        exact ⟨k, by omega, by omega⟩
      · rintro ⟨k, hk, rfl⟩
        exact ⟨_, ⟨k, by omega, rfl⟩, by omega⟩

theorem countP_ace_le_sum (cards : List Card) :
    ((cards.countP (fun c => decide (c.cardRank = CardRank.Ace)) : Nat) : Int)
      ≤ (cards.map Card.getCardValue).sum := by
  induction cards with
  | nil => simp
  | cons c cs ih =>
    have h1 := (getCardValue_bounds c).1
    simp only [List.countP_cons, List.map_cons, List.sum_cons]
    split <;> push_cast <;> omega

theorem exists_ace_iff_countP (cards : List Card) :
    (∃ c ∈ cards, c.cardRank = CardRank.Ace) ↔
      1 ≤ cards.countP (fun c => decide (c.cardRank = CardRank.Ace)) := by
  rw [Nat.succ_le_iff, List.countP_pos_iff]
  simp

theorem getHandValue_best_total (h : Hand) :
    h.getHandValue ∈ standardTotals h.cardsInHand ∧
    (∀ t ∈ standardTotals h.cardsInHand, (h.cardsInHand.map Card.getCardValue).sum ≤ t) ∧
    ((h.cardsInHand.map Card.getCardValue).sum ≤ 21 →
      h.getHandValue ≤ 21 ∧ ∀ t ∈ standardTotals h.cardsInHand, t ≤ 21 → t ≤ h.getHandValue) ∧
    (21 < (h.cardsInHand.map Card.getCardValue).sum →
      h.getHandValue = (h.cardsInHand.map Card.getCardValue).sum) := by
  have hv := getHandValue_eq h
  have hcount := countP_ace_le_sum h.cardsInHand
  have hace := exists_ace_iff_countP h.cardsInHand
  refine ⟨?_, ?_, ?_, ?_⟩
  · rw [mem_standardTotals]
    by_cases hadj : (∃ c ∈ h.cardsInHand, c.cardRank = CardRank.Ace) ∧
        (h.cardsInHand.map Card.getCardValue).sum ≤ 11
    · rw [if_pos hadj] at hv
      exact ⟨1, hace.mp hadj.1, by rw [hv]; norm_num⟩
    · rw [if_neg hadj] at hv
      exact ⟨0, Nat.zero_le _, by rw [hv]; norm_num⟩
  · intro t ht
    obtain ⟨k, -, rfl⟩ := (mem_standardTotals _ _).mp ht
    omega
  · intro hsum
    by_cases hadj : (∃ c ∈ h.cardsInHand, c.cardRank = CardRank.Ace) ∧
        (h.cardsInHand.map Card.getCardValue).sum ≤ 11
    · rw [if_pos hadj] at hv
      refine ⟨by omega, fun t ht ht21 => ?_⟩
      obtain ⟨k, hk, rfl⟩ := (mem_standardTotals _ _).mp ht
      omega
    · rw [if_neg hadj] at hv
      refine ⟨by omega, fun t ht ht21 => ?_⟩
      obtain ⟨k, hk, rfl⟩ := (mem_standardTotals _ _).mp ht
      rw [not_and_or] at hadj
      rcases hadj with hno | hbig
      · have : ¬ 1 ≤ h.cardsInHand.countP (fun c => decide (c.cardRank = CardRank.Ace)) :=
          fun h1 => hno (hace.mpr h1)
        omega
      · omega
  · intro hsum
    rw [hv, if_neg (by rintro ⟨-, h11⟩; omega), add_zero]

theorem largestOf_spec (t : Int) (ts : List Int) :
    largestOf t ts ∈ t :: ts ∧ ∀ x ∈ t :: ts, x ≤ largestOf t ts := by
  induction ts generalizing t with
  | nil => simp [largestOf]
  | cons a ts ih =>
    obtain ⟨hmem, hle⟩ := ih (max t a)
    have hstep : largestOf t (a :: ts) = largestOf (max t a) ts := rfl
    rw [hstep]
    refine ⟨?_, ?_⟩
    · rcases List.mem_cons.mp hmem with h | h
      · rcases max_choice t a with h' | h' <;> rw [h, h'] <;> simp
      · exact List.mem_cons_of_mem _ (List.mem_cons_of_mem _ h)
    · intro x hx
      rcases List.mem_cons.mp hx with rfl | hx
      · exact le_trans (le_max_left _ _) (hle _ (List.mem_cons_self _ _))
      · rcases List.mem_cons.mp hx with rfl | hx
        · exact le_trans (le_max_right _ _) (hle _ (List.mem_cons_self _ _))
        · exact hle _ (List.mem_cons_of_mem _ hx)

theorem smallestOf_spec (t : Int) (ts : List Int) :
    smallestOf t ts ∈ t :: ts ∧ ∀ x ∈ t :: ts, smallestOf t ts ≤ x := by
  induction ts generalizing t with
  | nil => simp [smallestOf]
  | cons a ts ih =>
    obtain ⟨hmem, hle⟩ := ih (min t a)
    have hstep : smallestOf t (a :: ts) = smallestOf (min t a) ts := rfl
    rw [hstep]
    refine ⟨?_, ?_⟩
    · rcases List.mem_cons.mp hmem with h | h
      · rcases min_choice t a with h' | h' <;> rw [h, h'] <;> simp
      · exact List.mem_cons_of_mem _ (List.mem_cons_of_mem _ h)
    · intro x hx
      rcases List.mem_cons.mp hx with rfl | hx
      · exact le_trans (hle _ (List.mem_cons_self _ _)) (min_le_left _ _)
      · rcases List.mem_cons.mp hx with rfl | hx
        · exact le_trans (hle _ (List.mem_cons_self _ _)) (min_le_right _ _)
        · exact hle _ (List.mem_cons_of_mem _ hx)

theorem getHandValue_eq_standardValue (h : Hand) :
    h.getHandValue = standardValue h.cardsInHand := by
  obtain ⟨hmem, hleast, hfit, hbust⟩ := getHandValue_best_total h
  unfold standardValue
  rcases hf : (standardTotals h.cardsInHand).filter (fun t => decide (t ≤ 21)) with _ | ⟨t, ts⟩
  · have hnone : ∀ x ∈ standardTotals h.cardsInHand, 21 < x := by
      intro x hx
      by_contra hcon
      have : x ∈ (standardTotals h.cardsInHand).filter (fun t => decide (t ≤ 21)) :=
        List.mem_filter.mpr ⟨hx, by simpa using hcon⟩
      rw [hf] at this
      simp at this
    have hsum : 21 < (h.cardsInHand.map Card.getCardValue).sum := by
      have h0 : (h.cardsInHand.map Card.getCardValue).sum ∈ standardTotals h.cardsInHand :=
        (mem_standardTotals _ _).mpr ⟨0, Nat.zero_le _, by norm_num⟩
      exact hnone _ h0
    rcases ht : standardTotals h.cardsInHand with _ | ⟨t, ts⟩
    · rw [ht] at hmem; simp at hmem
    · simp only
      obtain ⟨hm, hl⟩ := smallestOf_spec t ts
      rw [← ht] at hm hl
      have h1 := hleast _ hm
      have h2 := hl _ hmem
      rw [hbust hsum] at h2 ⊢
      omega
  · simp only
    obtain ⟨hm, hl⟩ := largestOf_spec t ts
    rw [← hf] at hm hl
    obtain ⟨hm1, hm2⟩ := List.mem_filter.mp hm
    have hm21 : largestOf t ts ≤ 21 := by simpa using hm2
    have hsum : (h.cardsInHand.map Card.getCardValue).sum ≤ 21 :=
      le_trans (hleast _ hm1) hm21
    obtain ⟨hv21, hgreatest⟩ := hfit hsum
    have h1 := hgreatest _ hm1 hm21
    have h2 := hl _ (List.mem_filter.mpr ⟨hmem, by simpa using hv21⟩)
    omega

/-- C23: `Hand.getHandValue` is the standard value of the hand.  Among the totals that count
each Ace as 1 or as 11, it is the largest one that is at most 21 when there is one, and the
smallest total otherwise.  So a hand is worth more than 21, and a player busted, exactly when
the sum with every Ace as 1 exceeds 21; a value raised by 10 is at most 21; two Aces alone,
whose totals are 2, 12, 12 and 22, are worth 12. -/
theorem getHandValue_is_the_standard_valuation :
    (∀ h : Hand, h.getHandValue = standardValue h.cardsInHand) ∧
    (∀ h : Hand, (∃ t ∈ standardTotals h.cardsInHand, t ≤ 21) →
      IsGreatest {t | t ∈ standardTotals h.cardsInHand ∧ t ≤ 21} h.getHandValue) ∧
    (∀ h : Hand, (¬ ∃ t ∈ standardTotals h.cardsInHand, t ≤ 21) →
      IsLeast {t | t ∈ standardTotals h.cardsInHand} h.getHandValue) ∧
    (∀ h : Hand, 21 < h.getHandValue ↔ 21 < (h.cardsInHand.map Card.getCardValue).sum) ∧
    (∀ p : Player,
      p.isBusted = true ↔ 21 < (p.playerHand.cardsInHand.map Card.getCardValue).sum) ∧
    (∀ h : Hand, (∃ c ∈ h.cardsInHand, c.cardRank = CardRank.Ace) →
      (h.cardsInHand.map Card.getCardValue).sum ≤ 11 →
      h.getHandValue = (h.cardsInHand.map Card.getCardValue).sum + 10 ∧ h.getHandValue ≤ 21) ∧
    (∀ s1 s2 : CardSuit,
      standardTotals [⟨.Ace, s1⟩, ⟨.Ace, s2⟩] = [2, 12, 12, 22] ∧
      Hand.getHandValue ⟨[⟨.Ace, s1⟩, ⟨.Ace, s2⟩]⟩ = 12) := by
  have hbust : ∀ h : Hand,
      21 < h.getHandValue ↔ 21 < (h.cardsInHand.map Card.getCardValue).sum := by
    intro h
    obtain ⟨-, -, hfit, hover⟩ := getHandValue_best_total h
    constructor
    · intro hv
      by_contra hcon
      have := (hfit (by omega)).1
      omega
    · intro hsum
      rw [hover hsum]; exact hsum
  refine ⟨getHandValue_eq_standardValue, ?_, ?_, hbust, ?_, ?_, fun _ _ => ⟨rfl, rfl⟩⟩
  · rintro h ⟨t, ht, ht21⟩
    obtain ⟨hmem, hleast, hfit, -⟩ := getHandValue_best_total h
    obtain ⟨hv21, hgreatest⟩ := hfit (le_trans (hleast t ht) ht21)
    exact ⟨⟨hmem, hv21⟩, fun x hx => hgreatest x hx.1 hx.2⟩
  · intro h hnone
    obtain ⟨hmem, hleast, -, hover⟩ := getHandValue_best_total h
    have hsum : 21 < (h.cardsInHand.map Card.getCardValue).sum := by
      by_contra hcon
      exact hnone ⟨(h.cardsInHand.map Card.getCardValue).sum,
        (mem_standardTotals _ _).mpr ⟨0, Nat.zero_le _, by norm_num⟩, by omega⟩
    refine ⟨hmem, fun x hx => ?_⟩
    rw [hover hsum]
    exact hleast x hx
  · intro p
    rw [← hbust p.playerHand]
    simp [Player.isBusted]
  · intro h hace hsum
    have hv := getHandValue_eq h
    rw [if_pos ⟨hace, hsum⟩] at hv
    exact ⟨hv, by omega⟩

/-- C23, on Ace + Five + Six, whose totals are 12 and 22: the largest total within 21 is 12. -/
theorem getHandValue_is_the_standard_valuation_witness :
    standardTotals [⟨.Ace, .Hearts⟩, ⟨.Five, .Clubs⟩, ⟨.Six, .Clubs⟩] = [12, 22] ∧
    Hand.getHandValue ⟨[⟨.Ace, .Hearts⟩, ⟨.Five, .Clubs⟩, ⟨.Six, .Clubs⟩]⟩ = 12 ∧
    IsGreatest
      {t | t ∈ standardTotals [⟨.Ace, .Hearts⟩, ⟨.Five, .Clubs⟩, ⟨.Six, .Clubs⟩] ∧ t ≤ 21}
      (Hand.getHandValue ⟨[⟨.Ace, .Hearts⟩, ⟨.Five, .Clubs⟩, ⟨.Six, .Clubs⟩]⟩) :=
  ⟨rfl, rfl, getHandValue_is_the_standard_valuation.2.1
    ⟨[⟨.Ace, .Hearts⟩, ⟨.Five, .Clubs⟩, ⟨.Six, .Clubs⟩]⟩ ⟨12, by decide, by decide⟩⟩

/-! ## The two loops stop -/

namespace BlackjackGame

theorem length_le_sumOfCardValues (cards : List Card) :
    (cards.length : Int) ≤ sumOfCardValues cards := by
  rw [sumOfCardValues_eq_sum]
  induction cards with
  | nil => simp
  | cons c cs ih =>
    have := one_le_getCardValue c
    simp only [List.length_cons, List.map_cons, List.sum_cons]
    push_cast
    omega

theorem sumOfCardValues_append (xs ys : List Card) :
    sumOfCardValues (xs ++ ys) = sumOfCardValues xs + sumOfCardValues ys := by
  simp [sumOfCardValues_eq_sum]

/-- Cards added one at a time to a hand worth less than `bound` are at most
`bound - sumOfCardValues cards` many. -/
theorem draws_bounded (bound : Int) (cards drawn : List Card)
    (h : ∀ k, k < drawn.length → Hand.getHandValue ⟨cards ++ drawn.take k⟩ < bound) :
    drawn.length ≤ (bound - sumOfCardValues cards).toNat := by
  cases hlen : drawn.length with
  | zero => exact Nat.zero_le _
  | succ n =>
    have h1 := h n (by omega)
    have h2 := sumOfCardValues_le_getHandValue ⟨cards ++ drawn.take n⟩
    simp only at h2
    rw [sumOfCardValues_append] at h2
    have h3 := length_le_sumOfCardValues (drawn.take n)
    rw [List.length_take] at h3
    have : min n drawn.length = n := by omega
    rw [this] at h3
    omega

theorem playerLoop_iff (g : BlackjackGame) :
    (!g.playerIsBusted && !g.playerHasBlackjack) = true ↔ g.player.getHandValue < 21 := by
  simp only [playerIsBusted, playerHasBlackjack, Player.isBusted, Player.hasBlackjack,
    Player.getHandValue, Bool.and_eq_true, Bool.not_eq_true', ite_eq_right_iff,
    Bool.true_eq_false, imp_false, gt_iff_lt]
  omega

theorem dealerLoop_iff (g : BlackjackGame) :
    (!g.dealerHandValueIsAtLeast17) = true ↔ g.dealer.getHandValue < 17 := by
  simp only [dealerHandValueIsAtLeast17, Dealer.handValueIsAtLeast17, Bool.not_eq_true',
    ite_eq_right_iff, Bool.true_eq_false, imp_false, ge_iff_le]
  omega

theorem sumOfCardValues_nonneg (cards : List Card) : 0 ≤ sumOfCardValues cards :=
  le_trans (Int.ofNat_nonneg _) (length_le_sumOfCardValues cards)


/-- The player's turn, card by card: it returns; every card is dealt to a hand worth less than
21 after a yes; it stops without a question at 21 or more and on a no below 21; and a shoe
that holds enough cards is only drawn from, from the top. -/
theorem dealAdditionalCardsToPlayer_draws (w : World) (g : BlackjackGame) :
    ∃ g' drawn, g.dealAdditionalCardsToPlayer w = (.ok (), g') ∧
      g'.player.playerHand.cardsInHand = g.player.playerHand.cardsInHand ++ drawn ∧
      (∀ k, k < drawn.length →
        Hand.getHandValue ⟨g.player.playerHand.cardsInHand ++ drawn.take k⟩ < 21 ∧
        w.askPlayerForAdditionalCard (g.cardPrompts + k) = true) ∧
      ((21 ≤ g'.player.getHandValue ∧ g'.cardPrompts = g.cardPrompts + drawn.length) ∨
       (g'.player.getHandValue < 21 ∧ g'.cardPrompts = g.cardPrompts + drawn.length + 1 ∧
         w.askPlayerForAdditionalCard (g.cardPrompts + drawn.length) = false)) ∧
      ((21 - sumOfCardValues g.player.playerHand.cardsInHand).toNat ≤ g.deck.cardsInDeck.length →
        g.deck.cardsInDeck = g'.deck.cardsInDeck ++ drawn.reverse ∧
        g'.randCalls = g.randCalls) := by
  refine dealAdditionalCardsToPlayer.induct w
    (motive := fun g => ∃ g' drawn, g.dealAdditionalCardsToPlayer w = (.ok (), g') ∧
      g'.player.playerHand.cardsInHand = g.player.playerHand.cardsInHand ++ drawn ∧
      (∀ k, k < drawn.length →
        Hand.getHandValue ⟨g.player.playerHand.cardsInHand ++ drawn.take k⟩ < 21 ∧
        w.askPlayerForAdditionalCard (g.cardPrompts + k) = true) ∧
      ((21 ≤ g'.player.getHandValue ∧ g'.cardPrompts = g.cardPrompts + drawn.length) ∨
       (g'.player.getHandValue < 21 ∧ g'.cardPrompts = g.cardPrompts + drawn.length + 1 ∧
         w.askPlayerForAdditionalCard (g.cardPrompts + drawn.length) = false)) ∧
      ((21 - sumOfCardValues g.player.playerHand.cardsInHand).toNat ≤ g.deck.cardsInDeck.length →
        g.deck.cardsInDeck = g'.deck.cardsInDeck ++ drawn.reverse ∧
        g'.randCalls = g.randCalls))
    ?_ ?_ ?_ ?_ g
  · intro x hloop r hr
    have hans : w.askPlayerForAdditionalCard x.cardPrompts = false := by
      simpa [r, checkPlayerWantsOneMoreCard] using hr
    refine ⟨_, [], dealAdditionalCardsToPlayer_decline w x hloop hans, by simp
      [checkPlayerWantsOneMoreCard, present], by simp, Or.inr ⟨?_, rfl, by simpa using hans⟩,
      fun _ => ⟨by simp [checkPlayerWantsOneMoreCard, present], rfl⟩⟩
    exact (playerLoop_iff x).mp hloop
  · intro x _ r _ e g1 hdeal
    obtain ⟨c, d, k, hd⟩ := dealCardToPlayer_ok w r.2
    rw [hd] at hdeal
    simp at hdeal
  · intro x hloop r hr a g1 hdeal ih
    obtain ⟨g', drawn, hg', hhand, hbelow, hstop, hshoe⟩ := ih
    have hans : w.askPlayerForAdditionalCard x.cardPrompts = true := by
      simpa [r, checkPlayerWantsOneMoreCard] using hr
    have hlow := (playerLoop_iff x).mp hloop
    have hrun := dealAdditionalCardsToPlayer_hit w x g1 hloop hans hdeal
    obtain ⟨c, d, k, hd⟩ := dealCardToPlayer_ok w r.2
    have hg1 := hdeal
    rw [hd] at hg1
    simp only [Prod.mk.injEq, true_and] at hg1
    have hh1 : g1.displayPlayerHandContents.player.playerHand.cardsInHand
        = x.player.playerHand.cardsInHand ++ [c] := by
      rw [← hg1]; rfl
    have hp1 : g1.displayPlayerHandContents.cardPrompts = x.cardPrompts + 1 := by
      rw [← hg1]; rfl
    rw [hh1] at hhand hbelow hshoe
    rw [hp1] at hbelow hstop
    refine ⟨g', c :: drawn, by rw [hrun, hg'], by rw [hhand]; simp, ?_, ?_, ?_⟩
    · intro k hk
      cases k with
      | zero => exact ⟨by simpa [Player.getHandValue] using hlow, by simpa using hans⟩
      | succ k =>
        have := hbelow k (by simpa using hk)
        simpa [Nat.add_assoc, Nat.add_comm 1 k] using this
    · rcases hstop with ⟨h21, hq⟩ | ⟨h21, hq, hno⟩
      · exact Or.inl ⟨h21, by rw [hq, List.length_cons]; omega⟩
      · refine Or.inr ⟨h21, by rw [hq, List.length_cons]; omega, ?_⟩
        rw [List.length_cons]
        have : x.cardPrompts + (drawn.length + 1) = x.cardPrompts + 1 + drawn.length := by omega
        rw [this]; exact hno
    · intro hroom
      have hsum := sumOfCardValues_le_getHandValue x.player.playerHand
      have hpos : x.deck.cardsInDeck ≠ [] := by
        intro hnil
        rw [hnil] at hroom
        simp only [List.length_nil, Nat.le_zero] at hroom
        simp only [Player.getHandValue] at hlow
        omega
      obtain ⟨cards, top, htop⟩ : ∃ cards top, x.deck.cardsInDeck = cards ++ [top] :=
        ⟨_, _, (List.dropLast_append_getLast hpos).symm⟩
      have hg2 := dealCardToPlayer_top w r.2 cards top htop
      rw [hdeal] at hg2
      simp only [Prod.mk.injEq, true_and] at hg2
      have hc : c = top := by
        have := hh1
        rw [hg2] at this
        simpa [displayPlayerHandContents, present, Player.isHitting, Hand.addCardToHand, r,
          checkPlayerWantsOneMoreCard] using this.symm
      have hd1 : g1.displayPlayerHandContents.deck.cardsInDeck = cards := by rw [hg2]; rfl
      have hr1 : g1.displayPlayerHandContents.randCalls = x.randCalls := by rw [hg2]; rfl
      rw [hd1, hr1] at hshoe
      have hone := one_le_getCardValue c
      have := hshoe (by
        rw [sumOfCardValues_append_singleton]
        have hl : x.deck.cardsInDeck.length = cards.length + 1 := by rw [htop]; simp
        omega)
      refine ⟨?_, this.2⟩
      rw [htop, this.1, hc]
      simp
  · intro x hloop
    refine ⟨x, [], dealAdditionalCardsToPlayer_exit w x hloop, by simp, by simp,
      Or.inl ⟨?_, rfl⟩, fun _ => ⟨by simp, rfl⟩⟩
    have := (playerLoop_iff x).not.mp hloop
    omega


/-- The dealer's turn, card by card: it returns at 17 or more; every card is dealt to a hand
worth less than 17; the player is not touched and not asked; and a shoe that holds enough
cards is only drawn from, from the top. -/
theorem dealAdditionalCardsToDealer_draws (w : World) (g : BlackjackGame) :
    ∃ g' drawn, g.dealAdditionalCardsToDealer w = (.ok (), g') ∧
      g'.dealer.dealerHand.cardsInHand = g.dealer.dealerHand.cardsInHand ++ drawn ∧
      g'.player = g.player ∧ g'.cardPrompts = g.cardPrompts ∧
      (∀ k, k < drawn.length →
        Hand.getHandValue ⟨g.dealer.dealerHand.cardsInHand ++ drawn.take k⟩ < 17) ∧
      17 ≤ g'.dealer.getHandValue ∧
      ((17 - sumOfCardValues g.dealer.dealerHand.cardsInHand).toNat ≤ g.deck.cardsInDeck.length →
        g.deck.cardsInDeck = g'.deck.cardsInDeck ++ drawn.reverse ∧
        g'.randCalls = g.randCalls) := by
  refine dealAdditionalCardsToDealer.induct w
    (motive := fun g => ∃ g' drawn, g.dealAdditionalCardsToDealer w = (.ok (), g') ∧
      g'.dealer.dealerHand.cardsInHand = g.dealer.dealerHand.cardsInHand ++ drawn ∧
      g'.player = g.player ∧ g'.cardPrompts = g.cardPrompts ∧
      (∀ k, k < drawn.length →
        Hand.getHandValue ⟨g.dealer.dealerHand.cardsInHand ++ drawn.take k⟩ < 17) ∧
      17 ≤ g'.dealer.getHandValue ∧
      ((17 - sumOfCardValues g.dealer.dealerHand.cardsInHand).toNat ≤ g.deck.cardsInDeck.length →
        g.deck.cardsInDeck = g'.deck.cardsInDeck ++ drawn.reverse ∧
        g'.randCalls = g.randCalls))
    ?_ ?_ ?_ g
  · intro x _ e g1 hdeal
    obtain ⟨c, d, k, hd⟩ := dealCardToDealer_ok w x
    rw [hd] at hdeal
    simp at hdeal
  · intro x hloop a g1 hdeal ih
    obtain ⟨g', drawn, hg', hhand, hplayer, hprompts, hbelow, hend, hshoe⟩ := ih
    have hlow := (dealerLoop_iff x).mp hloop
    have hrun := dealAdditionalCardsToDealer_hit w x g1 hloop hdeal
    obtain ⟨c, d, k, hd⟩ := dealCardToDealer_ok w x
    have hg1 := hdeal
    rw [hd] at hg1
    simp only [Prod.mk.injEq, true_and] at hg1
    have hh1 : g1.displayDealerHandContents.dealer.dealerHand.cardsInHand
        = x.dealer.dealerHand.cardsInHand ++ [c] := by
      rw [← hg1]; rfl
    have hp1 : g1.displayDealerHandContents.player = x.player := by rw [← hg1]; rfl
    have hq1 : g1.displayDealerHandContents.cardPrompts = x.cardPrompts := by rw [← hg1]; rfl
    rw [hh1] at hhand hbelow hshoe
    refine ⟨g', c :: drawn, by rw [hrun, hg'], by rw [hhand]; simp, hplayer.trans hp1,
      hprompts.trans hq1, ?_, hend, ?_⟩
    · intro k hk
      cases k with
      | zero => simpa [Dealer.getHandValue] using hlow
      | succ k =>
        have := hbelow k (by simpa using hk)
        simpa using this
    · intro hroom
      have hsum := sumOfCardValues_le_getHandValue x.dealer.dealerHand
      have hpos : x.deck.cardsInDeck ≠ [] := by
        intro hnil
        rw [hnil] at hroom
        simp only [List.length_nil, Nat.le_zero] at hroom
        simp only [Dealer.getHandValue] at hlow
        omega
      obtain ⟨cards, top, htop⟩ : ∃ cards top, x.deck.cardsInDeck = cards ++ [top] :=
        ⟨_, _, (List.dropLast_append_getLast hpos).symm⟩
      have hg2 := dealCardToDealer_top w x cards top htop
      rw [hdeal] at hg2
      simp only [Prod.mk.injEq, true_and] at hg2
      have hc : c = top := by
        have := hh1
        rw [hg2] at this
        simpa [displayDealerHandContents, present, Dealer.isHitting, Hand.addCardToHand]
          using this.symm
      have hd1 : g1.displayDealerHandContents.deck.cardsInDeck = cards := by rw [hg2]; rfl
      have hr1 : g1.displayDealerHandContents.randCalls = x.randCalls := by rw [hg2]; rfl
      rw [hd1, hr1] at hshoe
      have hone := one_le_getCardValue c
      have := hshoe (by
        rw [sumOfCardValues_append_singleton]
        have hl : x.deck.cardsInDeck.length = cards.length + 1 := by rw [htop]; simp
        omega)
      refine ⟨?_, this.2⟩
      rw [htop, this.1, hc]
      simp
  · intro x hloop
    refine ⟨x, [], dealAdditionalCardsToDealer_exit w x hloop, by simp, rfl, rfl, by simp,
      ?_, fun _ => ⟨by simp, rfl⟩⟩
    have := (dealerLoop_iff x).not.mp hloop
    omega

/-! ### Fuel that is always enough -/

theorem dealAdditionalCardsToPlayerWithin_complete (w : World) (fuel : Nat) (g : BlackjackGame)
    (h : (21 - sumOfCardValues g.player.playerHand.cardsInHand).toNat < fuel) :
    g.dealAdditionalCardsToPlayerWithin w fuel = some (g.dealAdditionalCardsToPlayer w) := by
  induction fuel generalizing g with
  | zero => omega
  | succ n ih =>
    unfold dealAdditionalCardsToPlayerWithin
    by_cases hloop : (!g.playerIsBusted && !g.playerHasBlackjack) = true
    · rw [if_pos hloop]
      cases hans : w.askPlayerForAdditionalCard g.cardPrompts with
      | false =>
        rw [dealAdditionalCardsToPlayer_decline w g hloop hans]
        have hr : (!(g.checkPlayerWantsOneMoreCard w).1) = true := by
          simp [checkPlayerWantsOneMoreCard, hans]
        simp only [hr, if_true]
      | true =>
        obtain ⟨c, d, k, hd⟩ := dealCardToPlayer_ok w (g.checkPlayerWantsOneMoreCard w).2
        rw [dealAdditionalCardsToPlayer_hit w g _ hloop hans hd]
        have hr : (!(g.checkPlayerWantsOneMoreCard w).1) = false := by
          simp [checkPlayerWantsOneMoreCard, hans]
        simp only [hr, Bool.false_eq_true, if_false, hd]
        apply ih
        have hone := one_le_getCardValue c
        have hs := sumOfCardValues_append_singleton g.player.playerHand.cardsInHand c
        have hlow := (playerLoop_iff g).mp hloop
        have hsum := sumOfCardValues_le_getHandValue g.player.playerHand
        simp only [Player.getHandValue] at hlow
        show (21 - sumOfCardValues (g.player.playerHand.cardsInHand ++ [c])).toNat < n
        omega
    · rw [if_neg hloop, dealAdditionalCardsToPlayer_exit w g hloop]

theorem dealAdditionalCardsToDealerWithin_complete (w : World) (fuel : Nat) (g : BlackjackGame)
    (h : (17 - sumOfCardValues g.dealer.dealerHand.cardsInHand).toNat < fuel) :
    g.dealAdditionalCardsToDealerWithin w fuel = some (g.dealAdditionalCardsToDealer w) := by
  induction fuel generalizing g with
  | zero => omega
  | succ n ih =>
    unfold dealAdditionalCardsToDealerWithin
    by_cases hloop : (!g.dealerHandValueIsAtLeast17) = true
    · rw [if_pos hloop]
      obtain ⟨c, d, k, hd⟩ := dealCardToDealer_ok w g
      rw [dealAdditionalCardsToDealer_hit w g _ hloop hd]
      simp only [hd]
      apply ih
      have hone := one_le_getCardValue c
      have hs := sumOfCardValues_append_singleton g.dealer.dealerHand.cardsInHand c
      have hlow := (dealerLoop_iff g).mp hloop
      have hsum := sumOfCardValues_le_getHandValue g.dealer.dealerHand
      simp only [Dealer.getHandValue] at hlow
      show (17 - sumOfCardValues (g.dealer.dealerHand.cardsInHand ++ [c])).toNat < n
      omega
    · rw [if_neg hloop, dealAdditionalCardsToDealer_exit w g hloop]

theorem andThenWithin_complete (x : Outcome) (next : BlackjackGame → Option Outcome)
    (next' : BlackjackGame → Outcome) (hnext : ∀ g, next g = some (next' g)) :
    andThenWithin (some x) next = some (andThen x next') := by
  rcases x with ⟨res, g⟩
  cases res with
  | error e => rfl
  | ok u => exact hnext g

theorem roundStartsWithin_complete (fuel : Nat) (hfuel : 22 ≤ fuel) (w : World)
    (g : BlackjackGame) : roundStartsWithin fuel w g = some (roundStarts w g) := by
  unfold roundStartsWithin roundStarts
  refine andThenWithin_complete _ _ _ fun g1 => ?_
  refine andThenWithin_complete _ _ _ fun g2 => ?_
  refine andThenWithin_complete _ _ _ fun g3 => ?_
  refine andThenWithin_complete _ _ _ fun g4 => ?_
  refine andThenWithin_complete _ _ _ fun g5 => ?_
  show andThenWithin (dealAdditionalCardsToPlayerWithin w fuel g5.hideTheHoleCardFromPlayer) _
    = some (andThen (dealAdditionalCardsToPlayer w g5.hideTheHoleCardFromPlayer) _)
  rw [dealAdditionalCardsToPlayerWithin_complete w fuel _ (by
    have := sumOfCardValues_nonneg g5.hideTheHoleCardFromPlayer.player.playerHand.cardsInHand
    omega)]
  refine andThenWithin_complete _ _ _ fun g6 => ?_
  by_cases hb : g6.playerIsBusted = true
  · simp only [hb, if_true]
  · simp only [hb, Bool.false_eq_true, if_false]
    rw [dealAdditionalCardsToDealerWithin_complete w fuel _ (by
      have := sumOfCardValues_nonneg g6.displayDealerHandContents.dealer.dealerHand.cardsInHand
      omega)]
    refine andThenWithin_complete _ _ _ fun g7 => ?_
    split
    · rfl
    · split
      · rfl
      · split
        · rfl
        · split <;> rfl


/-- C25: every round terminates.  For every world (any deck order, any answers) and every game,
the player's loop returns after at most `21 - s` draws and the dealer's after at most
`17 - s`, where `s` is the sum of the hand with every Ace as 1; a player who always answers
yes is stopped at 21 or more.  So 22 passes are always enough: with that much fuel the bounded
evaluators return what the loops and the round return.  The ace-adjusted value is no measure,
since Ace + 5 is worth 16 and Ace + 5 + 6 is worth 12, while the sum with Aces as 1, which is
what `sumOfCardValues` computes, grows strictly with every card. -/
theorem every_round_terminates (w : World) (g : BlackjackGame) :
    (∃ g' drawn, g.dealAdditionalCardsToPlayer w = (.ok (), g') ∧
      g'.player.playerHand.cardsInHand = g.player.playerHand.cardsInHand ++ drawn ∧
      drawn.length ≤ (21 - sumOfCardValues g.player.playerHand.cardsInHand).toNat ∧
      drawn.length ≤ 21 ∧
      ((∀ k, w.askPlayerForAdditionalCard k = true) → 21 ≤ g'.player.getHandValue)) ∧
    (∃ g' drawn, g.dealAdditionalCardsToDealer w = (.ok (), g') ∧
      g'.dealer.dealerHand.cardsInHand = g.dealer.dealerHand.cardsInHand ++ drawn ∧
      drawn.length ≤ (17 - sumOfCardValues g.dealer.dealerHand.cardsInHand).toNat ∧
      drawn.length ≤ 17 ∧ 17 ≤ g'.dealer.getHandValue) ∧
    (∀ fuel, 22 ≤ fuel →
      g.dealAdditionalCardsToPlayerWithin w fuel = some (g.dealAdditionalCardsToPlayer w) ∧
      g.dealAdditionalCardsToDealerWithin w fuel = some (g.dealAdditionalCardsToDealer w) ∧
      roundStartsWithin fuel w g = some (roundStarts w g)) ∧
    (∀ s1 s2 s3 : CardSuit,
      Hand.getHandValue ⟨[⟨.Ace, s1⟩, ⟨.Five, s2⟩]⟩ = 16 ∧
      Hand.getHandValue ⟨[⟨.Ace, s1⟩, ⟨.Five, s2⟩, ⟨.Six, s3⟩]⟩ = 12) ∧
    (∀ (cards : List Card) (c : Card),
      sumOfCardValues cards = (cards.map Card.getCardValue).sum ∧
      sumOfCardValues cards < sumOfCardValues (cards ++ [c])) := by
  refine ⟨?_, ?_, ?_, fun _ _ _ => ⟨rfl, rfl⟩, ?_⟩
  · obtain ⟨g', drawn, hg', hhand, hbelow, hstop, -⟩ := dealAdditionalCardsToPlayer_draws w g
    have hbound := draws_bounded 21 g.player.playerHand.cardsInHand drawn
      (fun k hk => (hbelow k hk).1)
    have hnonneg := sumOfCardValues_nonneg g.player.playerHand.cardsInHand
    refine ⟨g', drawn, hg', hhand, hbound, by omega, fun hyes => ?_⟩
    rcases hstop with ⟨h21, -⟩ | ⟨-, -, hno⟩
    · exact h21
    · rw [hyes] at hno
      exact absurd hno (by decide)
  · obtain ⟨g', drawn, hg', hhand, -, -, hbelow, hend, -⟩ := dealAdditionalCardsToDealer_draws w g
    have hbound := draws_bounded 17 g.dealer.dealerHand.cardsInHand drawn hbelow
    have hnonneg := sumOfCardValues_nonneg g.dealer.dealerHand.cardsInHand
    exact ⟨g', drawn, hg', hhand, hbound, by omega, hend⟩
  · intro fuel hfuel
    have hp := sumOfCardValues_nonneg g.player.playerHand.cardsInHand
    have hd := sumOfCardValues_nonneg g.dealer.dealerHand.cardsInHand
    exact ⟨dealAdditionalCardsToPlayerWithin_complete w fuel g (by omega),
      dealAdditionalCardsToDealerWithin_complete w fuel g (by omega),
      roundStartsWithin_complete fuel hfuel w g⟩
  · intro cards c
    refine ⟨sumOfCardValues_eq_sum cards, ?_⟩
    rw [sumOfCardValues_append_singleton]
    have := one_le_getCardValue c
    omega

/-- C25, for a player who always answers yes, from a fresh game: 22 passes are enough for the
round to return. -/
theorem every_round_terminates_witness :
    (∀ k, worldPlayerBusts23.askPlayerForAdditionalCard k = true) ∧
    roundStartsWithin 22 worldPlayerBusts23 BlackjackGame.new
      = some (roundStarts worldPlayerBusts23 BlackjackGame.new) :=
  ⟨fun _ => rfl,
    ((every_round_terminates worldPlayerBusts23 BlackjackGame.new).2.2.1 22 (by decide)).2.2⟩

end BlackjackGame
/-! ## The round, card by card -/

theorem Settlement.onGame_frame (s : Settlement) (g : BlackjackGame) :
    (s.onGame g).deck = g.deck ∧ (s.onGame g).randCalls = g.randCalls ∧
    (s.onGame g).cardPrompts = g.cardPrompts ∧ (s.onGame g).betPrompts = g.betPrompts ∧
    (s.onGame g).roundPrompts = g.roundPrompts ∧
    (s.onGame g).player.playerHand = g.player.playerHand := by
  cases s <;> exact ⟨rfl, rfl, rfl, rfl, rfl, rfl⟩

namespace BlackjackGame

/-- The whole round read off its result: the four cards of the deal come off the top of the
fresh shoe, then the player's cards, each after a yes at a value below 21, then (unless the
player is busted) the dealer's cards, each at a value below 17; the shoe is shuffled once. -/
theorem roundStarts_trace (w : World) (g : BlackjackGame)
    (hmin : 1 ≤ w.askPlayerToBetChips g.betPrompts 1 g.player.chipsToPlay)
    (hmax : w.askPlayerToBetChips g.betPrompts 1 g.player.chipsToPlay ≤ g.player.chipsToPlay) :
    ∃ rest c1 c2 c3 c4 dp dd,
      (g.placeShuffledDeckIntoDealingShoe w).deck.cardsInDeck = rest ++ [c4, c3, c2, c1] ∧
      (roundStarts w g).1 = .ok () ∧
      (roundStarts w g).2.player.playerHand.cardsInHand
        = g.player.playerHand.cardsInHand ++ c1 :: c2 :: dp ∧
      (roundStarts w g).2.dealer.dealerHand.cardsInHand
        = g.dealer.dealerHand.cardsInHand ++ c3 :: c4 :: dd ∧
      (∀ k, k < dp.length →
        Hand.getHandValue ⟨g.player.playerHand.cardsInHand ++ c1 :: c2 :: dp.take k⟩ < 21 ∧
        w.askPlayerForAdditionalCard (g.cardPrompts + k) = true) ∧
      ((21 ≤ (roundStarts w g).2.player.getHandValue ∧
          (roundStarts w g).2.cardPrompts = g.cardPrompts + dp.length) ∨
       ((roundStarts w g).2.player.getHandValue < 21 ∧
          (roundStarts w g).2.cardPrompts = g.cardPrompts + dp.length + 1 ∧
          w.askPlayerForAdditionalCard (g.cardPrompts + dp.length) = false)) ∧
      (21 < (roundStarts w g).2.player.getHandValue → dd = []) ∧
      ((roundStarts w g).2.player.getHandValue ≤ 21 →
        (∀ k, k < dd.length →
          Hand.getHandValue ⟨g.dealer.dealerHand.cardsInHand ++ c3 :: c4 :: dd.take k⟩ < 17) ∧
        17 ≤ (roundStarts w g).2.dealer.getHandValue ∧
        dealerHandDisplays g.output + 2 ≤ dealerHandDisplays (roundStarts w g).2.output) ∧
      rest = (roundStarts w g).2.deck.cardsInDeck ++ dd.reverse ++ dp.reverse ∧
      (roundStarts w g).2.randCalls = (g.placeShuffledDeckIntoDealingShoe w).randCalls := by
  obtain ⟨rest, c4, c3, c2, c1, hshoe⟩ :=
    exists_four_on_top (g.placeShuffledDeckIntoDealingShoe w).deck.cardsInDeck
      (by rw [placeShuffledDeckIntoDealingShoe_length]; decide)
  have hrest : rest.length = 48 := by
    have := placeShuffledDeckIntoDealingShoe_length w g
    rw [hshoe] at this
    simpa using this
  have hround := roundStarts_of_shoe w g rest c1 c2 c3 c4 hshoe hmin hmax
  obtain ⟨gp, dp, hgp, hhand, hbelow, hstop, hroom⟩ :=
    dealAdditionalCardsToPlayer_draws w (afterDeal w g rest c1 c2 c3 c4)
  obtain ⟨gp', hgp', hturn⟩ := dealAdditionalCardsToPlayer_spec w (afterDeal w g rest c1 c2 c3 c4)
  have hsame : gp = gp' := by
    have := hgp.symm.trans hgp'
    simpa using this
  subst hsame
  rw [hgp, andThen_ok] at hround
  have hA1 : (afterDeal w g rest c1 c2 c3 c4).player.playerHand.cardsInHand
      = g.player.playerHand.cardsInHand ++ [c1, c2] := rfl
  have hA2 : (afterDeal w g rest c1 c2 c3 c4).deck.cardsInDeck = rest := rfl
  have hA3 : (afterDeal w g rest c1 c2 c3 c4).cardPrompts = g.cardPrompts := rfl
  have hA4 : (afterDeal w g rest c1 c2 c3 c4).randCalls
      = (g.placeShuffledDeckIntoDealingShoe w).randCalls := by simp only [afterDeal]
  have hA5 : (afterDeal w g rest c1 c2 c3 c4).dealer.dealerHand.cardsInHand
      = g.dealer.dealerHand.cardsInHand ++ [c3, c4] := rfl
  rw [hA1] at hhand hbelow hroom
  rw [hA2, hA4] at hroom
  rw [hA3] at hbelow hstop
  have hdp := draws_bounded 21 _ dp (fun k hk => (hbelow k hk).1)
  have hnn := sumOfCardValues_nonneg (g.player.playerHand.cardsInHand ++ [c1, c2])
  obtain ⟨hdeck, hrand⟩ := hroom (by omega)
  have hgpdeck : gp.deck.cardsInDeck.length + dp.length = 48 := by
    have := congrArg List.length hdeck
    simp only [List.length_append, List.length_reverse] at this
    omega
  have hhand' : gp.player.playerHand.cardsInHand
      = g.player.playerHand.cardsInHand ++ c1 :: c2 :: dp := by
    rw [hhand]; simp
  have hbelow' : ∀ k, k < dp.length →
      Hand.getHandValue ⟨g.player.playerHand.cardsInHand ++ c1 :: c2 :: dp.take k⟩ < 21 ∧
      w.askPlayerForAdditionalCard (g.cardPrompts + k) = true := by
    intro k hk
    have := hbelow k hk
    simpa using this
  have hgpdealer : gp.dealer.dealerHand.cardsInHand
      = g.dealer.dealerHand.cardsInHand ++ [c3, c4] := by
    rw [hturn.dealer]; rfl
  obtain ⟨events, hevents, hkind⟩ := hturn.output
  have hshown : dealerHandDisplays gp.output = dealerHandDisplays g.output + 1 := by
    rw [hevents, dealerHandDisplays_append, dealerHandDisplays_eq_zero events hkind]
    simp [afterDeal, dealerHandDisplays, List.filter_cons]
  by_cases hbust : 21 < gp.player.getHandValue
  · rw [roundClosing_busted w gp hbust] at hround
    have hfinal : (roundStarts w g).2 = Settlement.loses.onGame gp := by rw [hround]
    obtain ⟨hf1, hf2, hf3, -, -, hf6⟩ := Settlement.onGame_frame .loses gp
    have hval : (roundStarts w g).2.player.getHandValue = gp.player.getHandValue := by
      rw [hfinal, Player.getHandValue, hf6]; rfl
    refine ⟨rest, c1, c2, c3, c4, dp, [], hshoe, by rw [hround], ?_, ?_, hbelow', ?_,
      fun _ => rfl, ?_, ?_, ?_⟩
    · rw [hfinal, hf6, hhand']
    · rw [hfinal, Settlement.onGame_dealer, hgpdealer]
    · rw [hval, hfinal, hf3]; exact hstop
    · intro hle
      rw [hval] at hle
      omega
    · rw [hfinal, hf1, hdeck]; simp
    · rw [hfinal, hf2, hrand]
  · obtain ⟨gs, dd, hgs, hdhand, hplayer, hprompts, hdbelow, hend, hdroom⟩ :=
      dealAdditionalCardsToDealer_draws w gp.displayDealerHandContents
    obtain ⟨gs', hgs', hdturn, -⟩ := dealAdditionalCardsToDealer_spec w gp.displayDealerHandContents
    have hsame : gs = gs' := by
      have := hgs.symm.trans hgs'
      simpa using this
    subst hsame
    have hG1 : gp.displayDealerHandContents.dealer = gp.dealer := rfl
    have hG2 : gp.displayDealerHandContents.deck = gp.deck := rfl
    have hG3 : gp.displayDealerHandContents.randCalls = gp.randCalls := rfl
    have hG4 : gp.displayDealerHandContents.player = gp.player := rfl
    have hG5 : gp.displayDealerHandContents.cardPrompts = gp.cardPrompts := rfl
    rw [hG1, hgpdealer] at hdhand hdbelow hdroom
    rw [hG2, hG3] at hdroom
    rw [hG4] at hplayer
    rw [hG5] at hprompts
    have hnn' := sumOfCardValues_nonneg (g.dealer.dealerHand.cardsInHand ++ [c3, c4])
    obtain ⟨hddeck, hdrand⟩ := hdroom (by omega)
    rw [roundClosing_not_busted w gp gs hbust hgs hplayer] at hround
    have hfinal : (roundStarts w g).2
        = (settlementFor gs.player.getHandValue gs.dealer.getHandValue).onGame gs := by
      rw [hround]
    obtain ⟨hf1, hf2, hf3, -, -, hf6⟩ :=
      Settlement.onGame_frame (settlementFor gs.player.getHandValue gs.dealer.getHandValue) gs
    have hval : (roundStarts w g).2.player.getHandValue = gp.player.getHandValue := by
      rw [hfinal, Player.getHandValue, hf6, hplayer]; rfl
    obtain ⟨events', hevents', hkind'⟩ := hdturn.output
    refine ⟨rest, c1, c2, c3, c4, dp, dd, hshoe, by rw [hround], ?_, ?_, hbelow', ?_,
      ?_, fun _ => ⟨?_, ?_, ?_⟩, ?_, ?_⟩
    · rw [hfinal, hf6, hplayer, hhand']
    · rw [hfinal, Settlement.onGame_dealer, hdhand]; simp
    · rw [hval, hfinal, hf3, hprompts]; exact hstop
    · intro h
      rw [hval] at h
      exact absurd h hbust
    · intro k hk
      have := hdbelow k hk
      simpa using this
    · rw [hfinal, Settlement.onGame_dealer]; exact hend
    · rw [hfinal, Settlement.onGame_dealerHandDisplays, hevents', dealerHandDisplays_append]
      have : dealerHandDisplays gp.displayDealerHandContents.output
          = dealerHandDisplays gp.output + 1 := by
        simp [displayDealerHandContents, present, dealerHandDisplays, List.filter_cons]
      omega
    · rw [hfinal, hf1, hdeck, hddeck]
    · rw [hfinal, hf2, hdrand, hrand]


theorem hasBlackjack_iff (p : Player) : p.hasBlackjack = true ↔ p.getHandValue = 21 := by
  simp [Player.hasBlackjack, Player.getHandValue]

/-- A round that the player ends at 21.  `Player.hasBlackjack` holds exactly when the hand is
worth 21, three Sevens included, and a player's turn entered at 21 returns at once without a
question.  In every round with an accepted bet that the player ends at 21: each card after
the two of the deal was asked for at a value below 21 and no question follows the last card;
the dealer's turn is played (the hand is shown again and drawn to 17 or more, each card at a
value below 17); and the round is settled by comparison: a push that gives the bet back when
the dealer ends at 21, otherwise a win, which adds exactly the bet to the chips held before
the bet as long as that sum is within 2147483647. -/
theorem round_ending_at_21 (w : World) (g : BlackjackGame)
    (hmin : 1 ≤ w.askPlayerToBetChips g.betPrompts 1 g.player.chipsToPlay)
    (hmax : w.askPlayerToBetChips g.betPrompts 1 g.player.chipsToPlay ≤ g.player.chipsToPlay)
    (hbox : g.player.chipsInBettingBox = 0)
    (h21 : (roundStarts w g).2.player.getHandValue = 21) :
    (∀ p : Player, p.hasBlackjack = true ↔ p.getHandValue = 21) ∧
    (∀ (s1 s2 s3 : CardSuit) (a b : Int),
      Player.hasBlackjack ⟨⟨[⟨.Seven, s1⟩, ⟨.Seven, s2⟩, ⟨.Seven, s3⟩]⟩, a, b⟩ = true) ∧
    (∀ g0 : BlackjackGame, g0.player.getHandValue = 21 →
      g0.dealAdditionalCardsToPlayer w = (.ok (), g0)) ∧
    (roundStarts w g).1 = .ok () ∧
    (∃ c1 c2 drawn,
      (roundStarts w g).2.player.playerHand.cardsInHand
        = g.player.playerHand.cardsInHand ++ c1 :: c2 :: drawn ∧
      (∀ k, k < drawn.length →
        Hand.getHandValue ⟨g.player.playerHand.cardsInHand ++ c1 :: c2 :: drawn.take k⟩ < 21 ∧
        w.askPlayerForAdditionalCard (g.cardPrompts + k) = true) ∧
      (roundStarts w g).2.cardPrompts = g.cardPrompts + drawn.length) ∧
    (∃ c3 c4 drawn,
      (roundStarts w g).2.dealer.dealerHand.cardsInHand
        = g.dealer.dealerHand.cardsInHand ++ c3 :: c4 :: drawn ∧
      ∀ k, k < drawn.length →
        Hand.getHandValue ⟨g.dealer.dealerHand.cardsInHand ++ c3 :: c4 :: drawn.take k⟩ < 17) ∧
    17 ≤ (roundStarts w g).2.dealer.getHandValue ∧
    dealerHandDisplays g.output + 2 ≤ dealerHandDisplays (roundStarts w g).2.output ∧
    ((roundStarts w g).2.dealer.getHandValue = 21 →
      settlementAnnouncements (roundStarts w g).2.output
        = settlementAnnouncements g.output ++ [.announcePlayerPushes] ∧
      (roundStarts w g).2.player.chipsToPlay = g.player.chipsToPlay) ∧
    ((roundStarts w g).2.dealer.getHandValue ≠ 21 →
      settlementAnnouncements (roundStarts w g).2.output
        = settlementAnnouncements g.output ++ [.announcePlayerWins] ∧
      (roundStarts w g).2.player.chipsToPlay
        = toInt32 (g.player.chipsToPlay - w.askPlayerToBetChips g.betPrompts 1 g.player.chipsToPlay
            + toInt32 (w.askPlayerToBetChips g.betPrompts 1 g.player.chipsToPlay
              + w.askPlayerToBetChips g.betPrompts 1 g.player.chipsToPlay)) ∧
      (g.player.chipsToPlay + w.askPlayerToBetChips g.betPrompts 1 g.player.chipsToPlay
          ≤ 2147483647 →
        (roundStarts w g).2.player.chipsToPlay
          = g.player.chipsToPlay + w.askPlayerToBetChips g.betPrompts 1 g.player.chipsToPlay)) ∧
    (roundStarts w g).2.player.chipsInBettingBox = 0 := by
  obtain ⟨rest, c1, c2, c3, c4, dp, dd, -, hok, hphand, hdhand, hbelow, hstop, -, hdealer, -, -⟩ :=
    roundStarts_trace w g hmin hmax
  obtain ⟨hdbelow, hend, hshown⟩ := hdealer (by omega)
  obtain ⟨gs, s, h⟩ := roundStarts_settled w g hmin hmax
  obtain ⟨-, hplayer, hdl, hpv, hann, -⟩ := settledRound_final h
  have hrule := h.rule
  rw [← hpv, h21, Dealer.getHandValue, ← hdl] at hrule
  have hcases := settlementFor_cases 21 (roundStarts w g).2.dealer.dealerHand.getHandValue
  simp only [Dealer.getHandValue] at hend ⊢
  refine ⟨hasBlackjack_iff, fun _ _ _ _ _ => rfl, ?_, hok, ⟨c1, c2, dp, hphand, hbelow, ?_⟩,
    ⟨c3, c4, dd, hdhand, hdbelow⟩, hend, hshown, ?_, ?_, ?_⟩
  · intro g0 h0
    apply dealAdditionalCardsToPlayer_exit
    rw [playerLoop_iff]
    omega
  · rcases hstop with ⟨-, hq⟩ | ⟨hlt, -, -⟩
    · exact hq
    · omega
  · intro hd21
    have hs : s = .pushes := by
      rw [hrule]; exact hcases.2.2.2.2 (by omega) (by omega) hd21.symm
    subst hs
    refine ⟨hann, ?_⟩
    rw [hplayer]
    simp only [Settlement.onPlayer, Player.pushes, h.chipsToPlay, h.chipsInBettingBox, hbox]
    omega
  · intro hd21
    have hs : s = .wins := by
      rw [hrule]
      by_cases hover : 21 < (roundStarts w g).2.dealer.dealerHand.getHandValue
      · exact hcases.2.1 (by omega) hover
      · exact hcases.2.2.1 (by omega) (by omega) (by omega)
    subst hs
    have hpaid : (roundStarts w g).2.player.chipsToPlay
        = toInt32 (g.player.chipsToPlay - w.askPlayerToBetChips g.betPrompts 1 g.player.chipsToPlay
            + toInt32 (w.askPlayerToBetChips g.betPrompts 1 g.player.chipsToPlay
              + w.askPlayerToBetChips g.betPrompts 1 g.player.chipsToPlay)) := by
      rw [hplayer]
      simp only [Settlement.onPlayer, Player.wins, h.chipsToPlay, h.chipsInBettingBox, hbox,
        zero_add]
    refine ⟨hann, hpaid, fun hfits => ?_⟩
    rw [hpaid]
    simp only [toInt32]
    omega
  · rw [hplayer]
    cases s <;> rfl

set_option maxRecDepth 100000 in
/-- The run `worldTwentyOnePush`: King + Ace against Jack + Ace, 21 each.  The player, who
would say yes, is not asked; the round is a push and the 100 chips held before the bet of 10
are back. -/
theorem round_ending_at_21_on_a_push :
    (roundStarts worldTwentyOnePush .new).2.player.getHandValue = 21 ∧
    (roundStarts worldTwentyOnePush .new).2.dealer.getHandValue = 21 ∧
    (roundStarts worldTwentyOnePush .new).2.cardPrompts = 0 ∧
    settlementAnnouncements (roundStarts worldTwentyOnePush .new).2.output
      = [.announcePlayerPushes] ∧
    (roundStarts worldTwentyOnePush .new).2.player.chipsToPlay = 100 ∧
    (roundStarts worldTwentyOnePush .new).2.player.chipsInBettingBox = 0 := by
  have hval : (roundStarts worldTwentyOnePush .new).2.player.getHandValue = 21 ∧
      (roundStarts worldTwentyOnePush .new).2.dealer.getHandValue = 21 ∧
      (roundStarts worldTwentyOnePush .new).2.cardPrompts = 0 := by
    rw [roundStarts_eq_of_within 2 worldTwentyOnePush .new (by decide)]
    decide
  obtain ⟨-, -, -, -, -, -, -, -, hpush, -, hbox⟩ :=
    round_ending_at_21 worldTwentyOnePush .new (by decide) (by decide)
      (by decide) hval.1
  obtain ⟨hann, hchips⟩ := hpush hval.2.1
  exact ⟨hval.1, hval.2.1, hval.2.2, hann, hchips, hbox⟩

end BlackjackGame
/-! ## One shoe for the whole round -/

theorem random_shuffle_loop_calls (rand : Nat → Nat) (steps i k : Nat) (xs : List Card) :
    (random_shuffle_loop rand steps i k xs).2 = k + steps := by
  induction steps generalizing i k xs with
  | zero => rfl
  | succ n ih =>
    simp only [random_shuffle_loop]
    rw [ih]
    omega

theorem shuffleDeck_calls (rand : Nat → Nat) (k : Nat) (d : Deck) :
    (d.shuffleDeck rand k).2 = k + (d.cardsInDeck.length - 1) := by
  unfold Deck.shuffleDeck
  split
  · exact random_shuffle_loop_calls rand _ 1 k d.cardsInDeck
  · rename_i h
    simp only [Deck.isDeckEmpty, Bool.not_eq_true', List.isEmpty_eq_false, not_not,
      List.isEmpty_iff] at h
    simp_all

namespace BlackjackGame

/-- Filling the shoe takes the 51 calls of `std::rand ()` of one shuffle of 52 cards. -/
theorem placeShuffledDeckIntoDealingShoe_randCalls (w : World) (g : BlackjackGame) :
    (g.placeShuffledDeckIntoDealingShoe w).randCalls = g.randCalls + 51 := by
  simp only [placeShuffledDeckIntoDealingShoe, shuffleDeck, getOrderedDeck, clearDeck]
  rw [shuffleDeck_calls, createOrderedDeck_length]

theorem dealCardToPlayer_randCalls (w : World) (g : BlackjackGame) :
    (g.dealCardToPlayer w).2.randCalls
      = (if g.isDeckEmpty then g.placeShuffledDeckIntoDealingShoe w else g).randCalls := by
  unfold dealCardToPlayer
  simp only
  split <;> rfl

theorem dealCardToDealer_randCalls (w : World) (g : BlackjackGame) :
    (g.dealCardToDealer w).2.randCalls
      = (if g.isDeckEmpty then g.placeShuffledDeckIntoDealingShoe w else g).randCalls := by
  unfold dealCardToDealer
  simp only
  split <;> rfl


theorem clearHand_cards (h : Hand) : h.clearHand.cardsInHand = [] := by
  unfold Hand.clearHand
  split
  · rename_i he
    simpa [Hand.isHandEmpty] using he
  · rfl

/-- A pass that goes on to another round hands over the ledger of the round it played, with
the table cleared. -/
theorem beginPlayingPass_again (w : World) (g g' : BlackjackGame)
    (h : beginPlayingPass w g = .again g') :
    (roundStarts w g).1 = .ok () ∧
    g'.player.playerHand.cardsInHand = [] ∧ g'.dealer.dealerHand.cardsInHand = [] ∧
    g'.player.chipsToPlay = (roundStarts w g).2.player.chipsToPlay ∧
    g'.player.chipsInBettingBox = (roundStarts w g).2.player.chipsInBettingBox := by
  unfold beginPlayingPass at h
  rcases hr : roundStarts w g with ⟨res, g1⟩
  rw [hr] at h
  cases res with
  | error e => simp at h
  | ok u =>
    simp only at h
    split at h
    · simp at h
    · split at h
      · simp only [LoopPass.again.injEq] at h
        subst h
        simp [askPlayerToPlayNewRound, roundEnds, discardAllCardsFromTable, present,
          Player.clearHand, Dealer.clearHand, clearHand_cards]
      · simp at h

/-- Every round of a session is entered with both hands empty. -/
theorem gameAtPass_hands (w : World) (g0 : BlackjackGame)
    (hp : g0.player.playerHand.cardsInHand = []) (hd : g0.dealer.dealerHand.cardsInHand = [])
    (n : Nat) (g : BlackjackGame) (h : gameAtPass w g0 n = some g) :
    g.player.playerHand.cardsInHand = [] ∧ g.dealer.dealerHand.cardsInHand = [] := by
  cases n with
  | zero =>
    simp only [gameAtPass, Option.some.injEq] at h
    rw [← h]; exact ⟨hp, hd⟩
  | succ n =>
    rcases hprev : gameAtPass w g0 n with _ | g'
    · simp [gameAtPass, hprev] at h
    · rw [gameAtPass_succ w g0 g' n hprev] at h
      rcases hpass : beginPlayingPass w g' with g'' | r
      · rw [hpass] at h
        simp only [Option.some.injEq] at h
        subst h
        obtain ⟨-, h1, h2, -, -⟩ := beginPlayingPass_again w g' _ hpass
        exact ⟨h1, h2⟩
      · rw [hpass] at h
        simp at h


/-- C24: a round with an accepted bet deals all its cards off the one shoe shuffled when it
starts.  The shoe is a permutation of the 52 cards; the two cards of each hand and then the
player's and the dealer's further cards are its top cards in the order dealt, at most 21 for
the player and 17 for the dealer, all different, and what is left of it is the deck the round
ends with, 14 cards or more.  A deal entered with an empty deck would shuffle again, which
takes 51 more calls of `std::rand ()`, and a deal entered with cards takes none; the round
makes 51 calls in all.  Entered with an empty table, as every round of a session is, the
round ends with at most 21 cards in the player's hand and 17 in the dealer's, pairwise
distinct, which with the deck make up the 52 cards. -/
theorem one_shoe_serves_the_whole_round (w : World) (g : BlackjackGame)
    (hmin : 1 ≤ w.askPlayerToBetChips g.betPrompts 1 g.player.chipsToPlay)
    (hmax : w.askPlayerToBetChips g.betPrompts 1 g.player.chipsToPlay ≤ g.player.chipsToPlay) :
    (∀ n g', gameAtPass w BlackjackGame.new.gameStarts n = some g' →
      g'.player.playerHand.cardsInHand = [] ∧ g'.dealer.dealerHand.cardsInHand = []) ∧
    (∀ g0 : BlackjackGame,
      (g0.isDeckEmpty = true →
        (g0.dealCardToPlayer w).2.randCalls = g0.randCalls + 51 ∧
        (g0.dealCardToDealer w).2.randCalls = g0.randCalls + 51) ∧
      (g0.isDeckEmpty = false →
        (g0.dealCardToPlayer w).2.randCalls = g0.randCalls ∧
        (g0.dealCardToDealer w).2.randCalls = g0.randCalls)) ∧
    (g.placeShuffledDeckIntoDealingShoe w).deck.cardsInDeck.Perm Deck.new.cardsInDeck ∧
    (roundStarts w g).2.randCalls = g.randCalls + 51 ∧
    (∃ c1 c2 c3 c4 dp dd,
      (roundStarts w g).2.player.playerHand.cardsInHand
        = g.player.playerHand.cardsInHand ++ c1 :: c2 :: dp ∧
      (roundStarts w g).2.dealer.dealerHand.cardsInHand
        = g.dealer.dealerHand.cardsInHand ++ c3 :: c4 :: dd ∧
      (g.placeShuffledDeckIntoDealingShoe w).deck.cardsInDeck
        = (roundStarts w g).2.deck.cardsInDeck ++ dd.reverse ++ dp.reverse ++ [c4, c3, c2, c1] ∧
      (c1 :: c2 :: dp).length ≤ 21 ∧ (c3 :: c4 :: dd).length ≤ 17 ∧
      ((c1 :: c2 :: dp) ++ (c3 :: c4 :: dd)).Nodup) ∧
    14 ≤ (roundStarts w g).2.deck.cardsInDeck.length ∧
    (g.player.playerHand.cardsInHand = [] → g.dealer.dealerHand.cardsInHand = [] →
      (roundStarts w g).2.player.playerHand.cardsInHand.length ≤ 21 ∧
      (roundStarts w g).2.dealer.dealerHand.cardsInHand.length ≤ 17 ∧
      ((roundStarts w g).2.player.playerHand.cardsInHand ++
        (roundStarts w g).2.dealer.dealerHand.cardsInHand ++
        (roundStarts w g).2.deck.cardsInDeck).Perm Deck.new.cardsInDeck ∧
      ((roundStarts w g).2.player.playerHand.cardsInHand ++
        (roundStarts w g).2.dealer.dealerHand.cardsInHand).Nodup) := by
  obtain ⟨rest, c1, c2, c3, c4, dp, dd, hshoe, -, hphand, hdhand, hbelow, -, hbust, hdealer,
    hrest, hrand⟩ := roundStarts_trace w g hmin hmax
  have hperm := placeShuffledDeckIntoDealingShoe_perm w g
  have hlen : rest.length = 48 := by
    have := placeShuffledDeckIntoDealingShoe_length w g
    rw [hshoe] at this
    simpa using this
  have hsum : ∀ (cards : List Card) (a b : Card), 2 ≤ sumOfCardValues (cards ++ [a, b]) := by
    intro cards a b
    have ha := one_le_getCardValue a
    have hb := one_le_getCardValue b
    have hc := sumOfCardValues_nonneg cards
    rw [sumOfCardValues_append]
    simp only [sumOfCardValues, List.foldl_cons, List.foldl_nil] at hc ⊢
    omega
  have hdp : dp.length ≤ 19 := by
    have := draws_bounded 21 (g.player.playerHand.cardsInHand ++ [c1, c2]) dp (fun k hk => by
      have := (hbelow k hk).1
      simpa using this)
    have := hsum g.player.playerHand.cardsInHand c1 c2
    omega
  have hdd : dd.length ≤ 15 := by
    by_cases hb : 21 < (roundStarts w g).2.player.getHandValue
    · rw [hbust hb]; simp
    · have := draws_bounded 17 (g.dealer.dealerHand.cardsInHand ++ [c3, c4]) dd (fun k hk => by
        have := (hdealer (by omega)).1 k hk
        simpa using this)
      have := hsum g.dealer.dealerHand.cardsInHand c3 c4
      omega
  have hdeck : (roundStarts w g).2.deck.cardsInDeck.length + dd.length + dp.length = 48 := by
    have := congrArg List.length hrest
    simp only [List.length_append, List.length_reverse] at this
    omega
  have hall : ((c1 :: c2 :: dp) ++ (c3 :: c4 :: dd) ++
      (roundStarts w g).2.deck.cardsInDeck).Perm Deck.new.cardsInDeck := by
    refine List.Perm.trans ?_ hperm
    rw [hshoe, hrest]
    refine List.perm_iff_count.mpr fun a => ?_
    simp only [List.count_append, List.count_cons, List.count_reverse, List.count_nil]
    omega
  have hnodup : ((c1 :: c2 :: dp) ++ (c3 :: c4 :: dd)).Nodup :=
    List.Nodup.of_append_left ((hall.nodup_iff).mpr new_deck_nodup)
  have hlp : (c1 :: c2 :: dp).length ≤ 21 := by simp only [List.length_cons]; omega
  have hld : (c3 :: c4 :: dd).length ≤ 17 := by simp only [List.length_cons]; omega
  refine ⟨fun n g' h => gameAtPass_hands w _ rfl rfl n g' h, fun g0 => ⟨fun he => ?_, fun he => ?_⟩,
    hperm, by rw [hrand, placeShuffledDeckIntoDealingShoe_randCalls],
    ⟨c1, c2, c3, c4, dp, dd, hphand, hdhand, by rw [hshoe, hrest], hlp, hld, hnodup⟩,
    by omega, fun hp hd => ?_⟩
  · rw [dealCardToPlayer_randCalls, dealCardToDealer_randCalls, if_pos he,
      placeShuffledDeckIntoDealingShoe_randCalls]
    exact ⟨rfl, rfl⟩
  · rw [dealCardToPlayer_randCalls, dealCardToDealer_randCalls,
      if_neg (by rw [he]; decide)]
    exact ⟨rfl, rfl⟩
  · rw [hp, List.nil_append] at hphand
    rw [hd, List.nil_append] at hdhand
    rw [hphand, hdhand]
    exact ⟨hlp, hld, hall, hnodup⟩

set_option maxRecDepth 100000 in
/-- C24, on the run `worldDealerDraws` from a fresh game: two cards for the player and three
for the dealer leave 47 cards in the shoe, after the 51 calls of the one shuffle. -/
theorem one_shoe_serves_the_whole_round_witness :
    (roundStarts worldDealerDraws .new).2.randCalls = 51 ∧
    (roundStarts worldDealerDraws .new).2.player.playerHand.cardsInHand.length = 2 ∧
    (roundStarts worldDealerDraws .new).2.dealer.dealerHand.cardsInHand.length = 3 ∧
    (roundStarts worldDealerDraws .new).2.deck.cardsInDeck.length = 47 ∧
    ((roundStarts worldDealerDraws .new).2.player.playerHand.cardsInHand ++
      (roundStarts worldDealerDraws .new).2.dealer.dealerHand.cardsInHand).Nodup := by
  have hrun : (roundStarts worldDealerDraws .new).2.player.playerHand.cardsInHand.length = 2 ∧
      (roundStarts worldDealerDraws .new).2.dealer.dealerHand.cardsInHand.length = 3 ∧
      (roundStarts worldDealerDraws .new).2.deck.cardsInDeck.length = 47 := by
    rw [roundStarts_eq_of_within 3 worldDealerDraws .new (by decide)]
    decide
  obtain ⟨-, -, -, hrand, -, -, htable⟩ :=
    one_shoe_serves_the_whole_round worldDealerDraws .new (by decide) (by decide)
  exact ⟨hrand, hrun.1, hrun.2.1, hrun.2.2, (htable rfl rfl).2.2.2⟩

end BlackjackGame
/-! ## The chip ledger through a session -/

namespace BlackjackGame

/-- The ledger of a round whose bet is accepted into an empty betting box: at the settlement
the bet is in the box and the rest is available; after it the box is empty.  What is then
available is not negative after a push or a loss, and after a win when the chips held
before the bet plus the bet are within 2147483647. -/
theorem roundStarts_ledger (w : World) (g : BlackjackGame)
    (hmin : 1 ≤ w.askPlayerToBetChips g.betPrompts 1 g.player.chipsToPlay)
    (hmax : w.askPlayerToBetChips g.betPrompts 1 g.player.chipsToPlay ≤ g.player.chipsToPlay)
    (hbox : g.player.chipsInBettingBox = 0) :
    ∃ gs s, SettledRound w g gs s ∧
      0 ≤ gs.player.chipsToPlay ∧ 1 ≤ gs.player.chipsInBettingBox ∧
      gs.player.chipsToPlay + gs.player.chipsInBettingBox = g.player.chipsToPlay ∧
      (roundStarts w g).2.player.chipsInBettingBox = 0 ∧
      (roundStarts w g).2.player.chipsToPlay ≤ 2 * g.player.chipsToPlay ∧
      (g.player.chipsToPlay ≤ 2147483647 →
        (roundStarts w g).2.player.chipsToPlay ≤ 2147483647) ∧
      (s ≠ .wins → 0 ≤ (roundStarts w g).2.player.chipsToPlay) ∧
      (g.player.chipsToPlay + gs.player.chipsInBettingBox ≤ 2147483647 →
        0 ≤ (roundStarts w g).2.player.chipsToPlay) := by
  obtain ⟨gs, s, h⟩ := roundStarts_settled w g hmin hmax
  obtain ⟨-, hplayer, -, -, -, -⟩ := settledRound_final h
  have hc := h.chipsToPlay
  have hb := h.chipsInBettingBox
  rw [hbox] at hb
  refine ⟨gs, s, h, by omega, by omega, by omega, ?_, ?_, ?_, ?_, ?_⟩
  · rw [hplayer]
    cases s <;> rfl
  · rw [hplayer]
    cases s <;>
      simp only [Settlement.onPlayer, Player.wins, Player.pushes, Player.loses, toInt32] <;>
      omega
  · intro hfits
    rw [hplayer]
    cases s <;>
      simp only [Settlement.onPlayer, Player.wins, Player.pushes, Player.loses, toInt32] <;>
      omega
  · intro hs
    rw [hplayer]
    cases s
    · exact absurd rfl hs
    · simp only [Settlement.onPlayer, Player.pushes]; omega
    · simp only [Settlement.onPlayer, Player.loses]; omega
  · intro hfits
    rw [hplayer]
    cases s <;>
      simp only [Settlement.onPlayer, Player.wins, Player.pushes, Player.loses, toInt32] <;>
      omega

/-- A pass that leaves the session hands over the ledger of the round it played. -/
theorem beginPlayingPass_left (w : World) (g : BlackjackGame) (r : Outcome)
    (h : beginPlayingPass w g = .left r) (hok : (roundStarts w g).1 = .ok ()) :
    r.1 = .ok () ∧
    r.2.player.chipsToPlay = (roundStarts w g).2.player.chipsToPlay ∧
    r.2.player.chipsInBettingBox = (roundStarts w g).2.player.chipsInBettingBox := by
  unfold beginPlayingPass at h
  rcases hr : roundStarts w g with ⟨res, g1⟩
  rw [hr] at h hok
  cases res with
  | error e => simp at hok
  | ok u =>
    simp only at h
    split at h
    · simp only [LoopPass.left.injEq] at h
      subst h
      simp [informPlayerAboutLackOfChips, gameEnds, roundEnds, discardAllCardsFromTable,
        present, Player.clearHand]
    · split at h
      · simp at h
      · simp only [LoopPass.left.injEq] at h
        subst h
        simp [askPlayerToPlayNewRound, gameEnds, roundEnds, discardAllCardsFromTable, present,
          Player.clearHand]

/-- Every round of a session is entered with at least 1 available chip, no more than
2147483647, and an empty betting box. -/
theorem gameAtPass_ledger (w : World) (hw : w.betsWithinBounds) (g0 : BlackjackGame)
    (hstart : 1 ≤ g0.player.chipsToPlay) (hfits : g0.player.chipsToPlay ≤ 2147483647)
    (hbox : g0.player.chipsInBettingBox = 0)
    (n : Nat) (g : BlackjackGame) (h : gameAtPass w g0 n = some g) :
    1 ≤ g.player.chipsToPlay ∧ g.player.chipsInBettingBox = 0 ∧
    g.player.chipsToPlay ≤ g0.player.chipsToPlay * 2 ^ n ∧
    g.player.chipsToPlay ≤ 2147483647 := by
  induction n generalizing g with
  | zero =>
    simp only [gameAtPass, Option.some.injEq] at h
    rw [← h]; exact ⟨hstart, hbox, by simp, hfits⟩
  | succ n ih =>
    rcases hprev : gameAtPass w g0 n with _ | g'
    · simp [gameAtPass, hprev] at h
    · obtain ⟨hc, hb, hle, hmax'⟩ := ih g' hprev
      have hchips := gameAtPass_chips w hw g0 hstart (n + 1) g h
      rw [gameAtPass_succ w g0 g' n hprev] at h
      rcases hpass : beginPlayingPass w g' with g'' | r
      · rw [hpass] at h
        simp only [Option.some.injEq] at h
        subst h
        obtain ⟨hmin, hmax⟩ := hw g'.betPrompts 1 g'.player.chipsToPlay hc
        obtain ⟨gs, s, -, -, -, -, hend, htwice, hint, -, -⟩ :=
          roundStarts_ledger w g' hmin hmax hb
        obtain ⟨-, -, -, hc', hb'⟩ := beginPlayingPass_again w g' _ hpass
        refine ⟨hchips, by rw [hb', hend], ?_, by rw [hc']; exact hint hmax'⟩
        rw [hc', pow_succ]
        calc (roundStarts w g').2.player.chipsToPlay
            ≤ 2 * g'.player.chipsToPlay := htwice
          _ ≤ 2 * (g0.player.chipsToPlay * 2 ^ n) := by omega
          _ = g0.player.chipsToPlay * (2 ^ n * 2) := by ring
      · rw [hpass] at h
        simp at h

/-- A session that has returned has left the betting box empty. -/
theorem beginPlayingLoop_ledger (w : World) (hw : w.betsWithinBounds) (rounds : Nat)
    (g : BlackjackGame) (hchips : 1 ≤ g.player.chipsToPlay)
    (hfits : g.player.chipsToPlay ≤ 2147483647)
    (hbox : g.player.chipsInBettingBox = 0) (r : Outcome)
    (h : beginPlayingLoop w rounds g = some r) :
    r.2.player.chipsInBettingBox = 0 := by
  induction rounds generalizing g with
  | zero => simp [beginPlayingLoop] at h
  | succ n ih =>
    obtain ⟨hmin, hmax⟩ := hw g.betPrompts 1 g.player.chipsToPlay hchips
    obtain ⟨gs, s, hs, -, -, -, hb, -, -, -, -⟩ := roundStarts_ledger w g hmin hmax hbox
    rcases hpass : beginPlayingPass w g with g' | r'
    · simp only [beginPlayingLoop, hpass] at h
      have h1 := gameAtPass_ledger w hw g hchips hfits hbox 1 g' (by simp [gameAtPass, hpass])
      exact ih g' h1.1 h1.2.2.2 h1.2.1 h
    · simp only [beginPlayingLoop, hpass, Option.some.injEq] at h
      subst h
      obtain ⟨-, -, h2⟩ := beginPlayingPass_left w g r' hpass (by rw [hs.result])
      rw [h2]; exact hb

/-- The steps of a round other than the bet and the settlement leave the ledger alone. -/
theorem ledger_frame (w : World) (g0 : BlackjackGame) :
    (g0.placeShuffledDeckIntoDealingShoe w).player = g0.player ∧
    ((g0.dealCardToPlayer w).2.player.chipsToPlay = g0.player.chipsToPlay ∧
      (g0.dealCardToPlayer w).2.player.chipsInBettingBox = g0.player.chipsInBettingBox) ∧
    (g0.dealCardToDealer w).2.player = g0.player ∧
    ((g0.dealAdditionalCardsToPlayer w).2.player.chipsToPlay = g0.player.chipsToPlay ∧
      (g0.dealAdditionalCardsToPlayer w).2.player.chipsInBettingBox
        = g0.player.chipsInBettingBox) ∧
    (g0.dealAdditionalCardsToDealer w).2.player = g0.player ∧
    (g0.roundEnds.player.chipsToPlay = g0.player.chipsToPlay ∧
      g0.roundEnds.player.chipsInBettingBox = g0.player.chipsInBettingBox) := by
  obtain ⟨c, d, k, hp⟩ := dealCardToPlayer_ok w g0
  obtain ⟨c', d', k', hd⟩ := dealCardToDealer_ok w g0
  obtain ⟨gp, hgp, hturn⟩ := dealAdditionalCardsToPlayer_spec w g0
  obtain ⟨gd, hgd, hdturn, -⟩ := dealAdditionalCardsToDealer_spec w g0
  refine ⟨?_, ?_, ?_, ?_, ?_, ?_⟩
  · rw [placeShuffledDeckIntoDealingShoe_frame]
  · rw [hp]; exact ⟨rfl, rfl⟩
  · rw [hd]
  · rw [hgp]; exact ⟨hturn.chipsToPlay, hturn.chipsInBettingBox⟩
  · rw [hgd]; exact hdturn.player
  · simp [roundEnds, discardAllCardsFromTable, present, Player.clearHand]

/-- The ledger of a session started from a fresh game (100 available chips, an empty betting
box) with a bet prompt that keeps its contract.  Every round is entered with at least 1
available chip, no more than 2147483647, and an empty box; when its settlement is reached
the accepted bet, at least 1 chip, is in the box and the rest, 0 or more, is available; when
the round has returned, and after `roundEnds`, the box is empty, and so it is when the
session has returned.  After a push or a loss the available chips are 0 or more; after a
win they are when the chips held before the bet plus the bet are within 2147483647, which
is so through the first 24 rounds, round `n` (from 0) being entered with at most
100 * 2 ^ n chips.  Between those points the ledger does not move: filling the shoe, the
deals, the two turns and `roundEnds` leave both amounts as they were. -/
theorem ledger_of_a_session (w : World) (hw : w.betsWithinBounds) :
    (BlackjackGame.new.player.chipsToPlay = 100 ∧
      BlackjackGame.new.player.chipsInBettingBox = 0) ∧
    (∀ n g, gameAtPass w BlackjackGame.new.gameStarts n = some g →
      (1 ≤ g.player.chipsToPlay ∧ g.player.chipsToPlay ≤ 2147483647 ∧
        g.player.chipsInBettingBox = 0) ∧
      (∃ gs s, SettledRound w g gs s ∧
        0 ≤ gs.player.chipsToPlay ∧ 1 ≤ gs.player.chipsInBettingBox ∧
        gs.player.chipsToPlay + gs.player.chipsInBettingBox = g.player.chipsToPlay ∧
        (s ≠ .wins → 0 ≤ (roundStarts w g).2.player.chipsToPlay) ∧
        (g.player.chipsToPlay + gs.player.chipsInBettingBox ≤ 2147483647 →
          0 ≤ (roundStarts w g).2.player.chipsToPlay)) ∧
      ((roundStarts w g).2.player.chipsInBettingBox = 0 ∧
        (roundStarts w g).2.roundEnds.player.chipsInBettingBox = 0) ∧
      (g.player.chipsToPlay ≤ 100 * 2 ^ n ∧
        (n < 24 →
          0 ≤ (roundStarts w g).2.player.chipsToPlay ∧
          (roundStarts w g).2.player.chipsToPlay ≤ 2147483647 ∧
          0 ≤ (roundStarts w g).2.roundEnds.player.chipsToPlay))) ∧
    (∀ rounds r, beginPlaying rounds w .new = some r → r.2.player.chipsInBettingBox = 0) ∧
    (∀ g0 : BlackjackGame,
      (g0.placeShuffledDeckIntoDealingShoe w).player = g0.player ∧
      ((g0.dealCardToPlayer w).2.player.chipsToPlay = g0.player.chipsToPlay ∧
        (g0.dealCardToPlayer w).2.player.chipsInBettingBox = g0.player.chipsInBettingBox) ∧
      (g0.dealCardToDealer w).2.player = g0.player ∧
      ((g0.dealAdditionalCardsToPlayer w).2.player.chipsToPlay = g0.player.chipsToPlay ∧
        (g0.dealAdditionalCardsToPlayer w).2.player.chipsInBettingBox
          = g0.player.chipsInBettingBox) ∧
      (g0.dealAdditionalCardsToDealer w).2.player = g0.player ∧
      (g0.roundEnds.player.chipsToPlay = g0.player.chipsToPlay ∧
        g0.roundEnds.player.chipsInBettingBox = g0.player.chipsInBettingBox)) := by
  have hnew : 1 ≤ BlackjackGame.new.gameStarts.player.chipsToPlay := by decide
  have hnewfits : BlackjackGame.new.gameStarts.player.chipsToPlay ≤ 2147483647 := by decide
  have hnewbox : BlackjackGame.new.gameStarts.player.chipsInBettingBox = 0 := by decide
  refine ⟨⟨by decide, by decide⟩, ?_, ?_, ledger_frame w⟩
  · intro n g h
    obtain ⟨hc, hb, hle, hfits⟩ := gameAtPass_ledger w hw _ hnew hnewfits hnewbox n g h
    obtain ⟨hmin, hmax⟩ := hw g.betPrompts 1 g.player.chipsToPlay hc
    obtain ⟨gs, s, hs, h1, h2, h3, h5, htwice, hint, hnowin, hin⟩ :=
      roundStarts_ledger w g hmin hmax hb
    obtain ⟨-, -, -, -, -, hr1, hr2⟩ := ledger_frame w (roundStarts w g).2
    have hle' : g.player.chipsToPlay ≤ 100 * 2 ^ n := hle
    refine ⟨⟨hc, hfits, hb⟩, ⟨gs, s, hs, h1, h2, h3, hnowin, hin⟩, ⟨h5, by rw [hr2]; exact h5⟩,
      hle', fun hn => ?_⟩
    have hpow : (2 : Int) ^ n ≤ 2 ^ 23 :=
      pow_le_pow_right₀ (by norm_num) (by omega)
    have h23 : (2 : Int) ^ 23 = 8388608 := by norm_num
    have hnonneg := hin (by omega)
    exact ⟨hnonneg, hint hfits, by rw [hr1]; exact hnonneg⟩
  · intro rounds r h
    rw [beginPlaying_of_chips rounds w .new (by decide)] at h
    exact beginPlayingLoop_ledger w hw rounds _ hnew hnewfits hnewbox r h

set_option maxRecDepth 100000 in
/-- The run `worldAllInBust`, whose bet prompt returns the largest bet allowed: the player
stakes the 100 chips and is busted; the session returns with no chip available and none in
the box. -/
theorem ledger_of_a_session_on_a_bust :
    ∃ r, beginPlaying 1 worldAllInBust .new = some r ∧
      r.2.player.chipsToPlay = 0 ∧ r.2.player.chipsInBettingBox = 0 := by
  have hret := beginPlaying_of_left worldAllInBust .new _ 0 1 _ (by decide) rfl
    (beginPlayingPass_no_chips worldAllInBust _ _ roundStarts_worldAllInBust (by decide))
    (by decide)
  have hbox := (ledger_of_a_session worldAllInBust
    (fun _ _ _ hle => ⟨hle, Int.le_refl _⟩)).2.2.1 1 _ hret
  refine ⟨_, hret, ?_, hbox⟩
  decide

end BlackjackGame
/-! ## Twenty-five wins in a row -/

theorem random_shuffle_loop_congr (rand rand' : Nat → Nat) (steps i k k' : Nat) (xs : List Card)
    (h : ∀ j, j < steps → rand (k + j) = rand' (k' + j)) :
    (random_shuffle_loop rand steps i k xs).1 = (random_shuffle_loop rand' steps i k' xs).1 := by
  induction steps generalizing i k k' xs with
  | zero => rfl
  | succ n ih =>
    simp only [random_shuffle_loop]
    have h0 := h 0 (by omega)
    simp only [Nat.add_zero] at h0
    rw [h0]
    apply ih
    intro j hj
    have := h (j + 1) (by omega)
    rw [show k + 1 + j = k + (j + 1) by omega, show k' + 1 + j = k' + (j + 1) by omega]
    exact this

theorem shuffleDeck_congr (rand rand' : Nat → Nat) (k k' : Nat) (d : Deck)
    (h : ∀ j, j < d.cardsInDeck.length - 1 → rand (k + j) = rand' (k' + j)) :
    (d.shuffleDeck rand k).1 = (d.shuffleDeck rand' k').1 := by
  unfold Deck.shuffleDeck
  split
  · simp only [random_shuffle]
    rw [random_shuffle_loop_congr rand rand' _ 1 k k' d.cardsInDeck h]
  · rfl

namespace BlackjackGame

set_option maxRecDepth 100000 in
/-- Every shoe of the run `worldAllInTwentyOne` is the one of its first round. -/
theorem shoe_worldAllInTwentyOne (g : BlackjackGame) (m : Nat) (hcalls : g.randCalls = 51 * m) :
    (g.placeShuffledDeckIntoDealingShoe worldAllInTwentyOne).deck.cardsInDeck
      = (BlackjackGame.new.placeShuffledDeckIntoDealingShoe
            worldAllInTwentyOne).deck.cardsInDeck.take 48
          ++ [⟨.Ten, .Clubs⟩, ⟨.Jack, .Clubs⟩, ⟨.Ace, .Clubs⟩, ⟨.King, .Clubs⟩] := by
  have hfirst : (BlackjackGame.new.placeShuffledDeckIntoDealingShoe
        worldAllInTwentyOne).deck.cardsInDeck
      = (BlackjackGame.new.placeShuffledDeckIntoDealingShoe
            worldAllInTwentyOne).deck.cardsInDeck.take 48
          ++ [⟨.Ten, .Clubs⟩, ⟨.Jack, .Clubs⟩, ⟨.Ace, .Clubs⟩, ⟨.King, .Clubs⟩] := by
    decide
  rw [← hfirst]
  simp only [placeShuffledDeckIntoDealingShoe, shuffleDeck, getOrderedDeck, clearDeck,
    createOrderedDeck_eq_new]
  refine congrArg Deck.cardsInDeck
    (shuffleDeck_congr worldAllInTwentyOne.rand worldAllInTwentyOne.rand g.randCalls
      BlackjackGame.new.randCalls Deck.new ?_)
  intro j hj
  have hlen : Deck.new.cardsInDeck.length = 52 := createOrderedDeck_length _
  rw [hlen] at hj
  have hzero : BlackjackGame.new.randCalls = 0 := rfl
  rw [hcalls, hzero]
  simp only [worldAllInTwentyOne]
  have : (51 * m + j) % 51 = (0 + j) % 51 := by omega
  rw [this]


/-- One round of the run `worldAllInTwentyOne`, entered with an empty table, an empty betting
box and at least 1 chip: everything is staked, the player holds King + Ace and is not asked,
the dealer holds Jack + Ten and draws nothing, and the player wins. -/
theorem roundStarts_worldAllInTwentyOne (g : BlackjackGame) (m : Nat)
    (hcalls : g.randCalls = 51 * m) (hchips : 1 ≤ g.player.chipsToPlay)
    (hbox : g.player.chipsInBettingBox = 0)
    (hp : g.player.playerHand.cardsInHand = []) (hd : g.dealer.dealerHand.cardsInHand = []) :
    (roundStarts worldAllInTwentyOne g).1 = .ok () ∧
    (roundStarts worldAllInTwentyOne g).2.player =
      Player.wins ⟨⟨[⟨.King, .Clubs⟩, ⟨.Ace, .Clubs⟩]⟩, 0, g.player.chipsToPlay⟩ ∧
    (roundStarts worldAllInTwentyOne g).2.dealer = ⟨⟨[⟨.Jack, .Clubs⟩, ⟨.Ten, .Clubs⟩]⟩⟩ ∧
    (roundStarts worldAllInTwentyOne g).2.randCalls = 51 * (m + 1) ∧
    (roundStarts worldAllInTwentyOne g).2.cardPrompts = g.cardPrompts ∧
    settlementAnnouncements (roundStarts worldAllInTwentyOne g).2.output
      = settlementAnnouncements g.output ++ [.announcePlayerWins] := by
  have hshoe := shoe_worldAllInTwentyOne g m hcalls
  have hbet : worldAllInTwentyOne.askPlayerToBetChips g.betPrompts 1 g.player.chipsToPlay
      = g.player.chipsToPlay := rfl
  have hround := roundStarts_of_shoe worldAllInTwentyOne g _ ⟨.King, .Clubs⟩ ⟨.Ace, .Clubs⟩
    ⟨.Jack, .Clubs⟩ ⟨.Ten, .Clubs⟩ hshoe (by rw [hbet]; exact hchips) (by rw [hbet])
  generalize hrest : (BlackjackGame.new.placeShuffledDeckIntoDealingShoe
      worldAllInTwentyOne).deck.cardsInDeck.take 48 = rest at hround
  have hpv : (afterDeal worldAllInTwentyOne g rest ⟨.King, .Clubs⟩ ⟨.Ace, .Clubs⟩
      ⟨.Jack, .Clubs⟩ ⟨.Ten, .Clubs⟩).player.getHandValue = 21 := by
    simp only [afterDeal, Player.getHandValue, hp, List.nil_append]
    rfl
  have hdv : (afterDeal worldAllInTwentyOne g rest ⟨.King, .Clubs⟩ ⟨.Ace, .Clubs⟩
      ⟨.Jack, .Clubs⟩ ⟨.Ten, .Clubs⟩).displayDealerHandContents.dealer.getHandValue
        = 20 := by
    simp only [afterDeal, displayDealerHandContents, present, Dealer.getHandValue, hd,
      List.nil_append]
    rfl
  have hexitP := dealAdditionalCardsToPlayer_exit worldAllInTwentyOne _
    (by rw [playerLoop_iff, hpv]; decide)
  have hexitD := dealAdditionalCardsToDealer_exit worldAllInTwentyOne
    (afterDeal worldAllInTwentyOne g rest ⟨.King, .Clubs⟩ ⟨.Ace, .Clubs⟩
      ⟨.Jack, .Clubs⟩ ⟨.Ten, .Clubs⟩).displayDealerHandContents
    (by rw [dealerLoop_iff, hdv]; decide)
  rw [hexitP, andThen_ok,
    roundClosing_not_busted worldAllInTwentyOne _ _ (by rw [hpv]; decide) hexitD rfl] at hround
  have hpv' : (afterDeal worldAllInTwentyOne g rest ⟨.King, .Clubs⟩ ⟨.Ace, .Clubs⟩
      ⟨.Jack, .Clubs⟩ ⟨.Ten, .Clubs⟩).displayDealerHandContents.player.getHandValue = 21 := hpv
  rw [hpv', hdv] at hround
  have hs : settlementFor 21 20 = .wins := by decide
  rw [hs] at hround
  rw [hround]
  refine ⟨rfl, ?_, ?_, ?_, rfl, ?_⟩
  · simp only [Settlement.onGame, playerWins, informPlayerAboutTheirCurrentNumberOfChips,
      present, displayDealerHandContents, afterDeal, hp, hbox, hbet, List.nil_append,
      sub_self, zero_add]
  · simp only [Settlement.onGame, playerWins, informPlayerAboutTheirCurrentNumberOfChips,
      present, displayDealerHandContents, afterDeal, hd, List.nil_append]
  · simp only [Settlement.onGame, playerWins, informPlayerAboutTheirCurrentNumberOfChips,
      present, displayDealerHandContents, afterDeal,
      placeShuffledDeckIntoDealingShoe_randCalls, hcalls]
    omega
  · simp [Settlement.onGame, playerWins, informPlayerAboutTheirCurrentNumberOfChips, present,
      displayDealerHandContents, afterDeal, settlementAnnouncements, List.filter_cons,
      Event.isSettlementAnnouncement]


/-- The run `worldAllInTwentyOne` from a fresh game: round `n` (from 0), for `n` up to 24, is
entered with `100 * 2 ^ n` chips, an empty box and an empty table. -/
theorem gameAtPass_worldAllInTwentyOne (n : Nat) (hn : n ≤ 24) :
    ∃ g, gameAtPass worldAllInTwentyOne BlackjackGame.new.gameStarts n = some g ∧
      g.player.chipsToPlay = 100 * 2 ^ n ∧ g.player.chipsInBettingBox = 0 ∧
      g.player.playerHand.cardsInHand = [] ∧ g.dealer.dealerHand.cardsInHand = [] ∧
      g.randCalls = 51 * n := by
  induction n with
  | zero => exact ⟨_, rfl, by decide, rfl, rfl, rfl, rfl⟩
  | succ n ih =>
    obtain ⟨g, hreach, hchips, hbox, hp, hd, hcalls⟩ := ih (by omega)
    have hpow : (2 : Int) ^ n ≤ 2 ^ 23 := pow_le_pow_right₀ (by norm_num) (by omega)
    have h23 : (2 : Int) ^ 23 = 8388608 := by norm_num
    have hpos : (0 : Int) < 2 ^ n := by positivity
    obtain ⟨hok, hplayer, -, hrand, -, -⟩ :=
      roundStarts_worldAllInTwentyOne g n hcalls (by omega) hbox hp hd
    rw [wins_of_fits _ (le_refl _) (by simp only; omega) (by simp only; omega)] at hplayer
    simp only [zero_add, hchips] at hplayer
    have hround : roundStarts worldAllInTwentyOne g
        = (.ok (), (roundStarts worldAllInTwentyOne g).2) := Prod.ext hok rfl
    have hpass := beginPlayingPass_asks worldAllInTwentyOne g _ hround
      (by rw [hplayer]; simp only; omega)
    have hyes : worldAllInTwentyOne.askPlayerToPlayNewRound
        (roundStarts worldAllInTwentyOne g).2.roundPrompts = true := rfl
    rw [if_pos hyes] at hpass
    refine ⟨_, by rw [gameAtPass_succ _ _ g n hreach, hpass], ?_, ?_, ?_, ?_, ?_⟩
    · simp only [roundEnds, discardAllCardsFromTable, present, Player.clearHand, hplayer,
        pow_succ]
      ring
    · simp only [roundEnds, discardAllCardsFromTable, present, Player.clearHand, hplayer]
    · simp only [roundEnds, discardAllCardsFromTable, present, Player.clearHand,
        clearHand_cards]
    · simp only [roundEnds, discardAllCardsFromTable, present, Dealer.clearHand,
        clearHand_cards]
    · simp only [roundEnds, discardAllCardsFromTable, present, hrand]

/-- The 25th round of the run `worldAllInTwentyOne`: 1677721600 chips are staked on King + Ace
against Jack + Ten, the player wins, and the sums of `Player.wins` leave -939524096 available
chips; the session then returns. -/
theorem twenty_fifth_round_worldAllInTwentyOne :
    ∃ g r, gameAtPass worldAllInTwentyOne BlackjackGame.new.gameStarts 24 = some g ∧
      g.player.chipsToPlay = 1677721600 ∧ g.player.chipsInBettingBox = 0 ∧
      worldAllInTwentyOne.askPlayerToBetChips g.betPrompts 1 g.player.chipsToPlay
        = 1677721600 ∧
      (roundStarts worldAllInTwentyOne g).1 = .ok () ∧
      (roundStarts worldAllInTwentyOne g).2.player
        = ⟨⟨[⟨.King, .Clubs⟩, ⟨.Ace, .Clubs⟩]⟩, -939524096, 0⟩ ∧
      (roundStarts worldAllInTwentyOne g).2.dealer = ⟨⟨[⟨.Jack, .Clubs⟩, ⟨.Ten, .Clubs⟩]⟩⟩ ∧
      (roundStarts worldAllInTwentyOne g).2.cardPrompts = g.cardPrompts ∧
      settlementAnnouncements (roundStarts worldAllInTwentyOne g).2.output
        = settlementAnnouncements g.output ++ [.announcePlayerWins] ∧
      beginPlaying 25 worldAllInTwentyOne .new = some r ∧ r.1 = .ok () ∧
      r.2.player.chipsToPlay = -939524096 ∧ r.2.player.chipsInBettingBox = 0 := by
  obtain ⟨g, hreach, hchips, hbox, hp, hd, hcalls⟩ :=
    gameAtPass_worldAllInTwentyOne 24 (le_refl _)
  have hchips' : g.player.chipsToPlay = 1677721600 := by rw [hchips]; norm_num
  obtain ⟨hok, hplayer, hdealer, -, hprompts, hann⟩ :=
    roundStarts_worldAllInTwentyOne g 24 hcalls (by omega) hbox hp hd
  have hwins : Player.wins ⟨⟨[⟨.King, .Clubs⟩, ⟨.Ace, .Clubs⟩]⟩, 0, g.player.chipsToPlay⟩
      = ⟨⟨[⟨.King, .Clubs⟩, ⟨.Ace, .Clubs⟩]⟩, -939524096, 0⟩ := by
    rw [hchips']
    simp only [Player.wins, toInt32]
    norm_num
  rw [hwins] at hplayer
  have hround : roundStarts worldAllInTwentyOne g
      = (.ok (), (roundStarts worldAllInTwentyOne g).2) := Prod.ext hok rfl
  have hpass := beginPlayingPass_no_chips worldAllInTwentyOne g _ hround
    (by rw [hplayer]; decide)
  have hret := beginPlaying_of_left worldAllInTwentyOne .new g 24 25 _ (by decide) hreach hpass
    (by decide)
  refine ⟨g, _, hreach, hchips', hbox, hchips', hok, hplayer, hdealer, hprompts, hann, hret,
    rfl, ?_, ?_⟩
  · simp only [roundEnds, discardAllCardsFromTable, present, Player.clearHand, hplayer]
  · simp only [roundEnds, discardAllCardsFromTable, present, Player.clearHand, hplayer]


/-- C21: the ledger invariant fails in a session that keeps the bet contract.  In the run
`worldAllInTwentyOne` the player, starting from 100 chips and an empty box, stakes everything
and wins 24 rounds, enters the 25th with 1677721600 chips and an empty box, stakes them and
wins again; the two additions of `Player.wins` leave -939524096 available chips, and with
that negative amount the session returns.  The betting box is empty throughout. -/
theorem all_in_winning_streak_leaves_negative_chips :
    worldAllInTwentyOne.betsWithinBounds ∧
    BlackjackGame.new.player.chipsToPlay = 100 ∧
    BlackjackGame.new.player.chipsInBettingBox = 0 ∧
    ∃ g r, gameAtPass worldAllInTwentyOne BlackjackGame.new.gameStarts 24 = some g ∧
      g.player.chipsToPlay = 1677721600 ∧ g.player.chipsInBettingBox = 0 ∧
      worldAllInTwentyOne.askPlayerToBetChips g.betPrompts 1 g.player.chipsToPlay
        = 1677721600 ∧
      (roundStarts worldAllInTwentyOne g).1 = .ok () ∧
      (roundStarts worldAllInTwentyOne g).2.player.chipsToPlay = -939524096 ∧
      (roundStarts worldAllInTwentyOne g).2.player.chipsToPlay < 0 ∧
      (roundStarts worldAllInTwentyOne g).2.player.chipsInBettingBox = 0 ∧
      beginPlaying 25 worldAllInTwentyOne .new = some r ∧ r.1 = .ok () ∧
      r.2.player.chipsToPlay = -939524096 ∧ r.2.player.chipsToPlay < 0 := by
  obtain ⟨g, r, hreach, hchips, hbox, hbet, hok, hplayer, -, -, -, hret, hrok, hrchips, -⟩ :=
    twenty_fifth_round_worldAllInTwentyOne
  refine ⟨fun _ _ _ hle => ⟨hle, Int.le_refl _⟩, by decide, by decide, g, r, hreach, hchips,
    hbox, hbet, hok, by rw [hplayer], by rw [hplayer]; decide, by rw [hplayer], hret, hrok,
    hrchips, by rw [hrchips]; decide⟩

/-- C22: a round that the player ends at 21 and wins is not always paid the bet.  In the 25th
round of the run `worldAllInTwentyOne` the player stakes the 1677721600 chips held, is dealt
King + Ace (21, so `hasBlackjack` holds) and is not asked for a card, the dealer holds
Jack + Ten (20), and the round is settled as a win; the available chips are then
-939524096, not the 1677721600 held before the bet plus the bet. -/
theorem twenty_one_on_the_25th_all_in_is_not_paid_the_bet :
    ∃ g, gameAtPass worldAllInTwentyOne BlackjackGame.new.gameStarts 24 = some g ∧
      g.player.chipsToPlay = 1677721600 ∧ g.player.chipsInBettingBox = 0 ∧
      worldAllInTwentyOne.askPlayerToBetChips g.betPrompts 1 g.player.chipsToPlay
        = 1677721600 ∧
      (roundStarts worldAllInTwentyOne g).2.player.playerHand.cardsInHand
        = [⟨.King, .Clubs⟩, ⟨.Ace, .Clubs⟩] ∧
      (roundStarts worldAllInTwentyOne g).2.player.getHandValue = 21 ∧
      (roundStarts worldAllInTwentyOne g).2.player.hasBlackjack = true ∧
      (roundStarts worldAllInTwentyOne g).2.cardPrompts = g.cardPrompts ∧
      (roundStarts worldAllInTwentyOne g).2.dealer.getHandValue = 20 ∧
      settlementAnnouncements (roundStarts worldAllInTwentyOne g).2.output
        = settlementAnnouncements g.output ++ [.announcePlayerWins] ∧
      (roundStarts worldAllInTwentyOne g).2.player.chipsToPlay = -939524096 ∧
      (roundStarts worldAllInTwentyOne g).2.player.chipsToPlay
        ≠ g.player.chipsToPlay
          + worldAllInTwentyOne.askPlayerToBetChips g.betPrompts 1 g.player.chipsToPlay := by
  obtain ⟨g, r, hreach, hchips, hbox, hbet, -, hplayer, hdealer, hprompts, hann, -⟩ :=
    twenty_fifth_round_worldAllInTwentyOne
  refine ⟨g, hreach, hchips, hbox, hbet, by rw [hplayer], by rw [hplayer]; rfl,
    by rw [hplayer]; rfl, hprompts, by rw [hdealer]; rfl, hann, by rw [hplayer], ?_⟩
  rw [hplayer, hbet, hchips]
  decide

end BlackjackGame
end Blackjack
